import Mathlib

/-! # Thrive serialization: `StorageContainer`, `StorageList` and the binary codec

A shallow embedding of `src/engine/serialization.cpp`.

Modelling conventions.

* A `std::string`, and the content of a `std::istream` / `std::ostream`, is a
  list of bytes (`Fin 256`).  A stream that is read is represented by the bytes
  that remain to be read; a stream that is written by the bytes written.
* Machine integers are `Nat` / `Int`; a value is brought into its C++ type with
  an explicit `% 2 ^ w`.  The byte order of the raw integer encoding is the one
  of the platforms the engine is built for (little endian), and plain `char`
  is signed there.
* `float`, `double`, `boost::lexical_cast` and the Ogre colour packing are not
  code of this file: they are the fields of `Externals`, a parameter of the
  whole development.  What `luaGet` takes from luabind is the parameter
  `Luabind`.
* A container is given by the content of its `Implementation`.  Where the
  pointer `m_impl` itself matters, for the moves, an object is a
  `ContainerObject`, whose `m_impl` can be null.
* `std::unordered_map` is a list of key/value pairs in iteration order, with
  at most one pair per key.  The iteration order of the real map is
  unspecified; the model iterates in insertion order.
* `assert` is taken as enabled: a failed assertion, like a thrown exception,
  is a `Failure`.
* The codec is mutually recursive (`operator>>` calls `deserialize`, which
  calls `operator>>` for nested containers).  The embedding ties the knot with
  a fuel argument that bounds the nesting depth.
-/

namespace Thrive

/-! ## Bytes, strings, streams -/

/-- One byte. -/
abbrev Byte := Fin 256

/-- A `std::string`: a finite sequence of bytes. -/
abbrev Str := List Byte

/-- The bytes of a stream: those still to be read, or those written. -/
abbrev Stream := List Byte

/-- The bytes of a string literal of the source (ASCII). -/
def str (s : String) : Str :=
  s.toList.map (fun ch => ⟨ch.toNat % 256, Nat.mod_lt _ (by decide)⟩)

/-- The ways an operation of the embedded code can fail. -/
inductive Failure
  /-- An `assert(not stream.fail())` fired: the stream ended inside a field. -/
  | streamFail
  /-- The `assert(false && "Unknown type id. ...")` of `deserialize` fired. -/
  | unknownTypeId
  /-- A `boost::lexical_cast` threw `bad_lexical_cast`. -/
  | badLexicalCast
  /-- A `boost::get` threw `bad_get`. -/
  | badGet
  /-- The `assert(index > 0)` of `StorageList::get` fired. -/
  | assertIndex
  /-- The `std::vector::at` of `StorageList::get` threw `std::out_of_range`. -/
  | outOfRange
  /-- The nesting bound of the embedding was reached (not a behaviour of the code). -/
  | outOfFuel
  /-- A null `m_impl` was dereferenced (undefined behaviour in the code). -/
  | nullDereference
  deriving DecidableEq, Repr

/-! ## External value types -/

/-- An `Ogre::Degree`, over the type of `Ogre::Real`. -/
structure Degree (R : Type) where
  valueDegrees : R

/-- An `Ogre::Vector3`. -/
structure Vector3 (R : Type) where
  x : R
  y : R
  z : R

/-- An `Ogre::Quaternion`. -/
structure Quaternion (R : Type) where
  w : R
  x : R
  y : R
  z : R

/-- An `Ogre::Plane`. -/
structure Plane (R : Type) where
  normal : Vector3 R
  d : R

/-- An `Ogre::ColourValue`. -/
structure ColourValue (R : Type) where
  r : R
  g : R
  b : R
  a : R

/-- What the file takes from outside: the floating point types, the two
directions of `boost::lexical_cast` on them, and the Ogre operations used by
the compound adapters. -/
structure Externals where
  /-- The type `float` (also `Ogre::Real`). -/
  F32 : Type
  /-- The type `double`. -/
  F64 : Type
  /-- The value `float()`. -/
  zero32 : F32
  /-- The value `double()`. -/
  zero64 : F64
  /-- Unary minus on `float`. -/
  neg32 : F32 → F32
  /-- The cast `boost::lexical_cast<std::string>(float)`. -/
  print32 : F32 → Str
  /-- The cast `boost::lexical_cast<float>(std::string)`; `none` when it throws. -/
  parse32 : Str → Option F32
  /-- The cast `boost::lexical_cast<std::string>(double)`. -/
  print64 : F64 → Str
  /-- The cast `boost::lexical_cast<double>(std::string)`; `none` when it throws. -/
  parse64 : Str → Option F64
  /-- The packing `Ogre::ColourValue::getAsRGBA`. -/
  getAsRGBA : ColourValue F32 → Nat
  /-- The unpacking `Ogre::ColourValue::setAsRGBA`, as a function of the colour it is called on. -/
  setAsRGBA : ColourValue F32 → Nat → ColourValue F32

/-! ## The type registry (`TYPE_INFO`) -/

/-- A `TypeId` is a `uint16_t`. -/
abbrev TypeId := Nat

/-- The alternatives of the `boost::variant` `Variant`. -/
inductive Kind
  | bool | char | int8 | int16 | int32 | int64
  | uint8 | uint16 | uint32 | uint64
  | float | double | string | storageContainer | storageList
  deriving DecidableEq, Repr

/-- The types that have a `TYPE_INFO` line. -/
inductive LogicalType
  | bool | char | int8 | int16 | int32 | int64
  | uint8 | uint16 | uint32 | uint64
  | float | double | string | storageContainer | storageList
  | degree | plane | vector3 | quaternion | colourValue
  deriving DecidableEq, Repr

/-- The member `TypeInfo<T>::Id`. -/
def TypeInfo.Id : LogicalType → TypeId
  | .bool => 16
  | .char => 32
  | .int8 => 48
  | .int16 => 64
  | .int32 => 80
  | .int64 => 96
  | .uint8 => 112
  | .uint16 => 128
  | .uint32 => 144
  | .uint64 => 160
  | .float => 176
  | .double => 192
  | .string => 208
  | .storageContainer => 224
  | .storageList => 240
  | .degree => 272
  | .plane => 288
  | .vector3 => 304
  | .quaternion => 320
  | .colourValue => 336

/-- The member `TypeInfo<T>::StoredType`, as an alternative of `Variant`. -/
def TypeInfo.StoredType : LogicalType → Kind
  | .bool => .bool
  | .char => .char
  | .int8 => .int8
  | .int16 => .int16
  | .int32 => .int32
  | .int64 => .int64
  | .uint8 => .uint8
  | .uint16 => .uint16
  | .uint32 => .uint32
  | .uint64 => .uint64
  | .float => .float
  | .double => .double
  | .string => .string
  | .storageContainer => .storageContainer
  | .storageList => .storageList
  | .degree => .float
  | .plane => .storageContainer
  | .vector3 => .storageContainer
  | .quaternion => .storageContainer
  | .colourValue => .uint32

/-- The table `IdToType<typeId>::Type`: the type registered under a `TypeId`,
`none` for the primary template (`void`). -/
def IdToType (typeId : TypeId) : Option LogicalType :=
  if typeId = 16 then some .bool
  else if typeId = 32 then some .char
  else if typeId = 48 then some .int8
  else if typeId = 64 then some .int16
  else if typeId = 80 then some .int32
  else if typeId = 96 then some .int64
  else if typeId = 112 then some .uint8
  else if typeId = 128 then some .uint16
  else if typeId = 144 then some .uint32
  else if typeId = 160 then some .uint64
  else if typeId = 176 then some .float
  else if typeId = 192 then some .double
  else if typeId = 208 then some .string
  else if typeId = 224 then some .storageContainer
  else if typeId = 240 then some .storageList
  else if typeId = 272 then some .degree
  else if typeId = 288 then some .plane
  else if typeId = 304 then some .vector3
  else if typeId = 320 then some .quaternion
  else if typeId = 336 then some .colourValue
  else none

/-! ## Stored values and containers -/

mutual
/-- The `boost::variant` of the fifteen native representations. -/
inductive Variant (ex : Externals) : Type
  | bool (v : Bool)
  | char (v : Int)
  | int8 (v : Int)
  | int16 (v : Int)
  | int32 (v : Int)
  | int64 (v : Int)
  | uint8 (v : Nat)
  | uint16 (v : Nat)
  | uint32 (v : Nat)
  | uint64 (v : Nat)
  | float (v : ex.F32)
  | double (v : ex.F64)
  | string (v : Str)
  | storageContainer (v : StorageContainer ex)
  | storageList (v : List (StorageContainer ex))
/-- The struct `StoredValue`. -/
inductive StoredValue (ex : Externals) : Type
  | mk (typeId : TypeId) (value : Variant ex)
/-- A `StorageContainer`: the `m_content` map of its `Implementation`. -/
inductive StorageContainer (ex : Externals) : Type
  | mk (m_content : List (Str × StoredValue ex))
end

/-- A `StorageList` is a `std::vector<StorageContainer>`. -/
abbrev StorageList (ex : Externals) := List (StorageContainer ex)

/-- The content of the map `m_content`. -/
abbrev Content (ex : Externals) := List (Str × StoredValue ex)

variable {ex : Externals}

/-- The field `typeId`. -/
def StoredValue.typeId : StoredValue ex → TypeId
  | .mk typeId _ => typeId

/-- The field `value`. -/
def StoredValue.value : StoredValue ex → Variant ex
  | .mk _ value => value

/-- The field `m_impl->m_content`. -/
def StorageContainer.m_content : StorageContainer ex → Content ex
  | .mk m => m

/-- The default constructor `StorageContainer()`. -/
def StorageContainer.empty : StorageContainer ex := .mk []

/-- The alternative a variant currently holds (`which()`). -/
def Variant.kind : Variant ex → Kind
  | .bool _ => .bool
  | .char _ => .char
  | .int8 _ => .int8
  | .int16 _ => .int16
  | .int32 _ => .int32
  | .int64 _ => .int64
  | .uint8 _ => .uint8
  | .uint16 _ => .uint16
  | .uint32 _ => .uint32
  | .uint64 _ => .uint64
  | .float _ => .float
  | .double _ => .double
  | .string _ => .string
  | .storageContainer _ => .storageContainer
  | .storageList _ => .storageList

/-- The C++ type of an alternative of `Variant`. -/
def Kind.type (ex : Externals) : Kind → Type
  | .bool => Bool
  | .char => Int
  | .int8 => Int
  | .int16 => Int
  | .int32 => Int
  | .int64 => Int
  | .uint8 => Nat
  | .uint16 => Nat
  | .uint32 => Nat
  | .uint64 => Nat
  | .float => ex.F32
  | .double => ex.F64
  | .string => Str
  | .storageContainer => StorageContainer ex
  | .storageList => StorageList ex

/-- The value-initialised `StoredType()`, the default argument of `rawGet`. -/
def Kind.default (ex : Externals) : (k : Kind) → k.type ex
  | .bool => false
  | .char => (0 : Int)
  | .int8 => (0 : Int)
  | .int16 => (0 : Int)
  | .int32 => (0 : Int)
  | .int64 => (0 : Int)
  | .uint8 => (0 : Nat)
  | .uint16 => (0 : Nat)
  | .uint32 => (0 : Nat)
  | .uint64 => (0 : Nat)
  | .float => ex.zero32
  | .double => ex.zero64
  | .string => ([] : Str)
  | .storageContainer => (StorageContainer.empty : StorageContainer ex)
  | .storageList => ([] : StorageList ex)

/-- The conversion of a value of a stored type to a `Variant`, as in
`StoredValue{TypeInfo<T>::Id, std::move(value)}`. -/
def Variant.ofStored : (k : Kind) → k.type ex → Variant ex
  | .bool, v => .bool v
  | .char, v => .char v
  | .int8, v => .int8 v
  | .int16, v => .int16 v
  | .int32, v => .int32 v
  | .int64, v => .int64 v
  | .uint8, v => .uint8 v
  | .uint16, v => .uint16 v
  | .uint32, v => .uint32 v
  | .uint64, v => .uint64 v
  | .float, v => .float v
  | .double, v => .double v
  | .string, v => .string v
  | .storageContainer, v => .storageContainer v
  | .storageList, v => .storageList v

/-- The access `boost::get<T>(variant)`: the held value when the variant holds
alternative `T`, and `bad_get` otherwise. -/
def Variant.get : (k : Kind) → Variant ex → Except Failure (k.type ex)
  | .bool, .bool v => .ok v
  | .char, .char v => .ok v
  | .int8, .int8 v => .ok v
  | .int16, .int16 v => .ok v
  | .int32, .int32 v => .ok v
  | .int64, .int64 v => .ok v
  | .uint8, .uint8 v => .ok v
  | .uint16, .uint16 v => .ok v
  | .uint32, .uint32 v => .ok v
  | .uint64, .uint64 v => .ok v
  | .float, .float v => .ok v
  | .double, .double v => .ok v
  | .string, .string v => .ok v
  | .storageContainer, .storageContainer v => .ok v
  | .storageList, .storageList v => .ok v
  | _, _ => .error .badGet

/-! ## The map operations used on `m_content` -/

/-- The lookup `m_content.find(key)`; `none` is `m_content.end()`. -/
def find : Content ex → Str → Option (StoredValue ex)
  | [], _ => none
  | (k, v) :: m, key => if k = key then some v else find m key

/-- The assignment `m_content[key] = value`: overwrite the pair of `key`, or
insert a new pair. -/
def assign : Content ex → Str → StoredValue ex → Content ex
  | [], key, value => [(key, value)]
  | (k, v) :: m, key, value =>
    if k = key then (k, value) :: m else (k, v) :: assign m key value

/-! ## `StorageContainer::Implementation` -/

/-- The template `rawContains<T>`. -/
def rawContains (T : LogicalType) (c : StorageContainer ex) (key : Str) : Bool :=
  match find c.m_content key with
  | none => false
  | some v => decide (v.typeId = TypeInfo.Id T)

/-- The template `rawGet<T>`. -/
def rawGet (T : LogicalType) (c : StorageContainer ex) (key : Str)
    (defaultValue : (TypeInfo.StoredType T).type ex) :
    Except Failure ((TypeInfo.StoredType T).type ex) :=
  match find c.m_content key with
  | none => .ok defaultValue
  | some v =>
    if v.typeId ≠ TypeInfo.Id T then .ok defaultValue
    else Variant.get (TypeInfo.StoredType T) v.value

/-- The template `rawSet<T>`. -/
def rawSet (T : LogicalType) (c : StorageContainer ex) (key : Str)
    (value : (TypeInfo.StoredType T).type ex) : StorageContainer ex :=
  .mk (assign c.m_content key (.mk (TypeInfo.Id T) (Variant.ofStored _ value)))

/-- The method `StorageContainer::keys`. -/
def StorageContainer.keys (c : StorageContainer ex) : List Str :=
  c.m_content.map Prod.fst

/-- The untyped method `StorageContainer::contains(key)`. -/
def StorageContainer.containsKey (c : StorageContainer ex) (key : Str) : Bool :=
  (find c.m_content key).isSome

/-! ## The typed accessors of `StorageContainer` -/

/-- The C++ type of a registered type. -/
def LogicalType.type (ex : Externals) : LogicalType → Type
  | .bool => Bool
  | .char => Int
  | .int8 => Int
  | .int16 => Int
  | .int32 => Int
  | .int64 => Int
  | .uint8 => Nat
  | .uint16 => Nat
  | .uint32 => Nat
  | .uint64 => Nat
  | .float => ex.F32
  | .double => ex.F64
  | .string => Str
  | .storageContainer => StorageContainer ex
  | .storageList => StorageList ex
  | .degree => Degree ex.F32
  | .plane => Plane ex.F32
  | .vector3 => Vector3 ex.F32
  | .quaternion => Quaternion ex.F32
  | .colourValue => ColourValue ex.F32

/-- The specialisations `StorageContainer::contains<T>` (macros `NATIVE_TYPE`
and `CONTAINS`). -/
def StorageContainer.contains (T : LogicalType) (c : StorageContainer ex) (key : Str) : Bool :=
  rawContains T c key

/-- The specialisation `StorageContainer::get<Ogre::Real>`, which is `get<float>`. -/
def getReal (c : StorageContainer ex) (key : Str) (defaultValue : ex.F32) :
    Except Failure ex.F32 :=
  rawGet .float c key defaultValue

/-- The specialisation `StorageContainer::set<Ogre::Real>`, which is `set<float>`. -/
def setReal (c : StorageContainer ex) (key : Str) (value : ex.F32) : StorageContainer ex :=
  rawSet .float c key value

/-- The end of `get<Ogre::Degree>`, after `rawGet`. -/
def Degree.ofStored (value : ex.F32) : Degree ex.F32 :=
  ⟨value⟩

/-- The end of `get<Ogre::Vector3>`, after `rawGet`: the three elements are
read from the nested container, each with the default's element. -/
def Vector3.ofStored (storage : StorageContainer ex) (defaultValue : Vector3 ex.F32) :
    Except Failure (Vector3 ex.F32) :=
  match getReal storage (str "x") defaultValue.x with
  | .error e => .error e
  | .ok x =>
    match getReal storage (str "y") defaultValue.y with
    | .error e => .error e
    | .ok y =>
      match getReal storage (str "z") defaultValue.z with
      | .error e => .error e
      | .ok z => .ok ⟨x, y, z⟩

/-- The specialisation `StorageContainer::get<Ogre::Vector3>`. -/
def getVector3 (c : StorageContainer ex) (key : Str) (defaultValue : Vector3 ex.F32) :
    Except Failure (Vector3 ex.F32) :=
  if ¬ c.contains .vector3 key then .ok defaultValue
  else
    match rawGet .vector3 c key (Kind.default ex _) with
    | .error e => .error e
    | .ok storage => Vector3.ofStored storage defaultValue

/-- The specialisation `StorageContainer::set<Ogre::Vector3>`. -/
def setVector3 (c : StorageContainer ex) (key : Str) (value : Vector3 ex.F32) :
    StorageContainer ex :=
  let storage : StorageContainer ex := StorageContainer.empty
  let storage := setReal storage (str "x") value.x
  let storage := setReal storage (str "y") value.y
  let storage := setReal storage (str "z") value.z
  rawSet .vector3 c key storage

/-- The end of `get<Ogre::Quaternion>`, after `rawGet`. -/
def Quaternion.ofStored (storage : StorageContainer ex) (defaultValue : Quaternion ex.F32) :
    Except Failure (Quaternion ex.F32) :=
  match getReal storage (str "w") defaultValue.w with
  | .error e => .error e
  | .ok w =>
    match getReal storage (str "x") defaultValue.x with
    | .error e => .error e
    | .ok x =>
      match getReal storage (str "y") defaultValue.y with
      | .error e => .error e
      | .ok y =>
        match getReal storage (str "z") defaultValue.z with
        | .error e => .error e
        | .ok z => .ok ⟨w, x, y, z⟩

/-- The specialisation `StorageContainer::get<Ogre::Quaternion>`. -/
def getQuaternion (c : StorageContainer ex) (key : Str) (defaultValue : Quaternion ex.F32) :
    Except Failure (Quaternion ex.F32) :=
  if ¬ c.contains .quaternion key then .ok defaultValue
  else
    match rawGet .quaternion c key (Kind.default ex _) with
    | .error e => .error e
    | .ok storage => Quaternion.ofStored storage defaultValue

/-- The specialisation `StorageContainer::set<Ogre::Quaternion>`. -/
def setQuaternion (c : StorageContainer ex) (key : Str) (value : Quaternion ex.F32) :
    StorageContainer ex :=
  let storage : StorageContainer ex := StorageContainer.empty
  let storage := setReal storage (str "w") value.w
  let storage := setReal storage (str "x") value.x
  let storage := setReal storage (str "y") value.y
  let storage := setReal storage (str "z") value.z
  rawSet .quaternion c key storage

/-- The constructor `Ogre::Plane(normal, constant)`, which stores `d = -constant`. -/
def Plane.ofNormalConstant (normal : Vector3 ex.F32) (constant : ex.F32) : Plane ex.F32 :=
  ⟨normal, ex.neg32 constant⟩

/-- The end of `get<Ogre::Plane>`, after `rawGet`. -/
def Plane.ofStored (storage : StorageContainer ex) (defaultValue : Plane ex.F32) :
    Except Failure (Plane ex.F32) :=
  match getVector3 storage (str "normal") defaultValue.normal with
  | .error e => .error e
  | .ok normal =>
    match getReal storage (str "d") defaultValue.d with
    | .error e => .error e
    | .ok d => .ok (Plane.ofNormalConstant normal (ex.neg32 d))

/-- The specialisation `StorageContainer::get<Ogre::Plane>`. -/
def getPlane (c : StorageContainer ex) (key : Str) (defaultValue : Plane ex.F32) :
    Except Failure (Plane ex.F32) :=
  if ¬ c.contains .plane key then .ok defaultValue
  else
    match rawGet .plane c key (Kind.default ex _) with
    | .error e => .error e
    | .ok storage => Plane.ofStored storage defaultValue

/-- The specialisation `StorageContainer::set<Ogre::Plane>`. -/
def setPlane (c : StorageContainer ex) (key : Str) (value : Plane ex.F32) :
    StorageContainer ex :=
  let storage : StorageContainer ex := StorageContainer.empty
  let storage := setVector3 storage (str "normal") value.normal
  let storage := setReal storage (str "d") value.d
  rawSet .plane c key storage

/-- The specialisation `StorageContainer::get<Ogre::Degree>`. -/
def getDegree (c : StorageContainer ex) (key : Str) (defaultValue : Degree ex.F32) :
    Except Failure (Degree ex.F32) :=
  if ¬ c.contains .degree key then .ok defaultValue
  else
    match rawGet .degree c key (Kind.default ex _) with
    | .error e => .error e
    | .ok value => .ok (Degree.ofStored value)

/-- The specialisation `StorageContainer::set<Ogre::Degree>`. -/
def setDegree (c : StorageContainer ex) (key : Str) (value : Degree ex.F32) :
    StorageContainer ex :=
  rawSet .degree c key value.valueDegrees

/-- The specialisation `StorageContainer::get<Ogre::ColourValue>`. -/
def getColourValue (c : StorageContainer ex) (key : Str) (defaultValue : ColourValue ex.F32) :
    Except Failure (ColourValue ex.F32) :=
  if ¬ c.contains .colourValue key then .ok defaultValue
  else
    match rawGet .colourValue c key (Kind.default ex _) with
    | .error e => .error e
    | .ok rgba => .ok (ex.setAsRGBA defaultValue rgba)

/-- The specialisation `StorageContainer::set<Ogre::ColourValue>`; the packed
colour is a `uint32_t`. -/
def setColourValue (c : StorageContainer ex) (key : Str) (value : ColourValue ex.F32) :
    StorageContainer ex :=
  rawSet .colourValue c key (ex.getAsRGBA value % 2 ^ 32)

/-- The template `StorageContainer::get<T>`, over all its specialisations. -/
def StorageContainer.get (c : StorageContainer ex) :
    (T : LogicalType) → Str → T.type ex → Except Failure (T.type ex)
  | .bool, key, d => rawGet .bool c key d
  | .char, key, d => rawGet .char c key d
  | .int8, key, d => rawGet .int8 c key d
  | .int16, key, d => rawGet .int16 c key d
  | .int32, key, d => rawGet .int32 c key d
  | .int64, key, d => rawGet .int64 c key d
  | .uint8, key, d => rawGet .uint8 c key d
  | .uint16, key, d => rawGet .uint16 c key d
  | .uint32, key, d => rawGet .uint32 c key d
  | .uint64, key, d => rawGet .uint64 c key d
  | .float, key, d => rawGet .float c key d
  | .double, key, d => rawGet .double c key d
  | .string, key, d => rawGet .string c key d
  | .storageContainer, key, d => rawGet .storageContainer c key d
  | .storageList, key, d => rawGet .storageList c key d
  | .degree, key, d => getDegree c key d
  | .plane, key, d => getPlane c key d
  | .vector3, key, d => getVector3 c key d
  | .quaternion, key, d => getQuaternion c key d
  | .colourValue, key, d => getColourValue c key d

/-- The template `StorageContainer::set<T>`, over all its specialisations. -/
def StorageContainer.set (c : StorageContainer ex) :
    (T : LogicalType) → Str → T.type ex → StorageContainer ex
  | .bool, key, v => rawSet .bool c key v
  | .char, key, v => rawSet .char c key v
  | .int8, key, v => rawSet .int8 c key v
  | .int16, key, v => rawSet .int16 c key v
  | .int32, key, v => rawSet .int32 c key v
  | .int64, key, v => rawSet .int64 c key v
  | .uint8, key, v => rawSet .uint8 c key v
  | .uint16, key, v => rawSet .uint16 c key v
  | .uint32, key, v => rawSet .uint32 c key v
  | .uint64, key, v => rawSet .uint64 c key v
  | .float, key, v => rawSet .float c key v
  | .double, key, v => rawSet .double c key v
  | .string, key, v => rawSet .string c key v
  | .storageContainer, key, v => rawSet .storageContainer c key v
  | .storageList, key, v => rawSet .storageList c key v
  | .degree, key, v => setDegree c key v
  | .plane, key, v => setPlane c key v
  | .vector3, key, v => setVector3 c key v
  | .quaternion, key, v => setQuaternion c key v
  | .colourValue, key, v => setColourValue c key v

/-- The fifteen types of the `NATIVE_TYPE` lines. -/
def LogicalType.isNative : LogicalType → Bool
  | .degree => false
  | .plane => false
  | .vector3 => false
  | .quaternion => false
  | .colourValue => false
  | _ => true

/-! ## `StorageList` -/

/-- The method `StorageList::append`. -/
def StorageList.append (l : StorageList ex) (element : StorageContainer ex) : StorageList ex :=
  l ++ [element]

/-- The method `size()` of the vector. -/
def StorageList.size (l : StorageList ex) : Nat :=
  l.length

/-- The bounds-checked access `std::vector::at`. -/
def StorageList.at (l : StorageList ex) (index : Nat) : Except Failure (StorageContainer ex) :=
  match l[index]? with
  | some element => .ok element
  | none => .error .outOfRange

/-- The method `StorageList::get`; `index` is a `size_t`, so `index - 1` is
computed modulo `2 ^ 64`. -/
def StorageList.get (l : StorageList ex) (index : Nat) : Except Failure (StorageContainer ex) :=
  if index > 0 then StorageList.at l ((index + 2 ^ 64 - 1) % 2 ^ 64)
  else .error .assertIndex

/-! ## Raw integers on a stream -/

/-- The `width` bytes of the object representation of an unsigned value (little
endian); it keeps the low `8 * width` bits of `n`. -/
def toLE : Nat → Nat → List Byte
  | 0, _ => []
  | width + 1, n => ⟨n % 256, Nat.mod_lt _ (by decide)⟩ :: toLE width (n / 256)

/-- The unsigned value whose object representation is the given bytes. -/
def fromLE : List Byte → Nat
  | [] => 0
  | b :: bs => b.val + 256 * fromLE bs

/-- The bit pattern of a signed value of `width` bytes (two's complement). -/
def toUnsigned (width : Nat) (v : Int) : Nat :=
  (v % 2 ^ (8 * width)).toNat

/-- The signed value of `width` bytes with the given bit pattern. -/
def toSigned (width : Nat) (n : Nat) : Int :=
  if n < 2 ^ (8 * width - 1) then (n : Int) else (n : Int) - 2 ^ (8 * width)

/-- The function `IntegralTypeHandler<T>::serialize`, on the bit pattern of the
value; `width` is `sizeof(T)`. -/
def IntegralTypeHandler.serialize (width : Nat) (value : Nat) : Stream :=
  toLE width value

/-- The function `IntegralTypeHandler<T>::deserialize`, to the bit pattern of
the value: `stream.read` of `sizeof(T)` bytes, then `assert(not stream.fail())`. -/
def IntegralTypeHandler.deserialize (width : Nat) (s : Stream) : Except Failure (Nat × Stream) :=
  if width ≤ s.length then .ok (fromLE (s.take width), s.drop width)
  else .error .streamFail

/-- Apply a constructor of `Variant` to the value a handler returned. -/
def wrap {α : Type} (f : α → Variant ex) :
    Except Failure (α × Stream) → Except Failure (Variant ex × Stream)
  | .ok (a, r) => .ok (f a, r)
  | .error e => .error e

/-- The handler `IntegralTypeHandler<T>::deserialize` for a signed `T`. -/
def IntegralTypeHandler.deserializeSigned (width : Nat) (s : Stream) :
    Except Failure (Int × Stream) :=
  match IntegralTypeHandler.deserialize width s with
  | .ok (n, r) => .ok (toSigned width n, r)
  | .error e => .error e

/-- The handler `IntegralTypeHandler<T>::serialize` for a signed `T`. -/
def IntegralTypeHandler.serializeSigned (width : Nat) (value : Int) : Stream :=
  IntegralTypeHandler.serialize width (toUnsigned width value)

/-! ## `TypeHandler<bool>`, `<char>`, `<std::string>`, `<float>`, `<double>` -/

/-- The function `TypeHandler<bool>::deserialize`. -/
def TypeHandler.bool.deserialize (s : Stream) : Except Failure (Bool × Stream) :=
  match IntegralTypeHandler.deserialize 1 s with
  | .ok (value, r) => .ok (decide (value > 0), r)
  | .error e => .error e

/-- The function `TypeHandler<bool>::serialize`. -/
def TypeHandler.bool.serialize (value : Bool) : Stream :=
  IntegralTypeHandler.serialize 1 (if value then 1 else 0)

/-- The function `TypeHandler<char>::deserialize`: `stream.read(&value, 1)`,
then `assert(not stream.fail())`. -/
def TypeHandler.char.deserialize (s : Stream) : Except Failure (Int × Stream) :=
  match s with
  | b :: r => .ok (toSigned 1 b.val, r)
  | [] => .error .streamFail

/-- The function `TypeHandler<char>::serialize`: `stream.write(&value, 1)`. -/
def TypeHandler.char.serialize (value : Int) : Stream :=
  [⟨toUnsigned 1 value % 256, Nat.mod_lt _ (by decide)⟩]

/-- The function `TypeHandler<std::string>::deserialize`: the size, then
`stream.read` of `size` bytes and `assert(not stream.fail())`. -/
def TypeHandler.string.deserialize (s : Stream) : Except Failure (Str × Stream) :=
  match IntegralTypeHandler.deserialize 8 s with
  | .error e => .error e
  | .ok (size, s1) =>
    if size ≤ s1.length then .ok (s1.take size, s1.drop size)
    else .error .streamFail

/-- The function `TypeHandler<std::string>::serialize`: the size as a
`uint64_t`, then the bytes of the string. -/
def TypeHandler.string.serialize (string : Str) : Stream :=
  IntegralTypeHandler.serialize 8 string.length ++ string

/-- The function `TypeHandler<float>::deserialize`. -/
def TypeHandler.float.deserialize (ex : Externals) (s : Stream) :
    Except Failure (ex.F32 × Stream) :=
  match TypeHandler.string.deserialize s with
  | .error e => .error e
  | .ok (asString, r) =>
    match ex.parse32 asString with
    | some value => .ok (value, r)
    | none => .error .badLexicalCast

/-- The function `TypeHandler<float>::serialize`. -/
def TypeHandler.float.serialize (ex : Externals) (value : ex.F32) : Stream :=
  TypeHandler.string.serialize (ex.print32 value)

/-- The function `TypeHandler<double>::deserialize`. -/
def TypeHandler.double.deserialize (ex : Externals) (s : Stream) :
    Except Failure (ex.F64 × Stream) :=
  match TypeHandler.string.deserialize s with
  | .error e => .error e
  | .ok (asString, r) =>
    match ex.parse64 asString with
    | some value => .ok (value, r)
    | none => .error .badLexicalCast

/-- The function `TypeHandler<double>::serialize`. -/
def TypeHandler.double.serialize (ex : Externals) (value : ex.F64) : Stream :=
  TypeHandler.string.serialize (ex.print64 value)

/-! ## Deserialization of containers and lists

The functions below take the `deserialize(typeId, stream)` they call as an
argument `deser`; `deserialize` passes itself, with one unit of fuel less. -/

/-- The `for` loop of `operator>>`: `count` times, read a key and a `TypeId`,
deserialize the payload and assign the entry to `m_content` (the payload is
deserialized before the map is touched).  The map is returned as it is when
the loop ends or stops. -/
def readEntries (deser : TypeId → Stream → Except Failure (Variant ex × Stream)) :
    Nat → Stream → Content ex → Content ex × Except Failure Stream
  | 0, s, m => (m, .ok s)
  | count + 1, s, m =>
    match TypeHandler.string.deserialize s with
    | .error e => (m, .error e)
    | .ok (key, s1) =>
      match IntegralTypeHandler.deserialize 2 s1 with
      | .error e => (m, .error e)
      | .ok (typeId, s2) =>
        match deser typeId s2 with
        | .error e => (m, .error e)
        | .ok (value, s3) => readEntries deser count s3 (assign m key (.mk typeId value))

/-- The body of `operator>>(stream, storage)`: the container `storage` as the
call leaves it, and the stream, or the failure that stopped the call. -/
def operatorRshiftWith (deser : TypeId → Stream → Except Failure (Variant ex × Stream))
    (s : Stream) (storage : StorageContainer ex) :
    StorageContainer ex × Except Failure Stream :=
  match IntegralTypeHandler.deserialize 8 s with
  | .error e => (storage, .error e)
  | .ok (size, s1) =>
    let result := readEntries deser size s1 []
    (.mk result.1, result.2)

/-- The function `TypeHandler<StorageContainer>::deserialize`. -/
def TypeHandler.storageContainer.deserializeWith
    (deser : TypeId → Stream → Except Failure (Variant ex × Stream)) (s : Stream) :
    Except Failure (StorageContainer ex × Stream) :=
  match operatorRshiftWith deser s StorageContainer.empty with
  | (value, .ok r) => .ok (value, r)
  | (_, .error e) => .error e

/-- The `for` loop of `TypeHandler<StorageList>::deserialize`. -/
def readElements (deser : TypeId → Stream → Except Failure (Variant ex × Stream)) :
    Nat → Stream → StorageList ex → Except Failure (StorageList ex × Stream)
  | 0, s, list => .ok (list, s)
  | count + 1, s, list =>
    match TypeHandler.storageContainer.deserializeWith deser s with
    | .error e => .error e
    | .ok (element, s1) => readElements deser count s1 (StorageList.append list element)

/-- The function `TypeHandler<StorageList>::deserialize`. -/
def TypeHandler.storageList.deserializeWith
    (deser : TypeId → Stream → Except Failure (Variant ex × Stream)) (s : Stream) :
    Except Failure (StorageList ex × Stream) :=
  match IntegralTypeHandler.deserialize 8 s with
  | .error e => .error e
  | .ok (size, s1) => readElements deser size s1 []

/-- The call `TypeHandler<StoredType>::deserialize(stream)` of a
`DESERIALIZE_CASE`, converted to `Variant`. -/
def TypeHandler.deserializeWith
    (deser : TypeId → Stream → Except Failure (Variant ex × Stream)) :
    Kind → Stream → Except Failure (Variant ex × Stream)
  | .bool, s => wrap .bool (TypeHandler.bool.deserialize s)
  | .char, s => wrap .char (TypeHandler.char.deserialize s)
  | .int8, s => wrap .int8 (IntegralTypeHandler.deserializeSigned 1 s)
  | .int16, s => wrap .int16 (IntegralTypeHandler.deserializeSigned 2 s)
  | .int32, s => wrap .int32 (IntegralTypeHandler.deserializeSigned 4 s)
  | .int64, s => wrap .int64 (IntegralTypeHandler.deserializeSigned 8 s)
  | .uint8, s => wrap .uint8 (IntegralTypeHandler.deserialize 1 s)
  | .uint16, s => wrap .uint16 (IntegralTypeHandler.deserialize 2 s)
  | .uint32, s => wrap .uint32 (IntegralTypeHandler.deserialize 4 s)
  | .uint64, s => wrap .uint64 (IntegralTypeHandler.deserialize 8 s)
  | .float, s => wrap .float (TypeHandler.float.deserialize ex s)
  | .double, s => wrap .double (TypeHandler.double.deserialize ex s)
  | .string, s => wrap .string (TypeHandler.string.deserialize s)
  | .storageContainer, s =>
    wrap .storageContainer (TypeHandler.storageContainer.deserializeWith deser s)
  | .storageList, s => wrap .storageList (TypeHandler.storageList.deserializeWith deser s)

/-- The function `deserialize(typeId, stream)`: the `switch` over the
registered ids, with `assert(false)` as its default.  At most `fuel` levels of
nested containers are entered. -/
def deserialize : Nat → TypeId → Stream → Except Failure (Variant ex × Stream)
  | 0, _, _ => .error .outOfFuel
  | fuel + 1, typeId, s =>
    match IdToType typeId with
    | none => .error .unknownTypeId
    | some T => TypeHandler.deserializeWith (deserialize fuel) (TypeInfo.StoredType T) s

/-- The operator `thrive::operator>>` with an explicit bound on the nesting. -/
def operatorRshiftFuel (fuel : Nat) (s : Stream) (storage : StorageContainer ex) :
    StorageContainer ex × Except Failure Stream :=
  operatorRshiftWith (deserialize fuel) s storage

/-- The operator `thrive::operator>>`.  A level of nesting takes at least eight
bytes of the stream, so the length of the stream bounds the nesting. -/
def operatorRshift (s : Stream) (storage : StorageContainer ex) :
    StorageContainer ex × Except Failure Stream :=
  operatorRshiftFuel s.length s storage

/-! ## Serialization -/

mutual
/-- The visitor `SerializationVisitor`: `TypeHandler<T>::serialize` for the
alternative `T` the variant holds. -/
def Variant.serialize : Variant ex → Stream
  | .bool v => TypeHandler.bool.serialize v
  | .char v => TypeHandler.char.serialize v
  | .int8 v => IntegralTypeHandler.serializeSigned 1 v
  | .int16 v => IntegralTypeHandler.serializeSigned 2 v
  | .int32 v => IntegralTypeHandler.serializeSigned 4 v
  | .int64 v => IntegralTypeHandler.serializeSigned 8 v
  | .uint8 v => IntegralTypeHandler.serialize 1 v
  | .uint16 v => IntegralTypeHandler.serialize 2 v
  | .uint32 v => IntegralTypeHandler.serialize 4 v
  | .uint64 v => IntegralTypeHandler.serialize 8 v
  | .float v => TypeHandler.float.serialize ex v
  | .double v => TypeHandler.double.serialize ex v
  | .string v => TypeHandler.string.serialize v
  | .storageContainer v => operatorLshift v
  | .storageList v => IntegralTypeHandler.serialize 8 v.length ++ serializeElements v
/-- The operator `thrive::operator<<`: the size of the map, then its entries. -/
def operatorLshift : StorageContainer ex → Stream
  | .mk content => IntegralTypeHandler.serialize 8 content.length ++ serializeEntries content
/-- The `for` loop of `operator<<`: key, `TypeId` and payload of each entry. -/
def serializeEntries : Content ex → Stream
  | [] => []
  | (key, .mk typeId value) :: rest =>
    TypeHandler.string.serialize key ++ IntegralTypeHandler.serialize 2 typeId
      ++ value.serialize ++ serializeEntries rest
/-- The `for` loop of `TypeHandler<StorageList>::serialize`. -/
def serializeElements : List (StorageContainer ex) → Stream
  | [] => []
  | storageContainer :: rest => operatorLshift storageContainer ++ serializeElements rest
end

/-- The function `TypeHandler<StorageList>::serialize`. -/
def TypeHandler.storageList.serialize (list : StorageList ex) : Stream :=
  IntegralTypeHandler.serialize 8 list.length ++ serializeElements list

/-! ## An instance of the externals

Decimal fixed point numbers with one fractional digit, held as a number of
tenths, stand in for `float` and `double` where a concrete value is needed:
`15` is `1.5` and its text is `"1.5"`. -/

/-- The text of a number of tenths: sign, integer part, point, one digit. -/
def Tenths.print (v : Int) : Str :=
  (if v < 0 then str "-" else []) ++ str (toString (v.natAbs / 10)) ++ str "."
    ++ str (toString (v.natAbs % 10))

/-- The value of a decimal digit. -/
def Tenths.digit (b : Byte) : Option Nat :=
  if 48 ≤ b.val ∧ b.val ≤ 57 then some (b.val - 48) else none

/-- Read digits, a point and one last digit: the number of tenths. -/
def Tenths.parseDigits : List Byte → Nat → Bool → Option Nat
  | [], _, _ => none
  | b :: rest, acc, seen =>
    if b.val = 46 ∧ seen = true then
      match rest with
      | [f] => (Tenths.digit f).map (fun d => acc * 10 + d)
      | _ => none
    else
      match Tenths.digit b with
      | some d => Tenths.parseDigits rest (acc * 10 + d) true
      | none => none

/-- Read the text of a number of tenths; `none` when the text is no such number. -/
def Tenths.parse (s : Str) : Option Int :=
  match s with
  | [] => none
  | b :: rest =>
    if b.val = 45 then (Tenths.parseDigits rest 0 false).map (fun n => - (n : Int))
    else (Tenths.parseDigits s 0 false).map (fun n => (n : Int))

/-- One colour channel, a number of tenths between `0` and `10`, as a byte. -/
def Tenths.channel (v : Int) : Nat :=
  (min (max v 0) 10).toNat * 255 / 10

/-- The externals over numbers of tenths. -/
@[reducible]
def tenths : Externals where
  F32 := Int
  F64 := Int
  zero32 := 0
  zero64 := 0
  neg32 := fun v => - v
  print32 := Tenths.print
  parse32 := Tenths.parse
  print64 := Tenths.print
  parse64 := Tenths.parse
  getAsRGBA := fun c =>
    Tenths.channel c.r * 2 ^ 24 + Tenths.channel c.g * 2 ^ 16 + Tenths.channel c.b * 2 ^ 8
      + Tenths.channel c.a
  setAsRGBA := fun _ rgba =>
    ⟨((rgba / 2 ^ 24 % 256 * 10 / 255 : Nat) : Int), ((rgba / 2 ^ 16 % 256 * 10 / 255 : Nat) : Int),
      ((rgba / 2 ^ 8 % 256 * 10 / 255 : Nat) : Int), ((rgba % 256 * 10 / 255 : Nat) : Int)⟩

/-- The container of the scenario: `name = "Agent"`, `hp = 42` as `int32_t`,
and `pos`, a nested container with the floats `x = 1.5`, `y = 2.5`, `z = 3.5`. -/
def agent : StorageContainer tenths :=
  let pos : StorageContainer tenths := StorageContainer.empty
  let pos := pos.set .float (str "x") (15 : Int)
  let pos := pos.set .float (str "y") (25 : Int)
  let pos := pos.set .float (str "z") (35 : Int)
  let c : StorageContainer tenths := StorageContainer.empty
  let c := c.set .string (str "name") (str "Agent")
  let c := c.set .int32 (str "hp") (42 : Int)
  c.set .storageContainer (str "pos") pos

/-! ## Well-formed and consistent containers -/

mutual
/-- A payload the program can hold and the codec can carry: an integer lies in
the range of its C++ type, a size fits a `uint64_t`, and the text a float is
cast to is cast back to the same float. -/
def Variant.WellFormed : Variant ex → Prop
  | .bool _ => True
  | .char v => -2 ^ 7 ≤ v ∧ v < 2 ^ 7
  | .int8 v => -2 ^ 7 ≤ v ∧ v < 2 ^ 7
  | .int16 v => -2 ^ 15 ≤ v ∧ v < 2 ^ 15
  | .int32 v => -2 ^ 31 ≤ v ∧ v < 2 ^ 31
  | .int64 v => -2 ^ 63 ≤ v ∧ v < 2 ^ 63
  | .uint8 v => v < 2 ^ 8
  | .uint16 v => v < 2 ^ 16
  | .uint32 v => v < 2 ^ 32
  | .uint64 v => v < 2 ^ 64
  | .float v => ex.parse32 (ex.print32 v) = some v ∧ (ex.print32 v).length < 2 ^ 64
  | .double v => ex.parse64 (ex.print64 v) = some v ∧ (ex.print64 v).length < 2 ^ 64
  | .string v => v.length < 2 ^ 64
  | .storageContainer v => v.WellFormed
  | .storageList v => v.length < 2 ^ 64 ∧ WellFormedElements v
/-- A container the program can hold: its keys are pairwise different, every
entry is tagged with a registered `TypeId` whose stored type is the alternative
the payload holds, and every payload is well formed. -/
def StorageContainer.WellFormed : StorageContainer ex → Prop
  | .mk content =>
    content.length < 2 ^ 64 ∧ (content.map Prod.fst).Nodup ∧ WellFormedEntries content
/-- The entries of a well-formed container, apart from the keys being different. -/
def WellFormedEntries : Content ex → Prop
  | [] => True
  | (key, .mk typeId value) :: rest =>
    key.length < 2 ^ 64 ∧ (IdToType typeId).map TypeInfo.StoredType = some value.kind
      ∧ value.WellFormed ∧ WellFormedEntries rest
/-- The elements of a list are well formed. -/
def WellFormedElements : List (StorageContainer ex) → Prop
  | [] => True
  | storageContainer :: rest => storageContainer.WellFormed ∧ WellFormedElements rest
end

mutual
/-- The containers inside a payload are consistent. -/
def Variant.Consistent : Variant ex → Prop
  | .storageContainer v => v.Consistent
  | .storageList v => ConsistentElements v
  | _ => True
/-- The invariant of the map: one entry per key, and every entry, also of the
nested containers, is tagged with a registered `TypeId` whose stored type is
the alternative the payload holds. -/
def StorageContainer.Consistent : StorageContainer ex → Prop
  | .mk content => (content.map Prod.fst).Nodup ∧ ConsistentEntries content
/-- The tags of the entries agree with their payloads. -/
def ConsistentEntries : Content ex → Prop
  | [] => True
  | (_, .mk typeId value) :: rest =>
    (IdToType typeId).map TypeInfo.StoredType = some value.kind
      ∧ value.Consistent ∧ ConsistentEntries rest
/-- The elements of a list are consistent. -/
def ConsistentElements : List (StorageContainer ex) → Prop
  | [] => True
  | storageContainer :: rest => storageContainer.Consistent ∧ ConsistentElements rest
end

/-- The containers a program obtains through the public operations: the
default constructor, the setters, `operator>>` (also when it stops on a
failure), and the reads of nested containers and of list elements.  A copy is
equal to its source, and so is the destination of a move; the object a move
leaves behind has no `m_content` and is not a container in this sense. -/
inductive Reachable : StorageContainer ex → Prop
  | empty : Reachable StorageContainer.empty
  | set (c : StorageContainer ex) (T : LogicalType) (key : Str) (v : T.type ex) :
      Reachable c → T ≠ .storageContainer → T ≠ .storageList → Reachable (c.set T key v)
  | setContainer (c : StorageContainer ex) (key : Str) (v : StorageContainer ex) :
      Reachable c → Reachable v → Reachable (c.set .storageContainer key v)
  | setList (c : StorageContainer ex) (key : Str) (l : StorageList ex) :
      Reachable c → (∀ x, x ∈ l → Reachable x) → Reachable (c.set .storageList key l)
  | deserialize (s : Stream) (c : StorageContainer ex) :
      Reachable c → Reachable (operatorRshift s c).1
  | getContainer (c : StorageContainer ex) (key : Str) (d r : StorageContainer ex) :
      Reachable c → Reachable d → c.get .storageContainer key d = .ok r → Reachable r
  | getElement (c : StorageContainer ex) (key : Str) (d l : StorageList ex)
      (x : StorageContainer ex) :
      Reachable c → (∀ y, y ∈ d → Reachable y) → c.get .storageList key d = .ok l → x ∈ l →
      Reachable x

/-- The assignments `m_content[key] = value` for a sequence of entries, in order. -/
def assignAll : Content ex → Content ex → Content ex
  | m, [] => m
  | m, (key, value) :: rest => assignAll (assign m key value) rest

/-! ## The wire format, in the words of the specification -/

/-- An unsigned 64-bit integer on the wire: eight bytes, least significant first. -/
def Wire.u64 (n : Nat) : List Byte :=
  [⟨n % 256, Nat.mod_lt _ (by decide)⟩,
   ⟨n / 256 % 256, Nat.mod_lt _ (by decide)⟩,
   ⟨n / 256 ^ 2 % 256, Nat.mod_lt _ (by decide)⟩,
   ⟨n / 256 ^ 3 % 256, Nat.mod_lt _ (by decide)⟩,
   ⟨n / 256 ^ 4 % 256, Nat.mod_lt _ (by decide)⟩,
   ⟨n / 256 ^ 5 % 256, Nat.mod_lt _ (by decide)⟩,
   ⟨n / 256 ^ 6 % 256, Nat.mod_lt _ (by decide)⟩,
   ⟨n / 256 ^ 7 % 256, Nat.mod_lt _ (by decide)⟩]

/-- An unsigned 16-bit integer on the wire: two bytes, least significant first. -/
def Wire.u16 (n : Nat) : List Byte :=
  [⟨n % 256, Nat.mod_lt _ (by decide)⟩, ⟨n / 256 % 256, Nat.mod_lt _ (by decide)⟩]

/-- A string on the wire: its length as an unsigned 64-bit integer, then its
bytes, without a terminator. -/
def Wire.string (s : Str) : List Byte :=
  Wire.u64 s.length ++ s

/-- The stream `p` is a beginning of `s` that stops before the end of `s`. -/
def IsTruncation (p s : Stream) : Prop :=
  ∃ q : Stream, q ≠ [] ∧ p ++ q = s

/-- A fixed-width integer on the wire: the `width` bytes of the bit pattern
`n`, least significant first. -/
def Wire.fixed (width n : Nat) : List Byte :=
  (List.range width).map (fun i => ⟨n / 256 ^ i % 256, Nat.mod_lt _ (by decide)⟩)

/-- The payload of an entry on the wire, by the alternative it holds; `container`
is the encoding of a nested container. -/
def Wire.payload (container : StorageContainer ex → List Byte) : Variant ex → List Byte
  | .bool v => [if v then 1 else 0]
  | .char v => Wire.fixed 1 (toUnsigned 1 v)
  | .int8 v => Wire.fixed 1 (toUnsigned 1 v)
  | .int16 v => Wire.fixed 2 (toUnsigned 2 v)
  | .int32 v => Wire.fixed 4 (toUnsigned 4 v)
  | .int64 v => Wire.fixed 8 (toUnsigned 8 v)
  | .uint8 v => Wire.fixed 1 v
  | .uint16 v => Wire.fixed 2 v
  | .uint32 v => Wire.fixed 4 v
  | .uint64 v => Wire.fixed 8 v
  | .float v => Wire.string (ex.print32 v)
  | .double v => Wire.string (ex.print64 v)
  | .string v => Wire.string v
  | .storageContainer v => container v
  | .storageList v => Wire.u64 v.length ++ (v.map container).flatten

/-- An entry on the wire: the key as a string, the `TypeId` as an unsigned
16-bit integer, the payload. -/
def Wire.entry (container : StorageContainer ex → List Byte) (e : Str × StoredValue ex) :
    List Byte :=
  Wire.string e.1 ++ Wire.u16 e.2.typeId ++ Wire.payload container e.2.value

/-- What a loop of the codec reads: the entries of a container, or the
elements of a list. -/
inductive Reading
  | entries
  | elements

/-- The stream `s`, read as `count` entries of a container (or as `count`
elements of a list), is well formed up to an entry whose `TypeId` field holds
an id that is not registered: the entries before it are the bytes of
well-formed entries, and the containers and lists that enclose it are open. -/
inductive StopsAtUnknown (ex : Externals) : Reading → Nat → Stream → Prop
  /-- The next entry has a key and an unregistered `TypeId`. -/
  | here (count : Nat) (key : Str) (typeId : TypeId) (rest : Stream) :
      key.length < 2 ^ 64 → typeId < 2 ^ 16 → IdToType typeId = none →
      StopsAtUnknown ex .entries (count + 1)
        (TypeHandler.string.serialize key ++ IntegralTypeHandler.serialize 2 typeId ++ rest)
  /-- A well-formed entry comes first. -/
  | afterEntry (count : Nat) (key : Str) (typeId : TypeId) (value : Variant ex) (s : Stream) :
      WellFormedEntries [(key, StoredValue.mk typeId value)] →
      StopsAtUnknown ex .entries count s →
      StopsAtUnknown ex .entries (count + 1)
        (serializeEntries [(key, StoredValue.mk typeId value)] ++ s)
  /-- The next entry holds a container, and the entry in question is in it. -/
  | inContainer (count : Nat) (key : Str) (typeId : TypeId) (T : LogicalType) (size : Nat)
      (s : Stream) :
      key.length < 2 ^ 64 → IdToType typeId = some T →
      TypeInfo.StoredType T = .storageContainer → size < 2 ^ 64 →
      StopsAtUnknown ex .entries size s →
      StopsAtUnknown ex .entries (count + 1)
        (TypeHandler.string.serialize key ++ IntegralTypeHandler.serialize 2 typeId
          ++ IntegralTypeHandler.serialize 8 size ++ s)
  /-- The next entry holds a list, and the entry in question is in it. -/
  | inList (count : Nat) (key : Str) (typeId : TypeId) (T : LogicalType) (size : Nat)
      (s : Stream) :
      key.length < 2 ^ 64 → IdToType typeId = some T →
      TypeInfo.StoredType T = .storageList → size < 2 ^ 64 →
      StopsAtUnknown ex .elements size s →
      StopsAtUnknown ex .entries (count + 1)
        (TypeHandler.string.serialize key ++ IntegralTypeHandler.serialize 2 typeId
          ++ IntegralTypeHandler.serialize 8 size ++ s)
  /-- The entry in question is in the next element of the list. -/
  | inElement (count : Nat) (size : Nat) (s : Stream) :
      size < 2 ^ 64 → StopsAtUnknown ex .entries size s →
      StopsAtUnknown ex .elements (count + 1) (IntegralTypeHandler.serialize 8 size ++ s)
  /-- A well-formed element comes first. -/
  | afterElement (count : Nat) (c : StorageContainer ex) (s : Stream) :
      c.WellFormed → StopsAtUnknown ex .elements count s →
      StopsAtUnknown ex .elements (count + 1) (operatorLshift c ++ s)

/-- The tag of a stored value agrees with its payload: the `TypeId` is
registered and its stored type is the alternative the payload holds. -/
def StoredValue.Tagged (v : StoredValue ex) : Prop :=
  (IdToType v.typeId).map TypeInfo.StoredType = some v.value.kind

/-- What the invariant asks of the `deserialize` a loop calls: a value it
returns holds the alternative registered for the `TypeId`, and is consistent. -/
def DeserSound (deser : TypeId → Stream → Except Failure (Variant ex × Stream)) : Prop :=
  ∀ typeId s v r, deser typeId s = .ok (v, r) →
    StoredValue.Tagged (StoredValue.mk typeId v) ∧ v.Consistent

/-- A container with the single entry `id`, a 32-bit integer. -/
def element (n : Int) : StorageContainer tenths :=
  (StorageContainer.empty : StorageContainer tenths).set .int32 (str "id") n

/-- The elements appended to a list, in this order. -/
def threeElements : List (StorageContainer tenths) :=
  [element 1, element 2, element 3]

/-- The entries of a stream that announces two entries: the integer `hp = 42`,
then the key `zz` with the unregistered `TypeId` 256. -/
def unknownEntries : Stream :=
  serializeEntries [(str "hp", (StoredValue.mk 80 (.int32 42) : StoredValue tenths))]
    ++ (TypeHandler.string.serialize (str "zz") ++ IntegralTypeHandler.serialize 2 256 ++ [])

/-! ## The registry as a whole -/

/-- The member `Id` of the primary template `TypeInfo<Type>`: the `TypeId` of a
type without a `TYPE_INFO` line. -/
def TypeInfo.unregisteredId : TypeId := 0

/-- The types of the `TYPE_INFO` lines, in the order of the source. -/
def LogicalType.all : List LogicalType :=
  [.bool, .char, .int8, .int16, .int32, .int64, .uint8, .uint16, .uint32, .uint64,
   .float, .double, .string, .storageContainer, .storageList,
   .degree, .plane, .vector3, .quaternion, .colourValue]

/-! ## Objects, copies and moves

The header declares `m_impl`; the constructors set it to `new Implementation()`
and the destructor is empty, so it is an owning smart pointer, and a pointer
that was moved from is null.  An object is modelled by what its `m_impl`
points to; `StorageContainer` above is an object whose pointer is not null.
Dereferencing a null `m_impl` is undefined behaviour in the code and a
`Failure` here.  Two objects passed to an operation are different objects. -/

/-- A `StorageContainer` object: the `Implementation` its `m_impl` owns, `none`
when `m_impl` is null. -/
structure ContainerObject (ex : Externals) where
  m_impl : Option (StorageContainer ex)

/-- The default constructor `StorageContainer()`. -/
def ContainerObject.new : ContainerObject ex :=
  ⟨some StorageContainer.empty⟩

/-- The move constructor `StorageContainer(StorageContainer&& other)`: the new
object, and `other` as the call leaves it. -/
def ContainerObject.moveConstruct (other : ContainerObject ex) :
    ContainerObject ex × ContainerObject ex :=
  (⟨other.m_impl⟩, ⟨none⟩)

/-- The move assignment `operator=(StorageContainer&& other)`: the object
assigned to, and `other` as the call leaves it. -/
def ContainerObject.moveAssign (_this other : ContainerObject ex) :
    ContainerObject ex × ContainerObject ex :=
  (⟨other.m_impl⟩, ⟨none⟩)

/-- The copy assignment `operator=(const StorageContainer& other)`:
`m_impl->m_content = other.m_impl->m_content`. -/
def ContainerObject.copyAssign (this other : ContainerObject ex) :
    Except Failure (ContainerObject ex) :=
  match this.m_impl, other.m_impl with
  | some _, some content => .ok ⟨some content⟩
  | _, _ => .error .nullDereference

/-- The copy constructor `StorageContainer(const StorageContainer& other)`. -/
def ContainerObject.copyConstruct (other : ContainerObject ex) :
    Except Failure (ContainerObject ex) :=
  ContainerObject.copyAssign ContainerObject.new other

/-- The method `keys()` on an object. -/
def ContainerObject.keys (o : ContainerObject ex) : Except Failure (List Str) :=
  match o.m_impl with
  | some c => .ok c.keys
  | none => .error .nullDereference

/-- The method `contains<T>(key)` on an object. -/
def ContainerObject.contains (o : ContainerObject ex) (T : LogicalType) (key : Str) :
    Except Failure Bool :=
  match o.m_impl with
  | some c => .ok (c.contains T key)
  | none => .error .nullDereference

/-- The method `get<T>(key, defaultValue)` on an object. -/
def ContainerObject.get (o : ContainerObject ex) (T : LogicalType) (key : Str)
    (defaultValue : T.type ex) : Except Failure (T.type ex) :=
  match o.m_impl with
  | some c => c.get T key defaultValue
  | none => .error .nullDereference

/-- The method `set<T>(key, value)` on an object. -/
def ContainerObject.set (o : ContainerObject ex) (T : LogicalType) (key : Str)
    (value : T.type ex) : Except Failure (ContainerObject ex) :=
  match o.m_impl with
  | some c => .ok ⟨some (c.set T key value)⟩
  | none => .error .nullDereference

/-- The move constructor `StorageList(StorageList&& other)`: its initialiser
`std::vector<StorageContainer>(other)` names `other`, an lvalue, so the copy
constructor of the vector is selected.  The new list, and `other` as the call
leaves it. -/
def StorageList.moveConstruct (other : StorageList ex) : StorageList ex × StorageList ex :=
  (other, other)

/-- The move assignment `StorageList::operator=(StorageList&& other)`: it calls
`std::vector<StorageContainer>::operator=(other)` with the lvalue `other`, the
copy assignment of the vector.  The list assigned to, and `other` as the call
leaves it. -/
def StorageList.moveAssign (_this other : StorageList ex) : StorageList ex × StorageList ex :=
  (other, other)

/-- The copy constructor `StorageList(const StorageList& other)`. -/
def StorageList.copyConstruct (other : StorageList ex) : StorageList ex :=
  other

/-! ## The scripting boundary -/

/-- What the file takes from luabind: the type `luabind::object`, the
conversion `luabind::object(L, value)` of a value of a native type, the empty
`luabind::object()`, and the conversion to `bool` tested by `if (obj)`. -/
structure Luabind (ex : Externals) where
  /-- The type `luabind::object`. -/
  Object : Type
  /-- The template `toLua<T>(L, value)`, which is `luabind::object(L, value)`. -/
  ofValue : (k : Kind) → k.type ex → Object
  /-- The object `luabind::object()`. -/
  empty : Object
  /-- The test `if (obj)`. -/
  truth : Object → Bool

/-- The macro `TO_LUA_CASE(typeName)`:
`toLua<typeName>(L, boost::get<typeName>(value.value))`. -/
def toLuaCase (lb : Luabind ex) (T : LogicalType) (value : StoredValue ex) :
    Except Failure lb.Object :=
  match Variant.get (TypeInfo.StoredType T) value.value with
  | .ok x => .ok (lb.ofValue (TypeInfo.StoredType T) x)
  | .error e => .error e

/-- The function `toLua(L, const StoredValue&)`: the `switch` over
`value.typeId` with its fifteen cases and its `default`. -/
def toLua (lb : Luabind ex) (value : StoredValue ex) : Except Failure lb.Object :=
  if value.typeId = TypeInfo.Id .bool then toLuaCase lb .bool value
  else if value.typeId = TypeInfo.Id .char then toLuaCase lb .char value
  else if value.typeId = TypeInfo.Id .int8 then toLuaCase lb .int8 value
  else if value.typeId = TypeInfo.Id .int16 then toLuaCase lb .int16 value
  else if value.typeId = TypeInfo.Id .int32 then toLuaCase lb .int32 value
  else if value.typeId = TypeInfo.Id .int64 then toLuaCase lb .int64 value
  else if value.typeId = TypeInfo.Id .uint8 then toLuaCase lb .uint8 value
  else if value.typeId = TypeInfo.Id .uint16 then toLuaCase lb .uint16 value
  else if value.typeId = TypeInfo.Id .uint32 then toLuaCase lb .uint32 value
  else if value.typeId = TypeInfo.Id .uint64 then toLuaCase lb .uint64 value
  else if value.typeId = TypeInfo.Id .float then toLuaCase lb .float value
  else if value.typeId = TypeInfo.Id .double then toLuaCase lb .double value
  else if value.typeId = TypeInfo.Id .string then toLuaCase lb .string value
  else if value.typeId = TypeInfo.Id .storageContainer then
    toLuaCase lb .storageContainer value
  else if value.typeId = TypeInfo.Id .storageList then toLuaCase lb .storageList value
  else .ok lb.empty

/-- The method `StorageContainer::luaGet`. -/
def StorageContainer.luaGet (lb : Luabind ex) (c : StorageContainer ex) (key : Str)
    (defaultValue : lb.Object) : Except Failure lb.Object :=
  match find c.m_content key with
  | none => .ok defaultValue
  | some v =>
    match toLua lb v with
    | .error e => .error e
    | .ok obj => if lb.truth obj then .ok obj else .ok defaultValue

/-- An instance of luabind over `tenths`: an object is the native value it was
made from, the empty object is `none`, and an object is true when it is not
empty. -/
def optionLua : Luabind tenths where
  Object := Option (Variant tenths)
  ofValue := fun k x => some (Variant.ofStored k x)
  empty := none
  truth := Option.isSome

/-- A container that holds an angle of 90 degrees under `angle`. -/
def withAngle : StorageContainer tenths :=
  (StorageContainer.empty : StorageContainer tenths).set .degree (str "angle") ⟨(900 : Int)⟩

/-! ## More of the codec -/

/-- The function `TypeHandler<StorageList>::deserialize` on a stream of its own;
the length of the stream bounds the nesting. -/
def TypeHandler.storageList.deserialize (s : Stream) :
    Except Failure (StorageList ex × Stream) :=
  TypeHandler.storageList.deserializeWith (Thrive.deserialize s.length) s

/-- A stream that announces two entries: the integer `hp = 42`, then the float
`x` whose text is `abc`. -/
def badFloatStream : Stream :=
  IntegralTypeHandler.serialize 8 2
    ++ serializeEntries [(str "hp", (StoredValue.mk 80 (.int32 42) : StoredValue tenths))]
    ++ (TypeHandler.string.serialize (str "x") ++ IntegralTypeHandler.serialize 2 176
      ++ TypeHandler.string.serialize (str "abc"))

/-! ## The nested containers of the compound types -/

/-- The container `set<Ogre::Vector3>` builds for a vector: the floats `x`,
`y`, `z`. -/
def Vector3.storage (v : Vector3 ex.F32) : StorageContainer ex :=
  .mk [(str "x", .mk 176 (.float v.x)), (str "y", .mk 176 (.float v.y)),
    (str "z", .mk 176 (.float v.z))]

/-- The container `set<Ogre::Plane>` builds for a plane: the vector `normal`
and the float `d`. -/
def Plane.storage (p : Plane ex.F32) : StorageContainer ex :=
  .mk [(str "normal", .mk 304 (.storageContainer (Vector3.storage p.normal))),
    (str "d", .mk 176 (.float p.d))]

/-! ## What a stored payload decodes to, in the words of the specification

The native representation of a compound type decodes field by field: an angle
is the float, in degrees; a 3-vector is the floats `x`, `y`, `z` of the nested
container, a quaternion its floats `w`, `x`, `y`, `z`, a plane its 3-vector
`normal` and its float `d`; a colour is the packed RGBA.  A field the nested
container does not hold under the tag of its type is the field of the default
the caller passed. -/

/-- The float field `key` of a nested container: the payload of the entry under
`key` when that entry is tagged as a plain float (176), and `d` otherwise. -/
def Decoded.float (storage : StorageContainer ex) (key : Str) (d : ex.F32) : ex.F32 :=
  match find storage.m_content key with
  | none => d
  | some v =>
    if v.typeId = 176 then
      match v.value with
      | .float x => x
      | _ => d
    else d

/-- The 3-vector a nested container decodes to: its float fields `x`, `y`, `z`. -/
def Decoded.vector3 (storage : StorageContainer ex) (d : Vector3 ex.F32) : Vector3 ex.F32 :=
  { x := Decoded.float storage (str "x") d.x
    y := Decoded.float storage (str "y") d.y
    z := Decoded.float storage (str "z") d.z }

/-- The quaternion a nested container decodes to: its float fields `w`, `x`,
`y`, `z`. -/
def Decoded.quaternion (storage : StorageContainer ex) (d : Quaternion ex.F32) :
    Quaternion ex.F32 :=
  { w := Decoded.float storage (str "w") d.w
    x := Decoded.float storage (str "x") d.x
    y := Decoded.float storage (str "y") d.y
    z := Decoded.float storage (str "z") d.z }

/-- The 3-vector field `key` of a nested container: what the entry under `key`
decodes to when that entry is tagged as a 3-vector (304), and `d` otherwise. -/
def Decoded.vector3Field (storage : StorageContainer ex) (key : Str) (d : Vector3 ex.F32) :
    Vector3 ex.F32 :=
  match find storage.m_content key with
  | none => d
  | some v =>
    if v.typeId = 304 then
      match v.value with
      | .storageContainer inner => Decoded.vector3 inner d
      | _ => d
    else d

/-- The plane a nested container decodes to: its 3-vector field `normal` and
its float field `d`, the latter negated twice (once for the constant the plane
is built from, once by the plane that stores the negated constant). -/
def Decoded.plane (storage : StorageContainer ex) (d : Plane ex.F32) : Plane ex.F32 :=
  { normal := Decoded.vector3Field storage (str "normal") d.normal
    d := ex.neg32 (ex.neg32 (Decoded.float storage (str "d") d.d)) }

/-- The value of type `T` a stored payload decodes to, with `d` the default the
caller passed: the payload itself for a native type, the angle of that many
degrees, the colour `d` set from the packed RGBA, and the vector, quaternion or
plane of the nested container. -/
def Decoded.payload : (T : LogicalType) → (TypeInfo.StoredType T).type ex → T.type ex →
    T.type ex
  | .bool, x, _ => x
  | .char, x, _ => x
  | .int8, x, _ => x
  | .int16, x, _ => x
  | .int32, x, _ => x
  | .int64, x, _ => x
  | .uint8, x, _ => x
  | .uint16, x, _ => x
  | .uint32, x, _ => x
  | .uint64, x, _ => x
  | .float, x, _ => x
  | .double, x, _ => x
  | .string, x, _ => x
  | .storageContainer, x, _ => x
  | .storageList, x, _ => x
  | .degree, x, _ => { valueDegrees := x }
  | .plane, x, d => Decoded.plane x d
  | .vector3, x, d => Decoded.vector3 x d
  | .quaternion, x, d => Decoded.quaternion x d
  | .colourValue, x, d => ex.setAsRGBA d x

theorem find_assign_same (m : Content ex) (key : Str) (sv : StoredValue ex) :
    find (assign m key sv) key = some sv := by
  induction m with
  | nil => simp [assign, find]
  | cons e m ih =>
    obtain ⟨k, v⟩ := e
    by_cases h : k = key
    · simp [assign, find, h]
    · simp [assign, find, h, ih]

theorem find_assign_other (m : Content ex) (key k : Str) (sv : StoredValue ex) (h : k ≠ key) :
    find (assign m key sv) k = find m k := by
  induction m with
  | nil => simp [assign, find, Ne.symm h]
  | cons e m ih =>
    obtain ⟨k0, v⟩ := e
    by_cases h0 : k0 = key
    · subst h0
      simp [assign, find, Ne.symm h]
    · by_cases h1 : k0 = k
      · subst h1
        simp [assign, find, h0]
      · simp [assign, find, h0, h1, ih]

theorem find_eq_none_iff (m : Content ex) (key : Str) :
    find m key = none ↔ key ∉ m.map Prod.fst := by
  induction m with
  | nil => simp [find]
  | cons e m ih =>
    obtain ⟨k, v⟩ := e
    by_cases h : k = key
    · simp [find, h]
    · simp [find, h, ih, Ne.symm h]

theorem mem_of_find (m : Content ex) (key : Str) (v : StoredValue ex)
    (h : find m key = some v) : (key, v) ∈ m := by
  induction m with
  | nil => simp [find] at h
  | cons e m ih =>
    obtain ⟨k, w⟩ := e
    by_cases hk : k = key
    · simp [find, hk] at h
      simp [hk, h]
    · simp [find, hk] at h
      exact List.mem_cons_of_mem _ (ih h)

theorem find_of_mem (m : Content ex) (hm : (m.map Prod.fst).Nodup) (key : Str)
    (v : StoredValue ex) (h : (key, v) ∈ m) : find m key = some v := by
  induction m with
  | nil => simp at h
  | cons e m ih =>
    obtain ⟨k, w⟩ := e
    simp only [List.map_cons, List.nodup_cons] at hm
    rcases List.mem_cons.mp h with h | h
    · cases h
      simp [find]
    · have hk : k ≠ key := by
        intro hk
        apply hm.1
        rw [hk]
        exact List.mem_map_of_mem Prod.fst h
      simp [find, hk, ih hm.2 h]

theorem keys_assign_of_mem (m : Content ex) (key : Str) (sv : StoredValue ex)
    (h : key ∈ m.map Prod.fst) : (assign m key sv).map Prod.fst = m.map Prod.fst := by
  induction m with
  | nil => simp at h
  | cons e m ih =>
    obtain ⟨k, w⟩ := e
    by_cases hk : k = key
    · simp [assign, hk]
    · have : key ∈ m.map Prod.fst := by
        simp only [List.map_cons, List.mem_cons] at h
        rcases h with h | h
        · exact absurd h.symm hk
        · exact h
      simp [assign, hk, ih this]

theorem keys_assign_of_not_mem (m : Content ex) (key : Str) (sv : StoredValue ex)
    (h : key ∉ m.map Prod.fst) : (assign m key sv).map Prod.fst = m.map Prod.fst ++ [key] := by
  induction m with
  | nil => simp [assign]
  | cons e m ih =>
    obtain ⟨k, w⟩ := e
    simp only [List.map_cons, List.mem_cons, not_or] at h
    have hk : k ≠ key := fun hk => h.1 hk.symm
    simp [assign, hk, ih h.2]

theorem assign_of_not_mem (m : Content ex) (key : Str) (sv : StoredValue ex)
    (h : key ∉ m.map Prod.fst) : assign m key sv = m ++ [(key, sv)] := by
  induction m with
  | nil => simp [assign]
  | cons e m ih =>
    obtain ⟨k, w⟩ := e
    simp only [List.map_cons, List.mem_cons, not_or] at h
    have hk : k ≠ key := fun hk => h.1 hk.symm
    simp [assign, hk, ih h.2]

theorem nodup_keys_assign (m : Content ex) (key : Str) (sv : StoredValue ex)
    (hm : (m.map Prod.fst).Nodup) : ((assign m key sv).map Prod.fst).Nodup := by
  by_cases h : key ∈ m.map Prod.fst
  · rw [keys_assign_of_mem m key sv h]
    exact hm
  · rw [keys_assign_of_not_mem m key sv h]
    exact List.Nodup.append hm (List.nodup_singleton key) (by simpa using h)

theorem assignAll_eq_append (es m : Content ex) (h : ((m ++ es).map Prod.fst).Nodup) :
    assignAll m es = m ++ es := by
  induction es generalizing m with
  | nil => simp [assignAll]
  | cons e es ih =>
    obtain ⟨k, v⟩ := e
    have hk : k ∉ m.map Prod.fst := by
      intro hk
      simp only [List.map_append, List.map_cons] at h
      have := (List.nodup_append.mp h).2.2
      exact this hk (List.mem_cons_self _ _)
    simp only [assignAll]
    rw [assign_of_not_mem m k v hk, ih]
    · simp
    · simpa using h

/-! ## `StorageList` -/

theorem foldl_append_eq (es l : StorageList ex) :
    es.foldl StorageList.append l = l ++ es := by
  induction es generalizing l with
  | nil => simp
  | cons e es ih => simp [List.foldl_cons, ih, StorageList.append]

theorem index_pred (i : Nat) (h1 : 1 ≤ i) (h2 : i < 2 ^ 64) :
    (i + 2 ^ 64 - 1) % 2 ^ 64 = i - 1 := by
  omega

/-- C9: after appending `e1 .. en` in that order to an empty list, `size()` is
`n` and `get(i)` is `ei` for `1 ≤ i ≤ n`; and an append does not change what
`get(i)` returns at the indices that existed before it. -/
theorem list_order_preserved (es : List (StorageContainer ex)) (h : es.length < 2 ^ 64) :
    StorageList.size (es.foldl StorageList.append ([] : StorageList ex)) = es.length ∧
    (∀ (i : Nat) (h1 : 1 ≤ i) (hn : i ≤ es.length),
      StorageList.get (es.foldl StorageList.append ([] : StorageList ex)) i
        = .ok (es.get ⟨i - 1, by omega⟩)) ∧
    (∀ (l : StorageList ex) (e : StorageContainer ex) (i : Nat),
      StorageList.size l < 2 ^ 64 → 1 ≤ i → i ≤ StorageList.size l →
      StorageList.get (StorageList.append l e) i = StorageList.get l i) := by
  refine ⟨?_, ?_, ?_⟩
  · simp [foldl_append_eq, StorageList.size]
  · intro i h1 hn
    have hi : (i + 2 ^ 64 - 1) % 2 ^ 64 = i - 1 := index_pred i h1 (by omega)
    have hlt : i - 1 < es.length := by omega
    simp only [foldl_append_eq, List.nil_append, StorageList.get, StorageList.at, hi]
    rw [if_pos (by omega), List.getElem?_eq_getElem hlt]
    rfl
  · intro l e i hl h1 hn
    simp only [StorageList.size] at hl hn
    have hi : (i + 2 ^ 64 - 1) % 2 ^ 64 = i - 1 := index_pred i h1 (by omega)
    have hlt : i - 1 < l.length := by omega
    simp only [StorageList.get, StorageList.at, StorageList.append, hi]
    rw [List.getElem?_append_left hlt]

/-- C10: on a list of size `n`, `get(i)` fails for `i = 0` (the assertion) and
for `i > n` (`std::out_of_range`); the access `at(index - 1)` itself fails in
both cases, the index `0 - 1` being `2 ^ 64 - 1`, so no element is returned by
wrapping or clamping. -/
theorem invalid_index_fails (l : StorageList ex) (i : Nat)
    (hl : StorageList.size l < 2 ^ 64) (hi : i < 2 ^ 64)
    (h : i = 0 ∨ StorageList.size l < i) :
    (i = 0 → StorageList.get l i = .error .assertIndex) ∧
    (0 < i → StorageList.get l i = .error .outOfRange) ∧
    StorageList.at l ((i + 2 ^ 64 - 1) % 2 ^ 64) = .error .outOfRange := by
  simp only [StorageList.size] at hl h
  have hat : StorageList.at l ((i + 2 ^ 64 - 1) % 2 ^ 64) = .error .outOfRange := by
    have hge : l.length ≤ (i + 2 ^ 64 - 1) % 2 ^ 64 := by omega
    simp only [StorageList.at]
    rw [List.getElem?_eq_none hge]
  refine ⟨?_, ?_, hat⟩
  · intro h0
    simp [StorageList.get, h0]
  · intro h0
    simp only [StorageList.get]
    rw [if_pos h0, hat]

/-! ## The typed accessors -/

@[simp] theorem m_content_mk (m : Content ex) : (StorageContainer.mk m).m_content = m := rfl

@[simp] theorem typeId_mk (typeId : TypeId) (value : Variant ex) :
    (StoredValue.mk typeId value).typeId = typeId := rfl

@[simp] theorem value_mk (typeId : TypeId) (value : Variant ex) :
    (StoredValue.mk typeId value).value = value := rfl

theorem get_ofStored (k : Kind) (v : k.type ex) :
    Variant.get k (Variant.ofStored k v) = .ok v := by
  cases k <;> rfl

theorem kind_ofStored (k : Kind) (v : k.type ex) :
    (Variant.ofStored k v : Variant ex).kind = k := by
  cases k <;> rfl

theorem idToType_id (T : LogicalType) : IdToType (TypeInfo.Id T) = some T := by
  cases T <;> rfl

theorem ite_some_cases {α : Type} {p : Prop} [Decidable p] {a t : α} {o : Option α}
    (h : (if p then some a else o) = some t) : (p ∧ a = t) ∨ (¬ p ∧ o = some t) := by
  by_cases hp : p
  · rw [if_pos hp] at h
    exact Or.inl ⟨hp, Option.some.inj h⟩
  · rw [if_neg hp] at h
    exact Or.inr ⟨hp, h⟩

theorem id_of_idToType (typeId : TypeId) (T : LogicalType) (h : IdToType typeId = some T) :
    TypeInfo.Id T = typeId := by
  unfold IdToType at h
  iterate 20
    rcases ite_some_cases h with ⟨h1, h2⟩ | ⟨-, h3⟩
    · rw [← h2, h1]; rfl
    replace h := h3
    clear h3
  cases h

theorem id_injective (T U : LogicalType) (h : TypeInfo.Id T = TypeInfo.Id U) : T = U := by
  have h1 := idToType_id T
  rw [h, idToType_id] at h1
  exact (Option.some.inj h1).symm

/-- Every setter ends in one assignment to the map, under the key it was given
and with the `TypeId` of its type. -/
theorem set_eq_assign (c : StorageContainer ex) (T : LogicalType) (key : Str) (v : T.type ex) :
    ∃ value : (TypeInfo.StoredType T).type ex,
      c.set T key v = .mk (assign c.m_content key
        (.mk (TypeInfo.Id T) (Variant.ofStored (TypeInfo.StoredType T) value))) := by
  cases T <;> exact ⟨_, rfl⟩

/-- C2: `contains<T>(k)` is true exactly when the container has an entry under
`k` whose `TypeId` is `TypeInfo<T>::Id`; it is false for an absent key and for
a key present under another `TypeId`. -/
theorem contains_iff (c : StorageContainer ex) (h : c.keys.Nodup) (T : LogicalType) (key : Str) :
    (c.contains T key = true ↔
      ∃ v : StoredValue ex, (key, v) ∈ c.m_content ∧ v.typeId = TypeInfo.Id T) ∧
    (key ∉ c.keys → c.contains T key = false) ∧
    (∀ v : StoredValue ex, (key, v) ∈ c.m_content → v.typeId ≠ TypeInfo.Id T →
      c.contains T key = false) := by
  simp only [StorageContainer.keys] at h
  refine ⟨?_, ?_, ?_⟩
  · constructor
    · intro hc
      simp only [StorageContainer.contains, rawContains] at hc
      split at hc
      · simp at hc
      · next v hv => exact ⟨v, mem_of_find _ _ _ hv, by simpa using hc⟩
    · rintro ⟨v, hv, ht⟩
      simp [StorageContainer.contains, rawContains, find_of_mem _ h _ _ hv, ht]
  · intro hk
    simp [StorageContainer.contains, rawContains,
      (find_eq_none_iff c.m_content key).mpr (by simpa [StorageContainer.keys] using hk)]
  · intro v hv ht
    simp [StorageContainer.contains, rawContains, find_of_mem _ h _ _ hv, ht]

/-- C4: for a native type `T`, after `set<T>(k, v)` the call `get<T>(k, d)`
returns `v` and `contains<T>(k)` is true, whatever the container held before. -/
theorem get_after_set (c : StorageContainer ex) (T : LogicalType) (hT : T.isNative = true)
    (key : Str) (v d : T.type ex) :
    (c.set T key v).get T key d = .ok v ∧ (c.set T key v).contains T key = true := by
  cases T <;> first
    | (simp [LogicalType.isNative] at hT; done)
    | (constructor
       · simp only [StorageContainer.get, StorageContainer.set, rawGet, rawSet,
           m_content_mk, find_assign_same, typeId_mk, value_mk]
         simp [get_ofStored]
       · simp [StorageContainer.contains, StorageContainer.set, rawContains, rawSet,
           find_assign_same])

/-- C5: `set` inserts or overwrites and the keys stay unique: after
`set<T>(k, v)` the keys are pairwise different, they are the keys from before
and `k`, and their number grows by one when `k` was absent and is unchanged
when it was present. -/
theorem set_keys (c : StorageContainer ex) (h : c.keys.Nodup) (T : LogicalType) (key : Str)
    (v : T.type ex) :
    (c.set T key v).keys.Nodup ∧
    (∀ k : Str, k ∈ (c.set T key v).keys ↔ k ∈ c.keys ∨ k = key) ∧
    (key ∉ c.keys → (c.set T key v).keys.length = c.keys.length + 1) ∧
    (key ∈ c.keys → (c.set T key v).keys.length = c.keys.length) := by
  obtain ⟨value, hset⟩ := set_eq_assign c T key v
  rw [hset]
  simp only [StorageContainer.keys, m_content_mk] at *
  refine ⟨nodup_keys_assign _ _ _ h, ?_, ?_, ?_⟩
  · intro k
    by_cases hk : key ∈ c.m_content.map Prod.fst
    · rw [keys_assign_of_mem _ _ _ hk]
      constructor
      · exact Or.inl
      · rintro (h1 | h1)
        · exact h1
        · rw [h1]; exact hk
    · rw [keys_assign_of_not_mem _ _ _ hk]
      simp
  · intro hk
    rw [keys_assign_of_not_mem _ _ _ hk]
    simp
  · intro hk
    rw [keys_assign_of_mem _ _ _ hk]

/-! ## Raw integers -/

@[simp] theorem toLE_length (width n : Nat) : (toLE width n).length = width := by
  induction width generalizing n with
  | zero => rfl
  | succ w ih => simp [toLE, ih]

theorem fromLE_toLE (width n : Nat) : fromLE (toLE width n) = n % 256 ^ width := by
  induction width generalizing n with
  | zero => simp [toLE, fromLE, Nat.mod_one]
  | succ w ih =>
    simp only [toLE, fromLE, ih]
    rw [pow_succ, Nat.mul_comm (256 ^ w) 256, Nat.mod_mul]

theorem integral_roundtrip (width n : Nat) (r : Stream) :
    IntegralTypeHandler.deserialize width (IntegralTypeHandler.serialize width n ++ r)
      = .ok (n % 256 ^ width, r) := by
  simp [IntegralTypeHandler.deserialize, IntegralTypeHandler.serialize, fromLE_toLE]

theorem integral_roundtrip_of_lt (width n : Nat) (h : n < 256 ^ width) (r : Stream) :
    IntegralTypeHandler.deserialize width (IntegralTypeHandler.serialize width n ++ r)
      = .ok (n, r) := by
  rw [integral_roundtrip, Nat.mod_eq_of_lt h]

theorem isTruncation_length {p s : Stream} (h : IsTruncation p s) : p.length < s.length := by
  obtain ⟨q, hq, rfl⟩ := h
  have : 0 < q.length := List.length_pos.mpr hq
  simp only [List.length_append]
  omega

theorem isTruncation_append {p a x : Stream} (h : IsTruncation p (a ++ x)) :
    IsTruncation p a ∨ ∃ p1 : Stream, p = a ++ p1 ∧ IsTruncation p1 x := by
  obtain ⟨q, hq, h⟩ := h
  rcases List.append_eq_append_iff.mp h with ⟨a1, ha, hx⟩ | ⟨c1, hp, hx⟩
  · by_cases ha1 : a1 = []
    · subst ha1
      refine Or.inr ⟨[], by simpa using ha.symm, q, hq, by simpa using hx⟩
    · exact Or.inl ⟨a1, ha1, ha.symm⟩
  · exact Or.inr ⟨c1, hp, q, hq, hx.symm⟩

theorem integral_truncated (width n : Nat) (p : Stream)
    (h : IsTruncation p (IntegralTypeHandler.serialize width n)) :
    IntegralTypeHandler.deserialize width p = .error .streamFail := by
  have := isTruncation_length h
  simp only [IntegralTypeHandler.serialize, toLE_length] at this
  simp only [IntegralTypeHandler.deserialize]
  rw [if_neg (by omega)]

/-! ## Signed integers -/

theorem toSigned_toUnsigned_1 (v : Int) (h : -2 ^ 7 ≤ v ∧ v < 2 ^ 7) :
    toSigned 1 (toUnsigned 1 v % 256 ^ 1) = v := by
  simp only [toSigned, toUnsigned]
  norm_num
  split <;> omega

theorem toSigned_toUnsigned_2 (v : Int) (h : -2 ^ 15 ≤ v ∧ v < 2 ^ 15) :
    toSigned 2 (toUnsigned 2 v % 256 ^ 2) = v := by
  simp only [toSigned, toUnsigned]
  norm_num
  split <;> omega

theorem toSigned_toUnsigned_4 (v : Int) (h : -2 ^ 31 ≤ v ∧ v < 2 ^ 31) :
    toSigned 4 (toUnsigned 4 v % 256 ^ 4) = v := by
  simp only [toSigned, toUnsigned]
  norm_num
  split <;> omega

theorem toSigned_toUnsigned_8 (v : Int) (h : -2 ^ 63 ≤ v ∧ v < 2 ^ 63) :
    toSigned 8 (toUnsigned 8 v % 256 ^ 8) = v := by
  simp only [toSigned, toUnsigned]
  norm_num
  split <;> omega

/-! ## The scalar handlers -/

theorem bool_roundtrip (b : Bool) (r : Stream) :
    TypeHandler.bool.deserialize (TypeHandler.bool.serialize b ++ r) = .ok (b, r) := by
  simp only [TypeHandler.bool.deserialize, TypeHandler.bool.serialize, integral_roundtrip]
  cases b <;> simp

theorem bool_truncated (b : Bool) (p : Stream)
    (h : IsTruncation p (TypeHandler.bool.serialize b)) :
    TypeHandler.bool.deserialize p = .error .streamFail := by
  simp only [TypeHandler.bool.deserialize, integral_truncated _ _ _ h]

theorem char_roundtrip (v : Int) (h : -2 ^ 7 ≤ v ∧ v < 2 ^ 7) (r : Stream) :
    TypeHandler.char.deserialize (TypeHandler.char.serialize v ++ r) = .ok (v, r) := by
  have := toSigned_toUnsigned_1 v h
  simp only [pow_one] at this
  simp [TypeHandler.char.deserialize, TypeHandler.char.serialize, this]

theorem char_truncated (v : Int) (p : Stream)
    (h : IsTruncation p (TypeHandler.char.serialize v)) :
    TypeHandler.char.deserialize p = .error .streamFail := by
  have := isTruncation_length h
  simp only [TypeHandler.char.serialize, List.length_singleton] at this
  have hp : p = [] := List.length_eq_zero.mp (by omega)
  subst hp
  rfl

theorem signed_roundtrip (width : Nat) (v : Int)
    (h : toSigned width (toUnsigned width v % 256 ^ width) = v) (r : Stream) :
    IntegralTypeHandler.deserializeSigned width
      (IntegralTypeHandler.serializeSigned width v ++ r) = .ok (v, r) := by
  simp only [IntegralTypeHandler.deserializeSigned, IntegralTypeHandler.serializeSigned,
    integral_roundtrip, h]

theorem signed_truncated (width : Nat) (v : Int) (p : Stream)
    (h : IsTruncation p (IntegralTypeHandler.serializeSigned width v)) :
    IntegralTypeHandler.deserializeSigned width p = .error .streamFail := by
  simp only [IntegralTypeHandler.deserializeSigned,
    integral_truncated _ _ _ (by simpa [IntegralTypeHandler.serializeSigned] using h)]

theorem string_roundtrip (s : Str) (h : s.length < 2 ^ 64) (r : Stream) :
    TypeHandler.string.deserialize (TypeHandler.string.serialize s ++ r) = .ok (s, r) := by
  have h8 : s.length < 256 ^ 8 := by norm_num at h ⊢; exact h
  simp only [TypeHandler.string.deserialize, TypeHandler.string.serialize, List.append_assoc,
    integral_roundtrip_of_lt 8 s.length h8]
  simp

theorem string_truncated (s : Str) (h : s.length < 2 ^ 64) (p : Stream)
    (hp : IsTruncation p (TypeHandler.string.serialize s)) :
    TypeHandler.string.deserialize p = .error .streamFail := by
  have h8 : s.length < 256 ^ 8 := by norm_num at h ⊢; exact h
  simp only [TypeHandler.string.serialize] at hp
  rcases isTruncation_append hp with h1 | ⟨p1, rfl, h1⟩
  · simp only [TypeHandler.string.deserialize, integral_truncated _ _ _ h1]
  · have := isTruncation_length h1
    simp only [TypeHandler.string.deserialize, integral_roundtrip_of_lt 8 s.length h8]
    rw [if_neg (by omega)]

theorem float_roundtrip (v : ex.F32)
    (h : ex.parse32 (ex.print32 v) = some v ∧ (ex.print32 v).length < 2 ^ 64) (r : Stream) :
    TypeHandler.float.deserialize ex (TypeHandler.float.serialize ex v ++ r) = .ok (v, r) := by
  simp only [TypeHandler.float.deserialize, TypeHandler.float.serialize,
    string_roundtrip _ h.2, h.1]

theorem float_truncated (v : ex.F32) (h : (ex.print32 v).length < 2 ^ 64) (p : Stream)
    (hp : IsTruncation p (TypeHandler.float.serialize ex v)) :
    TypeHandler.float.deserialize ex p = .error .streamFail := by
  simp only [TypeHandler.float.deserialize, string_truncated _ h p hp]

theorem double_roundtrip (v : ex.F64)
    (h : ex.parse64 (ex.print64 v) = some v ∧ (ex.print64 v).length < 2 ^ 64) (r : Stream) :
    TypeHandler.double.deserialize ex (TypeHandler.double.serialize ex v ++ r) = .ok (v, r) := by
  simp only [TypeHandler.double.deserialize, TypeHandler.double.serialize,
    string_roundtrip _ h.2, h.1]

theorem double_truncated (v : ex.F64) (h : (ex.print64 v).length < 2 ^ 64) (p : Stream)
    (hp : IsTruncation p (TypeHandler.double.serialize ex v)) :
    TypeHandler.double.deserialize ex p = .error .streamFail := by
  simp only [TypeHandler.double.deserialize, string_truncated _ h p hp]

/-! ## Round trip of the codec -/

theorem idToType_lt (typeId : TypeId) (T : LogicalType) (h : IdToType typeId = some T) :
    typeId < 256 ^ 2 := by
  rw [← id_of_idToType typeId T h]
  cases T <;> simp [TypeInfo.Id]

theorem idToType_of_map {typeId : TypeId} {k : Kind}
    (h : (IdToType typeId).map TypeInfo.StoredType = some k) :
    ∃ T, IdToType typeId = some T ∧ TypeInfo.StoredType T = k := by
  cases hT : IdToType typeId with
  | none => simp [hT] at h
  | some T => exact ⟨T, rfl, by simpa [hT] using h⟩

theorem string_serialize_length (s : Str) :
    (TypeHandler.string.serialize s).length = 8 + s.length := by
  simp [TypeHandler.string.serialize, IntegralTypeHandler.serialize]

theorem lt_256_pow_8 {n : Nat} (h : n < 2 ^ 64) : n < 256 ^ 8 := by
  norm_num at h ⊢
  exact h

theorem deserialize_succ (fuel : Nat) (typeId : TypeId) (s : Stream) :
    (deserialize (fuel + 1) typeId s : Except Failure (Variant ex × Stream)) =
      match IdToType typeId with
      | none => .error .unknownTypeId
      | some T => TypeHandler.deserializeWith (deserialize fuel) (TypeInfo.StoredType T) s :=
  rfl

theorem deserialize_registered (fuel : Nat) (typeId : TypeId) (T : LogicalType) (s : Stream)
    (h : IdToType typeId = some T) :
    (deserialize (fuel + 1) typeId s : Except Failure (Variant ex × Stream))
      = TypeHandler.deserializeWith (deserialize fuel) (TypeInfo.StoredType T) s := by
  rw [deserialize_succ, h]

mutual
theorem variant_roundtrip : (v : Variant ex) → v.WellFormed → ∀ (fuel : Nat) (r : Stream),
    v.serialize.length ≤ fuel →
    TypeHandler.deserializeWith (deserialize fuel) v.kind (v.serialize ++ r) = .ok (v, r)
  | .bool v, _, _, r, _ => by
    simp [Variant.kind, Variant.serialize, TypeHandler.deserializeWith, bool_roundtrip, wrap]
  | .char v, h, _, r, _ => by
    simp [Variant.kind, Variant.serialize, TypeHandler.deserializeWith,
      char_roundtrip v (by simpa [Variant.WellFormed] using h), wrap]
  | .int8 v, h, _, r, _ => by
    simp [Variant.kind, Variant.serialize, TypeHandler.deserializeWith, wrap,
      signed_roundtrip 1 v (toSigned_toUnsigned_1 v (by simpa [Variant.WellFormed] using h))]
  | .int16 v, h, _, r, _ => by
    simp [Variant.kind, Variant.serialize, TypeHandler.deserializeWith, wrap,
      signed_roundtrip 2 v (toSigned_toUnsigned_2 v (by simpa [Variant.WellFormed] using h))]
  | .int32 v, h, _, r, _ => by
    simp [Variant.kind, Variant.serialize, TypeHandler.deserializeWith, wrap,
      signed_roundtrip 4 v (toSigned_toUnsigned_4 v (by simpa [Variant.WellFormed] using h))]
  | .int64 v, h, _, r, _ => by
    simp [Variant.kind, Variant.serialize, TypeHandler.deserializeWith, wrap,
      signed_roundtrip 8 v (toSigned_toUnsigned_8 v (by simpa [Variant.WellFormed] using h))]
  | .uint8 v, h, _, r, _ => by
    have hv : v < 256 ^ 1 := by simpa [Variant.WellFormed] using h
    simp [Variant.kind, Variant.serialize, TypeHandler.deserializeWith, wrap,
      integral_roundtrip_of_lt 1 v hv]
  | .uint16 v, h, _, r, _ => by
    have hv : v < 256 ^ 2 := by simpa [Variant.WellFormed] using h
    simp [Variant.kind, Variant.serialize, TypeHandler.deserializeWith, wrap,
      integral_roundtrip_of_lt 2 v hv]
  | .uint32 v, h, _, r, _ => by
    have hv : v < 256 ^ 4 := by simpa [Variant.WellFormed] using h
    simp [Variant.kind, Variant.serialize, TypeHandler.deserializeWith, wrap,
      integral_roundtrip_of_lt 4 v hv]
  | .uint64 v, h, _, r, _ => by
    have hv : v < 256 ^ 8 := by simpa [Variant.WellFormed] using h
    simp [Variant.kind, Variant.serialize, TypeHandler.deserializeWith, wrap,
      integral_roundtrip_of_lt 8 v hv]
  | .float v, h, _, r, _ => by
    simp [Variant.kind, Variant.serialize, TypeHandler.deserializeWith, wrap,
      float_roundtrip v (by simpa [Variant.WellFormed] using h)]
  | .double v, h, _, r, _ => by
    simp [Variant.kind, Variant.serialize, TypeHandler.deserializeWith, wrap,
      double_roundtrip v (by simpa [Variant.WellFormed] using h)]
  | .string v, h, _, r, _ => by
    simp [Variant.kind, Variant.serialize, TypeHandler.deserializeWith, wrap,
      string_roundtrip v (by simpa [Variant.WellFormed] using h)]
  | .storageContainer c, h, fuel, r, hf => by
    have hc := container_roundtrip c (by simpa [Variant.WellFormed] using h) fuel r
      StorageContainer.empty (by simpa [Variant.serialize] using hf)
    simp [Variant.kind, Variant.serialize, TypeHandler.deserializeWith, wrap,
      TypeHandler.storageContainer.deserializeWith, hc]
  | .storageList l, h, fuel, r, hf => by
    simp only [Variant.WellFormed] at h
    simp only [Variant.serialize, List.length_append, IntegralTypeHandler.serialize,
      toLE_length] at hf
    have hl := elements_roundtrip l h.2 fuel r [] 0 (by omega)
    simp only [Nat.zero_add, List.nil_append, readElements] at hl
    simp [Variant.kind, Variant.serialize, TypeHandler.deserializeWith, wrap,
      TypeHandler.storageList.deserializeWith,
      integral_roundtrip_of_lt 8 l.length (lt_256_pow_8 h.1), hl]
theorem container_roundtrip : (c : StorageContainer ex) → c.WellFormed →
    ∀ (fuel : Nat) (r : Stream) (t : StorageContainer ex),
    (operatorLshift c).length ≤ fuel →
    operatorRshiftWith (deserialize fuel) (operatorLshift c ++ r) t = (c, .ok r)
  | .mk content, h, fuel, r, t, hf => by
    simp only [StorageContainer.WellFormed] at h
    simp only [operatorLshift, List.length_append, IntegralTypeHandler.serialize,
      toLE_length] at hf
    have he := entries_roundtrip content h.2.2 fuel r [] 0 (by omega)
    simp only [Nat.zero_add, readEntries] at he
    rw [assignAll_eq_append content [] (by simpa using h.2.1)] at he
    simp [operatorLshift, operatorRshiftWith,
      integral_roundtrip_of_lt 8 content.length (lt_256_pow_8 h.1), he]
theorem entries_roundtrip : (es : Content ex) → WellFormedEntries es →
    ∀ (fuel : Nat) (r : Stream) (m : Content ex) (count : Nat),
    (serializeEntries es).length ≤ fuel →
    readEntries (deserialize fuel) (count + es.length) (serializeEntries es ++ r) m
      = readEntries (deserialize fuel) count r (assignAll m es)
  | [], _, _, _, _, _, _ => by
    simp [serializeEntries, assignAll]
  | (key, .mk typeId value) :: rest, h, fuel, r, m, count, hf => by
    simp only [WellFormedEntries] at h
    obtain ⟨hkey, htag, hvalue, hrest⟩ := h
    obtain ⟨T, hT, hk⟩ := idToType_of_map htag
    simp only [serializeEntries, List.length_append, string_serialize_length,
      IntegralTypeHandler.serialize, toLE_length] at hf
    obtain ⟨f, rfl⟩ : ∃ f, fuel = f + 1 := ⟨fuel - 1, by omega⟩
    have hv := variant_roundtrip value hvalue f (serializeEntries rest ++ r) (by omega)
    have hr := entries_roundtrip rest hrest (f + 1) r (assign m key (.mk typeId value)) count
      (by omega)
    simp only [serializeEntries, List.length_cons, List.append_assoc, assignAll]
    rw [show count + (rest.length + 1) = (count + rest.length) + 1 from rfl]
    simp only [readEntries, string_roundtrip key hkey,
      integral_roundtrip_of_lt 2 typeId (idToType_lt typeId T hT),
      deserialize_registered f typeId T _ hT, hk, hv, hr]
theorem elements_roundtrip : (l : List (StorageContainer ex)) → WellFormedElements l →
    ∀ (fuel : Nat) (r : Stream) (acc : StorageList ex) (count : Nat),
    (serializeElements l).length ≤ fuel →
    readElements (deserialize fuel) (count + l.length) (serializeElements l ++ r) acc
      = readElements (deserialize fuel) count r (acc ++ l)
  | [], _, _, _, _, _, _ => by
    simp [serializeElements]
  | c :: rest, h, fuel, r, acc, count, hf => by
    simp only [WellFormedElements] at h
    simp only [serializeElements, List.length_append] at hf
    have hc := container_roundtrip c h.1 fuel (serializeElements rest ++ r)
      StorageContainer.empty (by omega)
    have hr := elements_roundtrip rest h.2 fuel r (StorageList.append acc c) count (by omega)
    simp only [serializeElements, List.length_cons, List.append_assoc]
    rw [show count + (rest.length + 1) = (count + rest.length) + 1 from rfl]
    simp only [readElements, TypeHandler.storageContainer.deserializeWith, hc, hr]
    simp [StorageList.append]
end

/-! ## Truncated streams -/

theorem not_isTruncation_nil (p : Stream) : ¬ IsTruncation p [] := by
  rintro ⟨q, hq, h⟩
  exact hq (List.append_eq_nil.mp h).2

theorem container_deserialize_error
    (deser : TypeId → Stream → Except Failure (Variant ex × Stream)) (s : Stream) (e : Failure)
    (h : (operatorRshiftWith deser s StorageContainer.empty).2 = .error e) :
    TypeHandler.storageContainer.deserializeWith deser s = .error e := by
  unfold TypeHandler.storageContainer.deserializeWith
  cases hr : operatorRshiftWith deser s StorageContainer.empty with
  | mk value result =>
    rw [hr] at h
    simp only at h
    subst h
    rfl

mutual
theorem variant_truncated : (v : Variant ex) → v.WellFormed → ∀ (fuel : Nat) (p : Stream),
    IsTruncation p v.serialize → p.length ≤ fuel →
    (TypeHandler.deserializeWith (deserialize fuel) v.kind p
      : Except Failure (Variant ex × Stream)) = .error .streamFail
  | .bool v, _, _, p, hp, _ => by
    simp [Variant.kind, TypeHandler.deserializeWith, wrap,
      bool_truncated v p (by simpa [Variant.serialize] using hp)]
  | .char v, _, _, p, hp, _ => by
    simp [Variant.kind, TypeHandler.deserializeWith, wrap,
      char_truncated v p (by simpa [Variant.serialize] using hp)]
  | .int8 v, _, _, p, hp, _ => by
    simp [Variant.kind, TypeHandler.deserializeWith, wrap,
      signed_truncated 1 v p (by simpa [Variant.serialize] using hp)]
  | .int16 v, _, _, p, hp, _ => by
    simp [Variant.kind, TypeHandler.deserializeWith, wrap,
      signed_truncated 2 v p (by simpa [Variant.serialize] using hp)]
  | .int32 v, _, _, p, hp, _ => by
    simp [Variant.kind, TypeHandler.deserializeWith, wrap,
      signed_truncated 4 v p (by simpa [Variant.serialize] using hp)]
  | .int64 v, _, _, p, hp, _ => by
    simp [Variant.kind, TypeHandler.deserializeWith, wrap,
      signed_truncated 8 v p (by simpa [Variant.serialize] using hp)]
  | .uint8 v, _, _, p, hp, _ => by
    simp [Variant.kind, TypeHandler.deserializeWith, wrap,
      integral_truncated 1 v p (by simpa [Variant.serialize] using hp)]
  | .uint16 v, _, _, p, hp, _ => by
    simp [Variant.kind, TypeHandler.deserializeWith, wrap,
      integral_truncated 2 v p (by simpa [Variant.serialize] using hp)]
  | .uint32 v, _, _, p, hp, _ => by
    simp [Variant.kind, TypeHandler.deserializeWith, wrap,
      integral_truncated 4 v p (by simpa [Variant.serialize] using hp)]
  | .uint64 v, _, _, p, hp, _ => by
    simp [Variant.kind, TypeHandler.deserializeWith, wrap,
      integral_truncated 8 v p (by simpa [Variant.serialize] using hp)]
  | .float v, h, _, p, hp, _ => by
    simp only [Variant.WellFormed] at h
    simp [Variant.kind, TypeHandler.deserializeWith, wrap,
      float_truncated v h.2 p (by simpa [Variant.serialize] using hp)]
  | .double v, h, _, p, hp, _ => by
    simp only [Variant.WellFormed] at h
    simp [Variant.kind, TypeHandler.deserializeWith, wrap,
      double_truncated v h.2 p (by simpa [Variant.serialize] using hp)]
  | .string v, h, _, p, hp, _ => by
    simp only [Variant.WellFormed] at h
    simp [Variant.kind, TypeHandler.deserializeWith, wrap,
      string_truncated v h p (by simpa [Variant.serialize] using hp)]
  | .storageContainer c, h, fuel, p, hp, hf => by
    have hc := container_truncated c (by simpa [Variant.WellFormed] using h) fuel p
      StorageContainer.empty (by simpa [Variant.serialize] using hp) hf
    simp [Variant.kind, TypeHandler.deserializeWith, wrap,
      container_deserialize_error _ _ _ hc]
  | .storageList l, h, fuel, p, hp, hf => by
    simp only [Variant.WellFormed] at h
    simp only [Variant.serialize] at hp
    rcases isTruncation_append hp with h1 | ⟨p1, rfl, h1⟩
    · simp [Variant.kind, TypeHandler.deserializeWith, wrap,
        TypeHandler.storageList.deserializeWith, integral_truncated _ _ _ h1]
    · simp only [List.length_append, IntegralTypeHandler.serialize, toLE_length] at hf
      have hl := elements_truncated l h.2 fuel p1 [] 0 h1 (by omega)
      simp only [Nat.zero_add] at hl
      simp [Variant.kind, TypeHandler.deserializeWith, wrap,
        TypeHandler.storageList.deserializeWith,
        integral_roundtrip_of_lt 8 l.length (lt_256_pow_8 h.1), hl]
theorem container_truncated : (c : StorageContainer ex) → c.WellFormed →
    ∀ (fuel : Nat) (p : Stream) (t : StorageContainer ex),
    IsTruncation p (operatorLshift c) → p.length ≤ fuel →
    (operatorRshiftWith (deserialize fuel) p t).2 = .error .streamFail
  | .mk content, h, fuel, p, t, hp, hf => by
    simp only [StorageContainer.WellFormed] at h
    simp only [operatorLshift] at hp
    rcases isTruncation_append hp with h1 | ⟨p1, rfl, h1⟩
    · simp [operatorRshiftWith, integral_truncated _ _ _ h1]
    · simp only [List.length_append, IntegralTypeHandler.serialize, toLE_length] at hf
      have he := entries_truncated content h.2.2 fuel p1 [] 0 h1 (by omega)
      simp only [Nat.zero_add] at he
      simp [operatorRshiftWith, integral_roundtrip_of_lt 8 content.length (lt_256_pow_8 h.1), he]
theorem entries_truncated : (es : Content ex) → WellFormedEntries es →
    ∀ (fuel : Nat) (p : Stream) (m : Content ex) (count : Nat),
    IsTruncation p (serializeEntries es) → p.length ≤ fuel →
    (readEntries (deserialize fuel) (count + es.length) p m).2 = .error .streamFail
  | [], _, _, p, _, _, hp, _ => by
    exact absurd hp (not_isTruncation_nil p)
  | (key, .mk typeId value) :: rest, h, fuel, p, m, count, hp, hf => by
    simp only [WellFormedEntries] at h
    obtain ⟨hkey, htag, hvalue, hrest⟩ := h
    obtain ⟨T, hT, hk⟩ := idToType_of_map htag
    simp only [serializeEntries, List.append_assoc] at hp
    simp only [List.length_cons]
    rw [show count + (rest.length + 1) = (count + rest.length) + 1 from rfl]
    rcases isTruncation_append hp with h1 | ⟨p1, rfl, h1⟩
    · simp only [readEntries, string_truncated key hkey p h1]
    rcases isTruncation_append h1 with h2 | ⟨p2, rfl, h2⟩
    · simp only [readEntries, string_roundtrip key hkey, integral_truncated _ _ _ h2]
    simp only [List.length_append, string_serialize_length, IntegralTypeHandler.serialize,
      toLE_length] at hf
    obtain ⟨f, rfl⟩ : ∃ f, fuel = f + 1 := ⟨fuel - 1, by omega⟩
    rcases isTruncation_append h2 with h3 | ⟨p3, rfl, h3⟩
    · have hv := variant_truncated value hvalue f p2 h3 (by omega)
      simp only [readEntries, string_roundtrip key hkey,
        integral_roundtrip_of_lt 2 typeId (idToType_lt typeId T hT),
        deserialize_registered f typeId T _ hT, hk, hv]
    · simp only [List.length_append] at hf
      have hv := variant_roundtrip value hvalue f p3 (by omega)
      have hr := entries_truncated rest hrest (f + 1) p3 (assign m key (.mk typeId value)) count
        h3 (by omega)
      simp only [readEntries, string_roundtrip key hkey,
        integral_roundtrip_of_lt 2 typeId (idToType_lt typeId T hT),
        deserialize_registered f typeId T _ hT, hk, hv, hr]
theorem elements_truncated : (l : List (StorageContainer ex)) → WellFormedElements l →
    ∀ (fuel : Nat) (p : Stream) (acc : StorageList ex) (count : Nat),
    IsTruncation p (serializeElements l) → p.length ≤ fuel →
    readElements (deserialize fuel) (count + l.length) p acc = .error .streamFail
  | [], _, _, p, _, _, hp, _ => by
    exact absurd hp (not_isTruncation_nil p)
  | c :: rest, h, fuel, p, acc, count, hp, hf => by
    simp only [WellFormedElements] at h
    simp only [serializeElements] at hp
    simp only [List.length_cons]
    rw [show count + (rest.length + 1) = (count + rest.length) + 1 from rfl]
    rcases isTruncation_append hp with h1 | ⟨p1, rfl, h1⟩
    · have hc := container_truncated c h.1 fuel p StorageContainer.empty h1 hf
      simp only [readElements, container_deserialize_error _ _ _ hc]
    · simp only [List.length_append] at hf
      have hc := container_roundtrip c h.1 fuel p1 StorageContainer.empty (by omega)
      have hr := elements_truncated rest h.2 fuel p1 (StorageList.append acc c) count h1
        (by omega)
      simp only [readElements, TypeHandler.storageContainer.deserializeWith, hc, hr]
end

/-- C1: deserializing the bytes written for a well-formed container gives back
the container itself, so the same keys and under each key the same `TypeId` and
the same payload, at every depth of nesting; the whole stream is read. -/
theorem serialize_deserialize_roundtrip (c : StorageContainer ex) (h : c.WellFormed) (t : StorageContainer ex) :
    operatorRshift (operatorLshift c) t = (c, .ok []) := by
  have := container_roundtrip c h (operatorLshift c).length [] t (le_refl _)
  simpa [operatorRshift, operatorRshiftFuel] using this

/-- C6: deserializing a stream that stops before the end of the bytes written
for a well-formed container fails on the exhausted stream, wherever the stream
stops; no container is returned. -/
theorem truncation_detected (c : StorageContainer ex) (h : c.WellFormed) (p q : Stream)
    (hq : q ≠ []) (hpq : p ++ q = operatorLshift c) (t : StorageContainer ex) :
    (operatorRshift p t).2 = .error .streamFail :=
  container_truncated c h p.length p t ⟨q, hq, hpq⟩ (le_refl _)

/-! ## The wire format -/

theorem toLE_eq_fixed (width n : Nat) : toLE width n = Wire.fixed width n := by
  induction width generalizing n with
  | zero => rfl
  | succ w ih =>
    simp only [toLE, Wire.fixed, List.range_succ_eq_map, List.map_cons, List.map_map, ih,
      pow_zero, Nat.div_one]
    congr 1
    apply List.map_congr_left
    intro i _
    simp only [Function.comp, Nat.succ_eq_add_one, pow_succ, Fin.mk.injEq]
    rw [Nat.div_div_eq_div_mul, Nat.mul_comm]

theorem fixed_eight (n : Nat) : Wire.fixed 8 n = Wire.u64 n := by
  simp [Wire.fixed, Wire.u64, List.range_succ]

theorem fixed_two (n : Nat) : Wire.fixed 2 n = Wire.u16 n := by
  simp [Wire.fixed, Wire.u16, List.range_succ]

theorem serialize_u64 (n : Nat) : IntegralTypeHandler.serialize 8 n = Wire.u64 n := by
  rw [IntegralTypeHandler.serialize, toLE_eq_fixed, fixed_eight]

theorem serialize_u16 (n : Nat) : IntegralTypeHandler.serialize 2 n = Wire.u16 n := by
  rw [IntegralTypeHandler.serialize, toLE_eq_fixed, fixed_two]

theorem serialize_string (s : Str) : TypeHandler.string.serialize s = Wire.string s := by
  rw [TypeHandler.string.serialize, serialize_u64, Wire.string]

theorem serializeElements_eq (l : List (StorageContainer ex)) :
    serializeElements l = (l.map operatorLshift).flatten := by
  induction l with
  | nil => simp [serializeElements]
  | cons c l ih => simp [serializeElements, ih]

theorem serialize_eq_payload (v : Variant ex) :
    v.serialize = Wire.payload operatorLshift v := by
  cases v with
  | bool v =>
    cases v <;> rfl
  | char v =>
    simp [Variant.serialize, Wire.payload, TypeHandler.char.serialize, Wire.fixed,
      List.range_succ]
  | storageContainer v => simp [Variant.serialize, Wire.payload]
  | storageList v =>
    simp [Variant.serialize, Wire.payload, serialize_u64, serializeElements_eq]
  | _ =>
    simp [Variant.serialize, Wire.payload, IntegralTypeHandler.serializeSigned,
      IntegralTypeHandler.serialize, toLE_eq_fixed, TypeHandler.float.serialize,
      TypeHandler.double.serialize, serialize_string]

theorem serializeEntries_eq (m : Content ex) :
    serializeEntries m = (m.map (Wire.entry operatorLshift)).flatten := by
  induction m with
  | nil => simp [serializeEntries]
  | cons e m ih =>
    obtain ⟨key, typeId, value⟩ := e
    simp [serializeEntries, ih, Wire.entry, serialize_string, serialize_u16,
      serialize_eq_payload]

/-- C8: the bytes written for a container are the number of entries as an
unsigned 64-bit integer, then, for each entry once, the key as a length and
its bytes, the `TypeId` as an unsigned 16-bit integer and the payload by its
alternative, a nested container being written by the same rule; the empty
container is written as eight zero bytes. -/
theorem wire_layout (c : StorageContainer ex) :
    operatorLshift c
      = Wire.u64 c.m_content.length ++ (c.m_content.map (Wire.entry operatorLshift)).flatten ∧
    operatorLshift (StorageContainer.empty : StorageContainer ex) = [0, 0, 0, 0, 0, 0, 0, 0] := by
  constructor
  · cases c with
    | mk m => simp [operatorLshift, serialize_u64, serializeEntries_eq]
  · simp only [StorageContainer.empty, operatorLshift, serializeEntries, List.append_nil,
      List.length_nil]
    decide

/-! ## Unregistered `TypeId`s -/

theorem deserialize_unregistered (fuel : Nat) (typeId : TypeId) (s : Stream)
    (h : IdToType typeId = none) :
    (deserialize (fuel + 1) typeId s : Except Failure (Variant ex × Stream))
      = .error .unknownTypeId := by
  rw [deserialize_succ, h]

theorem lt_256_pow_2 {n : Nat} (h : n < 2 ^ 16) : n < 256 ^ 2 := by
  norm_num at h ⊢
  exact h

theorem stopsAtUnknown_fails (reading : Reading) (count : Nat) (s : Stream)
    (h : StopsAtUnknown ex reading count s) :
    ∀ fuel : Nat, s.length ≤ fuel →
      match reading with
      | .entries => ∀ m : Content ex,
          (readEntries (deserialize fuel) count s m).2 = .error .unknownTypeId
      | .elements => ∀ acc : StorageList ex,
          readElements (deserialize fuel) count s acc = .error .unknownTypeId := by
  induction h with
  | here count key typeId rest hkey hid hun =>
    intro fuel hf m
    simp only [List.length_append, string_serialize_length, IntegralTypeHandler.serialize,
      toLE_length] at hf
    obtain ⟨f, rfl⟩ : ∃ f, fuel = f + 1 := ⟨fuel - 1, by omega⟩
    simp only [List.append_assoc, readEntries, string_roundtrip key hkey,
      integral_roundtrip_of_lt 2 typeId (lt_256_pow_2 hid), deserialize_unregistered f typeId _ hun]
  | afterEntry count key typeId value s hwf _ ih =>
    intro fuel hf m
    have hr := entries_roundtrip [(key, StoredValue.mk typeId value)] hwf fuel s m count
      (by simp only [List.length_append] at hf; omega)
    simp only [List.length_singleton] at hr
    simp only [hr]
    exact ih fuel (by simp only [List.length_append] at hf; omega) _
  | inContainer count key typeId T size s hkey hT hk hsize _ ih =>
    intro fuel hf m
    simp only [List.length_append, string_serialize_length, IntegralTypeHandler.serialize,
      toLE_length] at hf
    obtain ⟨f, rfl⟩ : ∃ f, fuel = f + 1 := ⟨fuel - 1, by omega⟩
    have h1 := ih f (by omega) []
    simp only [List.append_assoc, readEntries, string_roundtrip key hkey,
      integral_roundtrip_of_lt 2 typeId (idToType_lt typeId T hT),
      deserialize_registered f typeId T _ hT, hk, TypeHandler.deserializeWith]
    rw [container_deserialize_error _ _ .unknownTypeId
      (by simp only [operatorRshiftWith, integral_roundtrip_of_lt 8 size (lt_256_pow_8 hsize), h1])]
    rfl
  | inList count key typeId T size s hkey hT hk hsize _ ih =>
    intro fuel hf m
    simp only [List.length_append, string_serialize_length, IntegralTypeHandler.serialize,
      toLE_length] at hf
    obtain ⟨f, rfl⟩ : ∃ f, fuel = f + 1 := ⟨fuel - 1, by omega⟩
    have h1 := ih f (by omega) []
    simp only [List.append_assoc, readEntries, string_roundtrip key hkey,
      integral_roundtrip_of_lt 2 typeId (idToType_lt typeId T hT),
      deserialize_registered f typeId T _ hT, hk, TypeHandler.deserializeWith,
      TypeHandler.storageList.deserializeWith,
      integral_roundtrip_of_lt 8 size (lt_256_pow_8 hsize), h1, wrap]
  | inElement count size s hsize _ ih =>
    intro fuel hf acc
    simp only [List.length_append, IntegralTypeHandler.serialize, toLE_length] at hf
    have h1 := ih fuel (by omega) []
    simp only [readElements]
    rw [container_deserialize_error _ _ .unknownTypeId
      (by simp only [operatorRshiftWith, integral_roundtrip_of_lt 8 size (lt_256_pow_8 hsize), h1])]
  | afterElement count c s hwf _ ih =>
    intro fuel hf acc
    simp only [List.length_append] at hf
    have hc := container_roundtrip c hwf fuel s StorageContainer.empty (by omega)
    simp only [readElements, TypeHandler.storageContainer.deserializeWith, hc]
    exact ih fuel (by omega) _

/-- C7: when the stream is well formed up to an entry, of the container or of a
container or list nested in it, whose `TypeId` field holds an id that is not
registered, deserialization fails in the default case of the `switch` over the
ids; it returns no container. -/
theorem unknown_typeId_fatal (count : Nat) (s : Stream)
    (h : StopsAtUnknown ex .entries count s) (hcount : count < 2 ^ 64)
    (t : StorageContainer ex) :
    (operatorRshift (IntegralTypeHandler.serialize 8 count ++ s) t).2
      = .error .unknownTypeId := by
  have h1 := stopsAtUnknown_fails .entries count s h
    (IntegralTypeHandler.serialize 8 count ++ s).length (by simp) []
  simp only [operatorRshift, operatorRshiftFuel, operatorRshiftWith,
    integral_roundtrip_of_lt 8 count (lt_256_pow_8 hcount)]
  exact h1

/-! ## The invariant of the containers -/

theorem consistentEntries_iff (m : Content ex) :
    ConsistentEntries m ↔
      ∀ key v, (key, v) ∈ m → StoredValue.Tagged v ∧ v.value.Consistent := by
  induction m with
  | nil => simp [ConsistentEntries]
  | cons e m ih =>
    obtain ⟨k, typeId, value⟩ := e
    simp only [ConsistentEntries, ih, List.mem_cons, StoredValue.Tagged]
    constructor
    · rintro ⟨h1, h2, h3⟩ key v (h | h)
      · cases h
        exact ⟨h1, h2⟩
      · exact h3 key v h
    · intro h
      exact ⟨(h k _ (Or.inl rfl)).1, (h k _ (Or.inl rfl)).2, fun key v hv => h key v (Or.inr hv)⟩

theorem mem_assign (m : Content ex) (key : Str) (sv : StoredValue ex) (k : Str)
    (v : StoredValue ex) (h : (k, v) ∈ assign m key sv) : (k, v) ∈ m ∨ v = sv := by
  induction m with
  | nil =>
    simp only [assign, List.mem_singleton, Prod.mk.injEq] at h
    exact Or.inr h.2
  | cons e m ih =>
    obtain ⟨k0, w⟩ := e
    by_cases h0 : k0 = key
    · simp only [assign, h0, if_true, List.mem_cons, Prod.mk.injEq] at h
      rcases h with h | h
      · exact Or.inr h.2
      · exact Or.inl (List.mem_cons_of_mem _ h)
    · simp only [assign, h0, if_false, List.mem_cons] at h
      rcases h with h | h
      · exact Or.inl (by rw [h]; exact List.mem_cons_self _ _)
      · rcases ih h with h1 | h1
        · exact Or.inl (List.mem_cons_of_mem _ h1)
        · exact Or.inr h1

theorem consistentEntries_assign (m : Content ex) (key : Str) (sv : StoredValue ex)
    (hm : ConsistentEntries m) (hsv : StoredValue.Tagged sv ∧ sv.value.Consistent) :
    ConsistentEntries (assign m key sv) := by
  rw [consistentEntries_iff] at hm ⊢
  intro k v hv
  rcases mem_assign m key sv k v hv with h | h
  · exact hm k v h
  · rw [h]; exact hsv

theorem empty_consistent : (StorageContainer.empty : StorageContainer ex).Consistent := by
  simp [StorageContainer.empty, StorageContainer.Consistent, ConsistentEntries]

theorem consistent_iff (c : StorageContainer ex) :
    c.Consistent ↔ c.keys.Nodup ∧ ConsistentEntries c.m_content := by
  cases c with
  | mk m => simp [StorageContainer.Consistent, StorageContainer.keys]

theorem tagged_ofStored (T : LogicalType) (value : (TypeInfo.StoredType T).type ex) :
    StoredValue.Tagged (StoredValue.mk (TypeInfo.Id T)
      (Variant.ofStored (TypeInfo.StoredType T) value)) := by
  simp [StoredValue.Tagged, idToType_id, kind_ofStored]

theorem rawSet_consistent (T : LogicalType) (c : StorageContainer ex) (key : Str)
    (value : (TypeInfo.StoredType T).type ex) (hc : c.Consistent)
    (hv : (Variant.ofStored (TypeInfo.StoredType T) value).Consistent) :
    (rawSet T c key value).Consistent := by
  rw [consistent_iff] at hc ⊢
  simp only [rawSet, StorageContainer.keys, m_content_mk]
  exact ⟨nodup_keys_assign _ _ _ hc.1,
    consistentEntries_assign _ _ _ hc.2 ⟨tagged_ofStored T value, by simpa using hv⟩⟩

theorem setReal_consistent (c : StorageContainer ex) (key : Str) (value : ex.F32)
    (hc : c.Consistent) : (setReal c key value).Consistent :=
  rawSet_consistent .float c key value hc (by simp [Variant.ofStored, TypeInfo.StoredType,
    Variant.Consistent])

theorem setVector3_consistent (c : StorageContainer ex) (key : Str) (value : Vector3 ex.F32)
    (hc : c.Consistent) : (setVector3 c key value).Consistent := by
  apply rawSet_consistent .vector3 c key _ hc
  simp only [TypeInfo.StoredType, Variant.ofStored, Variant.Consistent]
  exact setReal_consistent _ _ _ (setReal_consistent _ _ _
    (setReal_consistent _ _ _ empty_consistent))

theorem setQuaternion_consistent (c : StorageContainer ex) (key : Str)
    (value : Quaternion ex.F32) (hc : c.Consistent) :
    (setQuaternion c key value).Consistent := by
  apply rawSet_consistent .quaternion c key _ hc
  simp only [TypeInfo.StoredType, Variant.ofStored, Variant.Consistent]
  exact setReal_consistent _ _ _ (setReal_consistent _ _ _ (setReal_consistent _ _ _
    (setReal_consistent _ _ _ empty_consistent)))

theorem setPlane_consistent (c : StorageContainer ex) (key : Str) (value : Plane ex.F32)
    (hc : c.Consistent) : (setPlane c key value).Consistent := by
  apply rawSet_consistent .plane c key _ hc
  simp only [TypeInfo.StoredType, Variant.ofStored, Variant.Consistent]
  exact setReal_consistent _ _ _ (setVector3_consistent _ _ _ empty_consistent)

theorem consistentElements_iff (l : List (StorageContainer ex)) :
    ConsistentElements l ↔ ∀ x, x ∈ l → x.Consistent := by
  induction l with
  | nil => simp [ConsistentElements]
  | cons c l ih => simp [ConsistentElements, ih]

theorem set_consistent (c : StorageContainer ex) (T : LogicalType) (key : Str) (v : T.type ex)
    (hc : c.Consistent) (h1 : T ≠ .storageContainer) (h2 : T ≠ .storageList) :
    (c.set T key v).Consistent := by
  cases T
  case storageContainer => exact absurd rfl h1
  case storageList => exact absurd rfl h2
  case plane => exact setPlane_consistent c key v hc
  case vector3 => exact setVector3_consistent c key v hc
  case quaternion => exact setQuaternion_consistent c key v hc
  all_goals
    exact rawSet_consistent _ c key _ hc (by
      simp [Variant.ofStored, TypeInfo.StoredType, Variant.Consistent])

theorem set_container_consistent (c : StorageContainer ex) (key : Str)
    (v : StorageContainer ex) (hc : c.Consistent) (hv : v.Consistent) :
    (c.set .storageContainer key v).Consistent :=
  rawSet_consistent .storageContainer c key v hc
    (by simpa [Variant.ofStored, TypeInfo.StoredType, Variant.Consistent] using hv)

theorem set_list_consistent (c : StorageContainer ex) (key : Str)
    (l : StorageList ex) (hc : c.Consistent) (hl : ∀ x, x ∈ l → x.Consistent) :
    (c.set .storageList key l).Consistent :=
  rawSet_consistent .storageList c key l hc
    (by simpa [Variant.ofStored, TypeInfo.StoredType, Variant.Consistent,
      consistentElements_iff] using hl)

/-! ## Deserialization establishes the invariant -/

theorem wrap_eq_ok {α : Type} (f : α → Variant ex) (x : Except Failure (α × Stream))
    (v : Variant ex) (r : Stream) (h : wrap f x = .ok (v, r)) :
    ∃ a, x = .ok (a, r) ∧ v = f a := by
  cases x with
  | error e => simp [wrap] at h
  | ok p =>
    obtain ⟨a, r1⟩ := p
    simp only [wrap, Except.ok.injEq, Prod.mk.injEq] at h
    exact ⟨a, by rw [h.2], h.1.symm⟩

theorem readEntries_consistent
    (deser : TypeId → Stream → Except Failure (Variant ex × Stream)) (hd : DeserSound deser)
    (count : Nat) (s : Stream) (m : Content ex)
    (hm : (m.map Prod.fst).Nodup ∧ ConsistentEntries m) :
    ((readEntries deser count s m).1.map Prod.fst).Nodup
      ∧ ConsistentEntries (readEntries deser count s m).1 := by
  induction count generalizing s m with
  | zero => simpa [readEntries] using hm
  | succ n ih =>
    simp only [readEntries]
    split
    · exact hm
    · split
      · exact hm
      · split
        · exact hm
        · next hv =>
          apply ih
          exact ⟨nodup_keys_assign _ _ _ hm.1,
            consistentEntries_assign _ _ _ hm.2 (hd _ _ _ _ hv)⟩

theorem operatorRshiftWith_consistent
    (deser : TypeId → Stream → Except Failure (Variant ex × Stream)) (hd : DeserSound deser)
    (s : Stream) (t : StorageContainer ex) (ht : t.Consistent) :
    (operatorRshiftWith deser s t).1.Consistent := by
  simp only [operatorRshiftWith]
  split
  · exact ht
  · next size s1 _ =>
    have := readEntries_consistent deser hd size s1 [] (by simp [ConsistentEntries])
    simpa [StorageContainer.Consistent] using this

theorem container_deserialize_consistent
    (deser : TypeId → Stream → Except Failure (Variant ex × Stream)) (hd : DeserSound deser)
    (s : Stream) (c : StorageContainer ex) (r : Stream)
    (h : TypeHandler.storageContainer.deserializeWith deser s = .ok (c, r)) :
    c.Consistent := by
  have hc := operatorRshiftWith_consistent deser hd s StorageContainer.empty empty_consistent
  unfold TypeHandler.storageContainer.deserializeWith at h
  split at h
  · next value r1 heq =>
    simp only [Except.ok.injEq, Prod.mk.injEq] at h
    rw [heq] at hc
    rw [← h.1]
    exact hc
  · simp at h

theorem readElements_consistent
    (deser : TypeId → Stream → Except Failure (Variant ex × Stream)) (hd : DeserSound deser)
    (count : Nat) (s : Stream) (acc l : StorageList ex) (r : Stream)
    (hacc : ∀ x, x ∈ acc → x.Consistent)
    (h : readElements deser count s acc = .ok (l, r)) : ∀ x, x ∈ l → x.Consistent := by
  induction count generalizing s acc with
  | zero =>
    simp only [readElements, Except.ok.injEq, Prod.mk.injEq] at h
    rw [← h.1]
    exact hacc
  | succ n ih =>
    simp only [readElements] at h
    split at h
    · simp at h
    · next element s1 he =>
      apply ih s1 (StorageList.append acc element) _ h
      intro x hx
      simp only [StorageList.append, List.mem_append, List.mem_singleton] at hx
      rcases hx with hx | hx
      · exact hacc x hx
      · rw [hx]
        exact container_deserialize_consistent deser hd s element s1 he

theorem deserializeWith_sound
    (deser : TypeId → Stream → Except Failure (Variant ex × Stream)) (hd : DeserSound deser)
    (k : Kind) (s : Stream) (v : Variant ex) (r : Stream)
    (h : TypeHandler.deserializeWith deser k s = .ok (v, r)) : v.kind = k ∧ v.Consistent := by
  cases k
  case storageContainer =>
    obtain ⟨c, hc, rfl⟩ := wrap_eq_ok _ _ _ _ h
    exact ⟨rfl, by
      simpa [Variant.Consistent] using container_deserialize_consistent deser hd s c r hc⟩
  case storageList =>
    obtain ⟨l, hl, rfl⟩ := wrap_eq_ok _ _ _ _ h
    refine ⟨rfl, ?_⟩
    simp only [Variant.Consistent, consistentElements_iff]
    unfold TypeHandler.storageList.deserializeWith at hl
    split at hl
    · simp at hl
    · next size s1 _ =>
      exact readElements_consistent deser hd size s1 [] l r (by simp) hl
  all_goals
    obtain ⟨a, _, rfl⟩ := wrap_eq_ok _ _ _ _ h
    exact ⟨rfl, by simp [Variant.Consistent]⟩

theorem deserialize_sound (fuel : Nat) :
    DeserSound (deserialize fuel : TypeId → Stream → Except Failure (Variant ex × Stream)) := by
  induction fuel with
  | zero =>
    intro typeId s v r h
    simp [deserialize] at h
  | succ f ih =>
    intro typeId s v r h
    rw [deserialize_succ] at h
    split at h
    · simp at h
    · next T hT =>
      have := deserializeWith_sound (deserialize f) ih _ s v r h
      exact ⟨by simp [StoredValue.Tagged, hT, this.1], this.2⟩

theorem operatorRshift_consistent (s : Stream) (t : StorageContainer ex) (ht : t.Consistent) :
    (operatorRshift s t).1.Consistent :=
  operatorRshiftWith_consistent _ (deserialize_sound s.length) s t ht

theorem consistent_of_find (c : StorageContainer ex) (hc : c.Consistent) (key : Str)
    (v : StoredValue ex) (h : find c.m_content key = some v) :
    StoredValue.Tagged v ∧ v.value.Consistent :=
  (consistentEntries_iff c.m_content).mp ((consistent_iff c).mp hc).2 key v
    (mem_of_find _ _ _ h)

theorem get_of_kind (k : Kind) (v : Variant ex) (h : v.kind = k) :
    ∃ x : k.type ex, Variant.get k v = .ok x ∧ v = Variant.ofStored k x := by
  subst h
  cases v <;> exact ⟨_, rfl, rfl⟩

theorem rawGet_cases (T : LogicalType) (c : StorageContainer ex) (hc : c.Consistent)
    (key : Str) (d : (TypeInfo.StoredType T).type ex) :
    rawGet T c key d = .ok d ∨
    ∃ (v : StoredValue ex) (x : (TypeInfo.StoredType T).type ex),
      find c.m_content key = some v ∧ v.typeId = TypeInfo.Id T ∧
      v.value = Variant.ofStored _ x ∧ rawGet T c key d = .ok x := by
  unfold rawGet
  cases hf : find c.m_content key with
  | none => exact Or.inl rfl
  | some v =>
    by_cases ht : v.typeId = TypeInfo.Id T
    · right
      have htag := (consistent_of_find c hc key v hf).1
      simp only [StoredValue.Tagged, ht, idToType_id, Option.map_some', Option.some.injEq] at htag
      obtain ⟨x, hx, hv⟩ := get_of_kind _ v.value htag.symm
      exact ⟨v, x, rfl, ht, hv, by simp [ht, hx]⟩
    · left
      simp [ht]

theorem reachable_consistent (c : StorageContainer ex) (h : Reachable c) : c.Consistent := by
  induction h with
  | empty => exact empty_consistent
  | set c T key v _ h1 h2 ih => exact set_consistent c T key v ih h1 h2
  | setContainer c key v _ _ ihc ihv => exact set_container_consistent c key v ihc ihv
  | setList c key l _ _ ihc ihl => exact set_list_consistent c key l ihc ihl
  | deserialize s c _ ih => exact operatorRshift_consistent s c ih
  | getContainer c key d r _ _ hget ihc ihd =>
    rcases rawGet_cases .storageContainer c ihc key d with h | ⟨v, x, hf, _, hv, hx⟩
    · have : r = d := by
        have := hget.symm.trans h
        simpa using this
      rw [this]; exact ihd
    · have : r = x := by
        have := hget.symm.trans hx
        simpa using this
      rw [this]
      have := (consistent_of_find c ihc key v hf).2
      rw [hv] at this
      simpa [Variant.ofStored, Variant.Consistent] using this
  | getElement c key d l x _ _ hget hx ihc ihd =>
    rcases rawGet_cases .storageList c ihc key d with h | ⟨v, y, hf, _, hv, hy⟩
    · have : l = d := by
        have := hget.symm.trans h
        simpa using this
      rw [this] at hx; exact ihd x hx
    · have : l = y := by
        have := hget.symm.trans hy
        simpa using this
      rw [this] at hx
      have := (consistent_of_find c ihc key v hf).2
      rw [hv] at this
      simp only [TypeInfo.StoredType, Variant.ofStored, Variant.Consistent,
        consistentElements_iff] at this
      exact this x hx

/-! ## The typed `get` does not fail -/

theorem rawGet_of_ne (T : LogicalType) (c : StorageContainer ex) (key : Str)
    (d : (TypeInfo.StoredType T).type ex) (v : StoredValue ex)
    (h : find c.m_content key = some v) (ht : v.typeId ≠ TypeInfo.Id T) :
    rawGet T c key d = .ok d := by
  simp [rawGet, h, ht]

theorem contains_of_ne (T : LogicalType) (c : StorageContainer ex) (key : Str)
    (v : StoredValue ex) (h : find c.m_content key = some v) (ht : v.typeId ≠ TypeInfo.Id T) :
    c.contains T key = false := by
  simp [StorageContainer.contains, rawContains, h, ht]

theorem payload_of_tag (c : StorageContainer ex) (hc : c.Consistent) (T : LogicalType)
    (key : Str) (v : StoredValue ex) (h : find c.m_content key = some v)
    (ht : v.typeId = TypeInfo.Id T) :
    ∃ x : (TypeInfo.StoredType T).type ex, v.value = Variant.ofStored _ x := by
  have htag := (consistent_of_find c hc key v h).1
  simp only [StoredValue.Tagged, ht, idToType_id, Option.map_some', Option.some.injEq] at htag
  obtain ⟨x, _, hv⟩ := get_of_kind _ v.value htag.symm
  exact ⟨x, hv⟩

theorem rawGet_total (T : LogicalType) (c : StorageContainer ex) (hc : c.Consistent)
    (key : Str) (d : (TypeInfo.StoredType T).type ex) : ∃ r, rawGet T c key d = .ok r := by
  rcases rawGet_cases T c hc key d with h | ⟨_, x, _, _, _, h⟩
  · exact ⟨d, h⟩
  · exact ⟨x, h⟩

theorem vector3_ofStored_total (storage : StorageContainer ex) (hs : storage.Consistent)
    (d : Vector3 ex.F32) : ∃ r, Vector3.ofStored storage d = .ok r := by
  obtain ⟨x, hx⟩ := rawGet_total .float storage hs (str "x") d.x
  obtain ⟨y, hy⟩ := rawGet_total .float storage hs (str "y") d.y
  obtain ⟨z, hz⟩ := rawGet_total .float storage hs (str "z") d.z
  exact ⟨⟨x, y, z⟩, by simp only [Vector3.ofStored, getReal, hx, hy, hz]⟩

theorem quaternion_ofStored_total (storage : StorageContainer ex) (hs : storage.Consistent)
    (d : Quaternion ex.F32) : ∃ r, Quaternion.ofStored storage d = .ok r := by
  obtain ⟨w, hw⟩ := rawGet_total .float storage hs (str "w") d.w
  obtain ⟨x, hx⟩ := rawGet_total .float storage hs (str "x") d.x
  obtain ⟨y, hy⟩ := rawGet_total .float storage hs (str "y") d.y
  obtain ⟨z, hz⟩ := rawGet_total .float storage hs (str "z") d.z
  exact ⟨⟨w, x, y, z⟩, by simp only [Quaternion.ofStored, getReal, hw, hx, hy, hz]⟩

theorem stored_container_consistent (c : StorageContainer ex) (hc : c.Consistent) (key : Str)
    (v : StoredValue ex) (storage : StorageContainer ex) (h : find c.m_content key = some v)
    (hv : v.value = Variant.storageContainer storage) : storage.Consistent := by
  have := (consistent_of_find c hc key v h).2
  rw [hv] at this
  simpa [Variant.Consistent] using this

theorem getVector3_total (c : StorageContainer ex) (hc : c.Consistent) (key : Str)
    (d : Vector3 ex.F32) : ∃ r, getVector3 c key d = .ok r := by
  unfold getVector3
  by_cases hcon : c.contains .vector3 key = true
  · rw [if_neg (by simpa using hcon)]
    rcases rawGet_cases .vector3 c hc key (Kind.default ex _) with h | ⟨v, x, hf, _, hv, h⟩
    · rw [h]
      exact vector3_ofStored_total _ empty_consistent d
    · rw [h]
      exact vector3_ofStored_total _ (stored_container_consistent c hc key v x hf hv) d
  · exact ⟨d, by rw [if_pos hcon]⟩

theorem plane_ofStored_total (storage : StorageContainer ex) (hs : storage.Consistent)
    (d : Plane ex.F32) : ∃ r, Plane.ofStored storage d = .ok r := by
  obtain ⟨n, hn⟩ := getVector3_total storage hs (str "normal") d.normal
  obtain ⟨x, hx⟩ := rawGet_total .float storage hs (str "d") d.d
  refine ⟨Plane.ofNormalConstant n (ex.neg32 x), ?_⟩
  simp only [Plane.ofStored, getReal, hn, hx]

/-- The round trip of C1 on the container of the scenario. -/
theorem serialize_deserialize_roundtrip_witness :
    agent.WellFormed ∧
    operatorRshift (operatorLshift agent) StorageContainer.empty = (agent, .ok []) := by
  have h : agent.WellFormed := by
    simp [agent, StorageContainer.set, rawSet, assign, StorageContainer.empty,
      StorageContainer.WellFormed, WellFormedEntries, Variant.WellFormed, Variant.ofStored,
      str, IdToType, TypeInfo.Id, TypeInfo.StoredType, Variant.kind]
    decide
  exact ⟨h, serialize_deserialize_roundtrip agent h StorageContainer.empty⟩

/-- The three cases of C2 on the container of the scenario: `hp` as `int32_t`, `hp` as a
string, and the absent key `mp`. -/
theorem contains_iff_witness :
    agent.keys.Nodup ∧ agent.contains .int32 (str "hp") = true ∧
    agent.contains .string (str "hp") = false ∧ agent.contains .int32 (str "mp") = false := by
  have h : agent.keys.Nodup := by decide
  refine ⟨h, ?_, ?_, ?_⟩
  · exact (contains_iff agent h .int32 (str "hp")).1.mpr
      ⟨StoredValue.mk 80 (.int32 42), mem_of_find _ _ _ rfl, rfl⟩
  · exact (contains_iff agent h .string (str "hp")).2.2 (StoredValue.mk 80 (.int32 42))
      (mem_of_find _ _ _ rfl) (by decide)
  · exact (contains_iff agent h .int32 (str "mp")).2.1 (by decide)

/-- The read after the write of C4: `hp` is overwritten with `7`. -/
theorem get_after_set_witness :
    LogicalType.isNative .int32 = true ∧
    (agent.set .int32 (str "hp") (7 : Int)).get .int32 (str "hp") (0 : Int) = .ok (7 : Int) :=
  ⟨rfl, (get_after_set agent .int32 rfl (str "hp") (7 : Int) (0 : Int)).1⟩

/-- The two counts of C5: a new key and an existing key of the container of the scenario. -/
theorem set_keys_witness :
    agent.keys.Nodup ∧
    (agent.set .bool (str "alive") true).keys.length = agent.keys.length + 1 ∧
    (agent.set .bool (str "hp") true).keys.length = agent.keys.length := by
  have h : agent.keys.Nodup := by decide
  exact ⟨h, (set_keys agent h .bool (str "alive") true).2.2.1 (by decide),
    (set_keys agent h .bool (str "hp") true).2.2.2 (by decide)⟩

/-- The truncation of C6 after the eight bytes of the count. -/
theorem truncation_detected_witness :
    agent.WellFormed ∧ (operatorLshift agent).drop 8 ≠ [] ∧
    (operatorLshift agent).take 8 ++ (operatorLshift agent).drop 8 = operatorLshift agent ∧
    (operatorRshift ((operatorLshift agent).take 8) agent).2 = .error .streamFail := by
  have h : agent.WellFormed := by
    simp [agent, StorageContainer.set, rawSet, assign, StorageContainer.empty,
      StorageContainer.WellFormed, WellFormedEntries, Variant.WellFormed, Variant.ofStored,
      str, IdToType, TypeInfo.Id, TypeInfo.StoredType, Variant.kind]
    decide
  have hq : (operatorLshift agent).drop 8 ≠ [] := by decide
  exact ⟨h, hq, List.take_append_drop 8 _,
    truncation_detected agent h _ _ hq (List.take_append_drop 8 _) agent⟩

/-- The failure of C7 on a stream whose second entry has the `TypeId` 256. -/
theorem unknown_typeId_fatal_witness :
    StopsAtUnknown tenths .entries 2 unknownEntries ∧ 2 < 2 ^ 64 ∧
    (operatorRshift (IntegralTypeHandler.serialize 8 2 ++ unknownEntries)
      (StorageContainer.empty : StorageContainer tenths)).2 = .error .unknownTypeId := by
  have h : StopsAtUnknown tenths .entries 2 unknownEntries :=
    StopsAtUnknown.afterEntry 1 (str "hp") 80 (.int32 42) _
      (by simp [WellFormedEntries, Variant.WellFormed, Variant.kind, IdToType,
        TypeInfo.StoredType, str])
      (StopsAtUnknown.here 0 (str "zz") 256 [] (by decide) (by decide) (by decide))
  exact ⟨h, by decide, unknown_typeId_fatal 2 unknownEntries h (by decide) _⟩

/-- The order of C9: the second of three appended elements. -/
theorem list_order_preserved_witness :
    threeElements.length < 2 ^ 64 ∧
    StorageList.get (threeElements.foldl StorageList.append ([] : StorageList tenths)) 2
      = .ok (element 2) :=
  ⟨by decide, (list_order_preserved threeElements (by decide)).2.1 2 (by decide) (by decide)⟩

/-- The failures of C10 at index `0` of a list of three elements. -/
theorem invalid_index_fails_witness :
    StorageList.size threeElements < 2 ^ 64 ∧ 0 < 2 ^ 64 ∧
    (0 = 0 ∨ StorageList.size threeElements < 0) ∧
    StorageList.get threeElements 0 = .error .assertIndex ∧
    StorageList.at threeElements ((0 + 2 ^ 64 - 1) % 2 ^ 64) = .error .outOfRange :=
  ⟨by decide, by decide, Or.inl rfl,
    (invalid_index_fails threeElements 0 (by decide) (by decide) (Or.inl rfl)).1 rfl,
    (invalid_index_fails threeElements 0 (by decide) (by decide) (Or.inl rfl)).2.2⟩

/-! ## The tag and payload invariant -/

/-- C11: in a container obtained through the public operations (constructor,
setters, copies, deserialization, reads of nested containers), every entry, at
every depth, is tagged with a registered `TypeId` and its payload holds the
stored type registered for that id; so `boost::get` in `rawGet` does not throw. -/
theorem tag_payload_invariant (c : StorageContainer ex) (h : Reachable c) :
    c.Consistent ∧
    (∀ (key : Str) (v : StoredValue ex), (key, v) ∈ c.m_content →
      (∃ T, v.typeId = TypeInfo.Id T) ∧
      (∀ T, v.typeId = TypeInfo.Id T → v.value.kind = TypeInfo.StoredType T) ∧
      (v.typeId = 272 → v.value.kind = .float) ∧
      (v.typeId = 304 → v.value.kind = .storageContainer) ∧
      (v.typeId = 336 → v.value.kind = .uint32)) ∧
    (∀ (T : LogicalType) (key : Str) (d : (TypeInfo.StoredType T).type ex),
      ∃ r, rawGet T c key d = .ok r) := by
  have hc := reachable_consistent c h
  refine ⟨hc, ?_, fun T key d => rawGet_total T c hc key d⟩
  intro key v hv
  have htag := ((consistentEntries_iff c.m_content).mp ((consistent_iff c).mp hc).2 key v hv).1
  obtain ⟨T0, hT0, hk0⟩ := idToType_of_map htag
  have hid := id_of_idToType _ _ hT0
  have hall : ∀ T, v.typeId = TypeInfo.Id T → v.value.kind = TypeInfo.StoredType T := by
    intro T hT
    have : T0 = T := id_injective T0 T (hid.trans hT)
    rw [← this, hk0]
  exact ⟨⟨T0, hid.symm⟩, hall, fun h1 => hall .degree h1, fun h1 => hall .vector3 h1,
    fun h1 => hall .colourValue h1⟩

/-! ## The registry -/

/-- C12: the registry has twenty types, fifteen native and five compound; their
`TypeId`s are pairwise different, each is a multiple of 16 that is not zero and
fits in 16 bits, two of them differ by at least 16, and none is the `TypeId` 0
of a type that is not registered. -/
theorem typeIds_distinct_stride :
    LogicalType.all.length = 20 ∧
    (LogicalType.all.filter LogicalType.isNative).length = 15 ∧
    (∀ T : LogicalType, T ∈ LogicalType.all) ∧
    (∀ T U : LogicalType, TypeInfo.Id T = TypeInfo.Id U → T = U) ∧
    (∀ T : LogicalType, TypeInfo.Id T % 16 = 0 ∧ 0 < TypeInfo.Id T ∧ TypeInfo.Id T < 2 ^ 16
      ∧ TypeInfo.Id T ≠ TypeInfo.unregisteredId) ∧
    (∀ T U : LogicalType, T ≠ U →
      TypeInfo.Id T + 16 ≤ TypeInfo.Id U ∨ TypeInfo.Id U + 16 ≤ TypeInfo.Id T) := by
  refine ⟨rfl, rfl, ?_, id_injective, ?_, ?_⟩
  · intro T
    cases T <;> decide
  · intro T
    cases T <;> decide
  · intro T U h
    cases T <;> cases U <;> first
      | exact absurd rfl h
      | decide

/-! ## Types that share a stored type -/

theorem get_of_ne (c : StorageContainer ex) (T : LogicalType) (key : Str) (d : T.type ex)
    (v : StoredValue ex) (h : find c.m_content key = some v) (ht : v.typeId ≠ TypeInfo.Id T) :
    c.get T key d = .ok d := by
  cases T <;> simp only [StorageContainer.get] <;> first
    | exact rawGet_of_ne _ _ _ _ v h ht
    | simp [getDegree, getPlane, getVector3, getQuaternion,
        getColourValue, contains_of_ne _ c key v h ht]

/-- C13: after `set<U>(k, v)`, for a type `T` other than `U`, also one with the
same stored type, `contains<T>(k)` is false and `get<T>(k, d)` returns `d`. -/
theorem distinct_types_distinguished (c : StorageContainer ex) (U T : LogicalType)
    (hne : U ≠ T) (key : Str) (v : U.type ex) (d : T.type ex) :
    (c.set U key v).contains T key = false ∧ (c.set U key v).get T key d = .ok d := by
  obtain ⟨value, hset⟩ := set_eq_assign c U key v
  have hfind := find_assign_same c.m_content key
    (StoredValue.mk (TypeInfo.Id U) (Variant.ofStored (TypeInfo.StoredType U) value))
  have hid : (StoredValue.mk (TypeInfo.Id U)
      (Variant.ofStored (TypeInfo.StoredType U) value)).typeId ≠ TypeInfo.Id T := by
    intro h
    exact hne (id_injective U T h)
  rw [hset]
  exact ⟨contains_of_ne T _ key _ hfind hid, get_of_ne _ T key d _ hfind hid⟩

/-! ## The compound adapters -/

theorem setVector3_eq (c : StorageContainer ex) (key : Str) (v : Vector3 ex.F32) :
    setVector3 c key v = rawSet .vector3 c key (Vector3.storage v) := rfl

theorem vector3_ofStored_storage (v d : Vector3 ex.F32) :
    Vector3.ofStored (Vector3.storage v) d = .ok v := rfl

theorem getVector3_setVector3 (c : StorageContainer ex) (key : Str) (v d : Vector3 ex.F32) :
    getVector3 (setVector3 c key v) key d = .ok v := by
  rw [setVector3_eq]
  simp only [getVector3, StorageContainer.contains, rawContains, rawGet, rawSet, m_content_mk,
    find_assign_same, typeId_mk, value_mk]
  simp [TypeInfo.StoredType, Variant.ofStored, Variant.get, vector3_ofStored_storage]

/-- C14: after `set<Ogre::Vector3>(k, (x, y, z))` the entry under `k` has the
`TypeId` 304 of the vector and holds a container with exactly the floats `x`,
`y` and `z`; `get<Ogre::Vector3>(k, d)` returns `(x, y, z)`, whatever `d`. -/
theorem vector3_roundtrip (c : StorageContainer ex) (key : Str) (v d : Vector3 ex.F32) :
    find (c.set .vector3 key v).m_content key
      = some (.mk (TypeInfo.Id .vector3) (.storageContainer
          (.mk [(str "x", .mk (TypeInfo.Id .float) (.float v.x)),
            (str "y", .mk (TypeInfo.Id .float) (.float v.y)),
            (str "z", .mk (TypeInfo.Id .float) (.float v.z))]))) ∧
    (c.set .vector3 key v).get .vector3 key d = .ok v := by
  constructor
  · simp only [StorageContainer.set, setVector3_eq, rawSet, m_content_mk, find_assign_same]
    rfl
  · exact getVector3_setVector3 c key v d

theorem setPlane_eq (c : StorageContainer ex) (key : Str) (p : Plane ex.F32) :
    setPlane c key p = rawSet .plane c key (Plane.storage p) := rfl

theorem plane_ofStored_storage (p q : Plane ex.F32) :
    Plane.ofStored (Plane.storage p) q
      = .ok (Plane.ofNormalConstant p.normal (ex.neg32 p.d)) := rfl

/-- C19: after `set<Ogre::Plane>(k, p)` the entry under `k` has the `TypeId`
288 of the plane and holds a container with the vector `normal` and the float
`d` of `p`; `get<Ogre::Plane>(k, q)` returns `p`: the constructor negates the
negated `d`, which gives `d` back when the minus of `float` undoes itself. -/
theorem plane_roundtrip (c : StorageContainer ex) (key : Str) (p q : Plane ex.F32)
    (hneg : ex.neg32 (ex.neg32 p.d) = p.d) :
    find (c.set .plane key p).m_content key
      = some (.mk (TypeInfo.Id .plane) (.storageContainer
          (.mk [(str "normal", .mk (TypeInfo.Id .vector3)
              (.storageContainer (Vector3.storage p.normal))),
            (str "d", .mk (TypeInfo.Id .float) (.float p.d))]))) ∧
    (c.set .plane key p).get .plane key q = .ok p := by
  constructor
  · simp only [StorageContainer.set, setPlane_eq, rawSet, m_content_mk, find_assign_same]
    rfl
  · simp only [StorageContainer.set, StorageContainer.get, setPlane_eq, getPlane,
      StorageContainer.contains, rawContains, rawGet, rawSet, m_content_mk,
      find_assign_same, typeId_mk, value_mk]
    simp [TypeInfo.StoredType, Variant.ofStored, Variant.get, plane_ofStored_storage,
      Plane.ofNormalConstant, hneg]

/-! ## Decoding reads what encoding wrote -/

/-- C20: deserializing the bytes written for a well-formed container, followed
by any bytes `r`, returns the container and leaves the stream at the start of
`r`; the same holds for the codec of the lists. -/
theorem decode_consumes_exactly (c : StorageContainer ex) (h : c.WellFormed)
    (l : StorageList ex) (hl : (Variant.storageList l).WellFormed) (r : Stream)
    (t : StorageContainer ex) :
    operatorRshift (operatorLshift c ++ r) t = (c, .ok r) ∧
    TypeHandler.storageList.deserialize (TypeHandler.storageList.serialize l ++ r)
      = .ok (l, r) := by
  constructor
  · exact container_roundtrip c h (operatorLshift c ++ r).length r t (by simp)
  · simp only [Variant.WellFormed] at hl
    have he := elements_roundtrip l hl.2
      (TypeHandler.storageList.serialize l ++ r).length r [] 0
      (by simp only [TypeHandler.storageList.serialize, List.length_append]; omega)
    simp only [Nat.zero_add, List.nil_append, readElements] at he
    simp only [TypeHandler.storageList.deserialize, TypeHandler.storageList.deserializeWith,
      TypeHandler.storageList.serialize, List.append_assoc,
      integral_roundtrip_of_lt 8 l.length (lt_256_pow_8 hl.1)]
    simpa [TypeHandler.storageList.serialize] using he

/-! ## Moves -/

/-- C16, what the code does: a list of three elements that is moved from, by
the move constructor or by the move assignment, still has its three elements;
the destination holds the same elements. -/
theorem list_move_leaves_source :
    (StorageList.moveConstruct threeElements).1 = threeElements ∧
    StorageList.size (StorageList.moveConstruct threeElements).2 = 3 ∧
    (StorageList.moveAssign [] threeElements).1 = threeElements ∧
    StorageList.size (StorageList.moveAssign [] threeElements).2 = 3 :=
  ⟨rfl, rfl, rfl, rfl⟩

/-- C15, as amended: a move, by the constructor or by the assignment, gives the
destination the content of the source and leaves the source with a null
`m_impl`; on an object with a null `m_impl`, `keys`, `contains`, `get` and
`set` dereference the null pointer, and a move assignment to it gives it a
content again. -/
theorem move_transfers_ownership (this other : ContainerObject ex) :
    (ContainerObject.moveConstruct other).1.m_impl = other.m_impl ∧
    (ContainerObject.moveConstruct other).2.m_impl = none ∧
    (ContainerObject.moveAssign this other).1.m_impl = other.m_impl ∧
    (ContainerObject.moveAssign this other).2.m_impl = none ∧
    (∀ source : ContainerObject ex, source.m_impl = none →
      source.keys = .error .nullDereference ∧
      (∀ (T : LogicalType) (key : Str) (d v : T.type ex),
        source.contains T key = .error .nullDereference ∧
        source.get T key d = .error .nullDereference ∧
        source.set T key v = .error .nullDereference) ∧
      (ContainerObject.moveAssign source other).1.m_impl = other.m_impl) := by
  refine ⟨rfl, rfl, rfl, rfl, ?_⟩
  intro source hs
  refine ⟨?_, ?_, rfl⟩
  · simp [ContainerObject.keys, hs]
  · intro T key d v
    simp [ContainerObject.contains, ContainerObject.get, ContainerObject.set, hs]

/-- C15, as stated, fails: the container of the scenario is moved from; `keys()`
on it is not the empty sequence but a null dereference, and so are `contains`,
`get` and `set`. -/
theorem moved_from_container_unusable :
    (ContainerObject.moveConstruct (ContainerObject.mk (some agent))).2.keys
      = .error .nullDereference ∧
    (ContainerObject.moveConstruct (ContainerObject.mk (some agent))).2.keys ≠ .ok [] ∧
    (ContainerObject.moveConstruct (ContainerObject.mk (some agent))).2.contains .int32 (str "hp")
      ≠ .ok false ∧
    (ContainerObject.moveConstruct (ContainerObject.mk (some agent))).2.get .int32 (str "hp")
      (0 : Int) ≠ .ok (0 : Int) ∧
    (ContainerObject.moveAssign ContainerObject.new (ContainerObject.mk (some agent))).2.keys
      ≠ .ok [] := by
  refine ⟨rfl, ?_, ?_, ?_, ?_⟩ <;> intro h <;> cases h

/-! ## The dynamically typed accessor -/

theorem toLua_native (lb : Luabind ex) (v : StoredValue ex) (T : LogicalType)
    (hT : T.isNative = true) (h : v.typeId = TypeInfo.Id T) :
    toLua lb v = toLuaCase lb T v := by
  cases T <;> first
    | (simp [LogicalType.isNative] at hT; done)
    | simp [toLua, h, TypeInfo.Id]

theorem toLua_default (lb : Luabind ex) (v : StoredValue ex)
    (h : ∀ T : LogicalType, T.isNative = true → v.typeId ≠ TypeInfo.Id T) :
    toLua lb v = .ok lb.empty := by
  simp [toLua, h .bool rfl, h .char rfl, h .int8 rfl, h .int16 rfl, h .int32 rfl,
    h .int64 rfl, h .uint8 rfl, h .uint16 rfl, h .uint32 rfl, h .uint64 rfl, h .float rfl,
    h .double rfl, h .string rfl, h .storageContainer rfl, h .storageList rfl]

theorem toLuaCase_ofStored (lb : Luabind ex) (T : LogicalType) (v : StoredValue ex)
    (x : (TypeInfo.StoredType T).type ex) (hx : v.value = Variant.ofStored _ x) :
    toLuaCase lb T v = .ok (lb.ofValue _ x) := by
  simp [toLuaCase, hx, get_ofStored]

/-- C17, as amended: on a container obtained through the public operations,
`luaGet` returns the fallback for an absent key; for a key under the `TypeId`
of one of the fifteen native types, `toLua` converts the stored value without
failing and `luaGet` returns the converted object when it is true and the
fallback otherwise; for a key under a `TypeId` without a case in the `switch`,
`toLua` returns the empty object and `luaGet` returns the fallback: it does not
fail. -/
theorem luaGet_dispatch (lb : Luabind ex) (hempty : lb.truth lb.empty = false)
    (c : StorageContainer ex) (hc : Reachable c) (key : Str) (fallback : lb.Object) :
    (key ∉ c.keys → c.luaGet lb key fallback = .ok fallback) ∧
    (∀ (v : StoredValue ex) (T : LogicalType), (key, v) ∈ c.m_content →
      T.isNative = true → v.typeId = TypeInfo.Id T →
      ∃ x : (TypeInfo.StoredType T).type ex, v.value = Variant.ofStored _ x ∧
        c.luaGet lb key fallback
          = .ok (if lb.truth (lb.ofValue _ x) then lb.ofValue _ x else fallback)) ∧
    (∀ v : StoredValue ex, (key, v) ∈ c.m_content →
      (∀ T : LogicalType, T.isNative = true → v.typeId ≠ TypeInfo.Id T) →
      c.luaGet lb key fallback = .ok fallback) := by
  have hcons := reachable_consistent c hc
  have hnodup := ((consistent_iff c).mp hcons).1
  simp only [StorageContainer.keys] at hnodup
  refine ⟨?_, ?_, ?_⟩
  · intro hk
    have := (find_eq_none_iff c.m_content key).mpr (by simpa [StorageContainer.keys] using hk)
    simp [StorageContainer.luaGet, this]
  · intro v T hv hT ht
    have hf := find_of_mem _ hnodup key v hv
    obtain ⟨x, hx⟩ := payload_of_tag c hcons T key v hf ht
    refine ⟨x, hx, ?_⟩
    simp only [StorageContainer.luaGet, hf, toLua_native lb v T hT ht,
      toLuaCase_ofStored lb T v x hx]
    split <;> rfl
  · intro v hv hn
    have hf := find_of_mem _ hnodup key v hv
    simp [StorageContainer.luaGet, hf, toLua_default lb v hn, hempty]

/-- C17, as stated, fails: the key `angle` is present with the `TypeId` 272 of
an angle, which has no case in the `switch` of `toLua`, and `luaGet` returns
the fallback without failing. -/
theorem luaGet_angle_returns_fallback :
    find withAngle.m_content (str "angle") = some (.mk 272 (.float (900 : Int))) ∧
    withAngle.luaGet optionLua (str "angle") (some (.string (str "fallback")))
      = .ok (some (.string (str "fallback"))) :=
  ⟨rfl, rfl⟩

/-- The dispatch of C17 on the container of the scenario: `hp` is converted. -/
theorem luaGet_dispatch_witness :
    optionLua.truth optionLua.empty = false ∧ Reachable agent ∧
    agent.luaGet optionLua (str "hp") (some (.string (str "fallback")))
      = .ok (some (.int32 42)) := by
  have h : Reachable agent :=
    Reachable.setContainer _ _ _
      (Reachable.set _ .int32 _ _
        (Reachable.set _ .string _ _ Reachable.empty (by decide) (by decide))
        (by decide) (by decide))
      (Reachable.set _ .float _ _
        (Reachable.set _ .float _ _
          (Reachable.set _ .float _ _ Reachable.empty (by decide) (by decide))
          (by decide) (by decide))
        (by decide) (by decide))
  refine ⟨rfl, h, ?_⟩
  obtain ⟨x, hx, hget⟩ := (luaGet_dispatch optionLua rfl agent h (str "hp")
    (some (.string (str "fallback")))).2.1 (.mk 80 (.int32 42)) .int32
    (mem_of_find _ _ _ rfl) rfl rfl
  rw [hget]
  have hx42 : x = (42 : Int) := by
    have : Variant.int32 (42 : Int) = (Variant.int32 x : Variant tenths) := hx
    exact (Variant.int32.inj this).symm
  rw [hx42]
  rfl

/-! ## A failed deserialization and its target -/

theorem operatorRshift_count_error (s : Stream) (t : StorageContainer ex) (e : Failure)
    (h : IntegralTypeHandler.deserialize 8 s = .error e) :
    operatorRshift s t = (t, .error e) := by
  simp [operatorRshift, operatorRshiftFuel, operatorRshiftWith, h]

theorem operatorRshift_cleared (s : Stream) (t : StorageContainer ex) (size : Nat)
    (s1 : Stream) (h : IntegralTypeHandler.deserialize 8 s = .ok (size, s1)) :
    operatorRshift s t = operatorRshift s StorageContainer.empty := by
  simp [operatorRshift, operatorRshiftFuel, operatorRshiftWith, h]

theorem float_bad_text (text : Str) (htext : text.length < 2 ^ 64)
    (hbad : ex.parse32 text = none) (rest : Stream) :
    TypeHandler.float.deserialize ex (TypeHandler.string.serialize text ++ rest)
      = .error .badLexicalCast := by
  simp only [TypeHandler.float.deserialize, string_roundtrip text htext, hbad]

/-- A stream with the entries `es` and then a float whose text is not a
number: the call stops in the cast, and the target holds `es`. -/
theorem operatorRshift_bad_float (es : Content ex) (hes : WellFormedEntries es)
    (hnodup : (es.map Prod.fst).Nodup) (count : Nat) (hcount : es.length < count)
    (h64 : count < 2 ^ 64) (key text : Str) (hkey : key.length < 2 ^ 64)
    (htext : text.length < 2 ^ 64) (hbad : ex.parse32 text = none) (rest : Stream)
    (t : StorageContainer ex) :
    operatorRshift (IntegralTypeHandler.serialize 8 count ++ (serializeEntries es
      ++ (TypeHandler.string.serialize key ++ (IntegralTypeHandler.serialize 2 176
        ++ (TypeHandler.string.serialize text ++ rest))))) t
      = (.mk es, .error .badLexicalCast) := by
  obtain ⟨k, rfl⟩ : ∃ k, count = (k + 1) + es.length := ⟨count - es.length - 1, by omega⟩
  simp only [operatorRshift, operatorRshiftFuel, operatorRshiftWith,
    integral_roundtrip_of_lt 8 _ (lt_256_pow_8 h64)]
  generalize hfuel : (IntegralTypeHandler.serialize 8 (k + 1 + es.length) ++ (serializeEntries es
      ++ (TypeHandler.string.serialize key ++ (IntegralTypeHandler.serialize 2 176
        ++ (TypeHandler.string.serialize text ++ rest))))).length = fuel
  simp only [List.length_append, string_serialize_length, IntegralTypeHandler.serialize,
    toLE_length] at hfuel
  obtain ⟨f, rfl⟩ : ∃ f, fuel = f + 1 := ⟨fuel - 1, by omega⟩
  rw [entries_roundtrip es hes (f + 1) _ [] (k + 1) (by omega)]
  simp only [readEntries, string_roundtrip key hkey,
    integral_roundtrip_of_lt 2 176 (by norm_num),
    deserialize_registered f 176 .float _ rfl, TypeInfo.StoredType,
    TypeHandler.deserializeWith, float_bad_text text htext hbad, wrap]
  rw [assignAll_eq_append es [] (by simpa using hnodup)]
  rfl

theorem double_bad_text (text : Str) (htext : text.length < 2 ^ 64)
    (hbad : ex.parse64 text = none) (rest : Stream) :
    TypeHandler.double.deserialize ex (TypeHandler.string.serialize text ++ rest)
      = .error .badLexicalCast := by
  simp only [TypeHandler.double.deserialize, string_roundtrip text htext, hbad]

/-- A stream with the entries `es` and then bytes on which the read of the next
entry fails: the call stops with that failure, and the target holds `es`. -/
theorem operatorRshift_stops_after (es : Content ex) (hes : WellFormedEntries es)
    (hnodup : (es.map Prod.fst).Nodup) (count : Nat) (hcount : es.length < count)
    (h64 : count < 2 ^ 64) (rest : Stream) (e : Failure)
    (hfail : ∀ (k : Nat) (m : Content ex),
      readEntries (deserialize (IntegralTypeHandler.serialize 8 count
        ++ (serializeEntries es ++ rest)).length) (k + 1) rest m = (m, .error e))
    (t : StorageContainer ex) :
    operatorRshift (IntegralTypeHandler.serialize 8 count ++ (serializeEntries es ++ rest)) t
      = (.mk es, .error e) := by
  obtain ⟨k, rfl⟩ : ∃ k, count = (k + 1) + es.length := ⟨count - es.length - 1, by omega⟩
  simp only [operatorRshift, operatorRshiftFuel, operatorRshiftWith,
    integral_roundtrip_of_lt 8 _ (lt_256_pow_8 h64)]
  rw [entries_roundtrip es hes _ _ [] (k + 1) (by simp only [List.length_append]; omega),
    hfail k, assignAll_eq_append es [] (by simpa using hnodup)]
  rfl

theorem readEntries_bad_key (deser : TypeId → Stream → Except Failure (Variant ex × Stream))
    (rest : Stream) (e : Failure) (h : TypeHandler.string.deserialize rest = .error e)
    (k : Nat) (m : Content ex) :
    readEntries deser (k + 1) rest m = (m, .error e) := by
  simp only [readEntries, h]

theorem readEntries_bad_id (deser : TypeId → Stream → Except Failure (Variant ex × Stream))
    (key : Str) (hkey : key.length < 2 ^ 64) (rest : Stream) (e : Failure)
    (h : IntegralTypeHandler.deserialize 2 rest = .error e) (k : Nat) (m : Content ex) :
    readEntries deser (k + 1) (TypeHandler.string.serialize key ++ rest) m = (m, .error e) := by
  simp only [readEntries, string_roundtrip key hkey, h]

theorem readEntries_bad_payload
    (deser : TypeId → Stream → Except Failure (Variant ex × Stream))
    (key : Str) (hkey : key.length < 2 ^ 64) (typeId : TypeId) (hid : typeId < 2 ^ 16)
    (payload : Stream) (e : Failure) (h : deser typeId payload = .error e)
    (k : Nat) (m : Content ex) :
    readEntries deser (k + 1) (TypeHandler.string.serialize key
      ++ (IntegralTypeHandler.serialize 2 typeId ++ payload)) m = (m, .error e) := by
  simp only [readEntries, string_roundtrip key hkey,
    integral_roundtrip_of_lt 2 typeId (lt_256_pow_2 hid), h]

theorem registered_id_lt (typeId : TypeId) (T : LogicalType) (h : IdToType typeId = some T) :
    typeId < 2 ^ 16 := by
  rw [← id_of_idToType typeId T h]
  cases T <;> decide

theorem counted_length_succ (count : Nat) (r : Stream) :
    ∃ f, (IntegralTypeHandler.serialize 8 count ++ r).length = f + 1 :=
  ⟨7 + r.length, by
    simp only [List.length_append, IntegralTypeHandler.serialize, toLE_length]; omega⟩

/-- The decoder of a registered type stored as a `float` or as a `double`
throws on a text that is not a number. -/
theorem deserialize_bad_text (fuel : Nat) (typeId : TypeId) (T : LogicalType)
    (hT : IdToType typeId = some T) (text : Str) (htext : text.length < 2 ^ 64)
    (hbad : (TypeInfo.StoredType T = .float ∧ ex.parse32 text = none) ∨
      (TypeInfo.StoredType T = .double ∧ ex.parse64 text = none)) (rest : Stream) :
    (deserialize (fuel + 1) typeId (TypeHandler.string.serialize text ++ rest) :
      Except Failure (Variant ex × Stream)) = .error .badLexicalCast := by
  rw [deserialize_registered fuel typeId T _ hT]
  rcases hbad with ⟨hk, hp⟩ | ⟨hk, hp⟩
  · rw [hk]
    simp only [TypeHandler.deserializeWith, float_bad_text text htext hp, wrap]
  · rw [hk]
    simp only [TypeHandler.deserializeWith, double_bad_text text htext hp, wrap]

/-- C18, as amended: deserialization commits as it goes.  When it fails before
the count of entries is read, the target is unchanged; once the count is read
the previous content of the target is gone, whatever follows; and when the read
of an entry then fails, the target holds the entries read before it.  The read
of an entry fails in its key, in its `TypeId`, or in its payload; the `TypeId`
that is not registered fails, and so does the payload of a type stored as a
`float` or as a `double` (`float`, `Ogre::Degree`, `double`) whose text is not
a number. -/
theorem decode_commits_as_it_goes (s : Stream) (t : StorageContainer ex) :
    (∀ e : Failure, IntegralTypeHandler.deserialize 8 s = .error e →
      operatorRshift s t = (t, .error e)) ∧
    (∀ (size : Nat) (s1 : Stream), IntegralTypeHandler.deserialize 8 s = .ok (size, s1) →
      operatorRshift s t = operatorRshift s StorageContainer.empty) ∧
    (∀ (es : Content ex) (count : Nat) (rest : Stream) (e : Failure),
      WellFormedEntries es → (es.map Prod.fst).Nodup → es.length < count → count < 2 ^ 64 →
      TypeHandler.string.deserialize rest = .error e →
      s = IntegralTypeHandler.serialize 8 count ++ (serializeEntries es ++ rest) →
      operatorRshift s t = (.mk es, .error e)) ∧
    (∀ (es : Content ex) (count : Nat) (key : Str) (rest : Stream) (e : Failure),
      WellFormedEntries es → (es.map Prod.fst).Nodup → es.length < count → count < 2 ^ 64 →
      key.length < 2 ^ 64 → IntegralTypeHandler.deserialize 2 rest = .error e →
      s = IntegralTypeHandler.serialize 8 count ++ (serializeEntries es
        ++ (TypeHandler.string.serialize key ++ rest)) →
      operatorRshift s t = (.mk es, .error e)) ∧
    (∀ (es : Content ex) (count : Nat) (key : Str) (typeId : TypeId) (payload : Stream)
      (e : Failure),
      WellFormedEntries es → (es.map Prod.fst).Nodup → es.length < count → count < 2 ^ 64 →
      key.length < 2 ^ 64 → typeId < 2 ^ 16 →
      (deserialize s.length typeId payload : Except Failure (Variant ex × Stream)) = .error e →
      s = IntegralTypeHandler.serialize 8 count ++ (serializeEntries es
        ++ (TypeHandler.string.serialize key ++ (IntegralTypeHandler.serialize 2 typeId
          ++ payload))) →
      operatorRshift s t = (.mk es, .error e)) ∧
    (∀ (es : Content ex) (count : Nat) (key : Str) (typeId : TypeId) (rest : Stream),
      WellFormedEntries es → (es.map Prod.fst).Nodup → es.length < count → count < 2 ^ 64 →
      key.length < 2 ^ 64 → typeId < 2 ^ 16 → IdToType typeId = none →
      s = IntegralTypeHandler.serialize 8 count ++ (serializeEntries es
        ++ (TypeHandler.string.serialize key ++ (IntegralTypeHandler.serialize 2 typeId
          ++ rest))) →
      operatorRshift s t = (.mk es, .error .unknownTypeId)) ∧
    (∀ (es : Content ex) (count : Nat) (key text : Str) (typeId : TypeId) (T : LogicalType)
      (rest : Stream),
      WellFormedEntries es → (es.map Prod.fst).Nodup → es.length < count → count < 2 ^ 64 →
      key.length < 2 ^ 64 → text.length < 2 ^ 64 → IdToType typeId = some T →
      ((TypeInfo.StoredType T = .float ∧ ex.parse32 text = none) ∨
        (TypeInfo.StoredType T = .double ∧ ex.parse64 text = none)) →
      s = IntegralTypeHandler.serialize 8 count ++ (serializeEntries es
        ++ (TypeHandler.string.serialize key ++ (IntegralTypeHandler.serialize 2 typeId
          ++ (TypeHandler.string.serialize text ++ rest)))) →
      operatorRshift s t = (.mk es, .error .badLexicalCast)) := by
  refine ⟨fun e h => operatorRshift_count_error s t e h,
    fun size s1 h => operatorRshift_cleared s t size s1 h, ?_, ?_, ?_, ?_, ?_⟩
  · intro es count rest e hes hnodup hcount h64 hbad hs
    rw [hs]
    exact operatorRshift_stops_after es hes hnodup count hcount h64 _ e
      (fun k m => readEntries_bad_key _ rest e hbad k m) t
  · intro es count key rest e hes hnodup hcount h64 hkey hbad hs
    rw [hs]
    exact operatorRshift_stops_after es hes hnodup count hcount h64 _ e
      (fun k m => readEntries_bad_id _ key hkey rest e hbad k m) t
  · intro es count key typeId payload e hes hnodup hcount h64 hkey hid hbad hs
    rw [hs] at hbad ⊢
    exact operatorRshift_stops_after es hes hnodup count hcount h64 _ e
      (fun k m => readEntries_bad_payload _ key hkey typeId hid payload e hbad k m) t
  · intro es count key typeId rest hes hnodup hcount h64 hkey hid hnone hs
    rw [hs]
    refine operatorRshift_stops_after es hes hnodup count hcount h64 _ _ (fun k m => ?_) t
    obtain ⟨f, hf⟩ := counted_length_succ count (serializeEntries es
      ++ (TypeHandler.string.serialize key ++ (IntegralTypeHandler.serialize 2 typeId ++ rest)))
    rw [hf]
    exact readEntries_bad_payload _ key hkey typeId hid rest _
      (deserialize_unregistered f typeId rest hnone) k m
  · intro es count key text typeId T rest hes hnodup hcount h64 hkey htext hT hbad hs
    rw [hs]
    refine operatorRshift_stops_after es hes hnodup count hcount h64 _ _ (fun k m => ?_) t
    obtain ⟨f, hf⟩ := counted_length_succ count (serializeEntries es
      ++ (TypeHandler.string.serialize key ++ (IntegralTypeHandler.serialize 2 typeId
        ++ (TypeHandler.string.serialize text ++ rest))))
    rw [hf]
    exact readEntries_bad_payload _ key hkey typeId (registered_id_lt typeId T hT) _ _
      (deserialize_bad_text f typeId T hT text htext hbad rest) k m

/-- C18, as stated, fails: the target is the container of the scenario, with
its three entries; the stream announces `hp = 42` and a float whose text is
`abc`.  The call fails in the cast, and the target is left with the one entry
`hp`: cleared, and populated with what was read before the failure. -/
theorem failed_decode_leaves_partial :
    (operatorRshift badFloatStream agent).2 = .error .badLexicalCast ∧
    (operatorRshift badFloatStream agent).1
      = .mk [(str "hp", .mk 80 (.int32 42))] ∧
    (operatorRshift badFloatStream agent).1 ≠ agent ∧ agent.keys.length = 3 := by
  have h : operatorRshift badFloatStream agent
      = (.mk [(str "hp", .mk 80 (.int32 42))], .error .badLexicalCast) := by
    have := operatorRshift_bad_float
      ([(str "hp", .mk 80 (.int32 42))] : Content tenths)
      (by simp [WellFormedEntries, Variant.WellFormed, Variant.kind, IdToType,
        TypeInfo.StoredType, str])
      (by simp) 2 (by simp) (by norm_num) (str "x") (str "abc") (by decide) (by decide)
      (by decide) [] agent
    simpa [badFloatStream] using this
  refine ⟨by rw [h], by rw [h], ?_, by decide⟩
  rw [h]
  intro hc
  have := congrArg (fun c => c.keys.length) hc
  revert this
  decide

/-! ## More theorems at concrete inputs -/

/-- The invariant of C11 on the container of the scenario. -/
theorem tag_payload_invariant_witness :
    Reachable agent ∧ agent.Consistent ∧
    ∃ r, rawGet .storageContainer agent (str "pos") StorageContainer.empty = .ok r := by
  have h : Reachable agent :=
    Reachable.setContainer _ _ _
      (Reachable.set _ .int32 _ _
        (Reachable.set _ .string _ _ Reachable.empty (by decide) (by decide))
        (by decide) (by decide))
      (Reachable.set _ .float _ _
        (Reachable.set _ .float _ _
          (Reachable.set _ .float _ _ Reachable.empty (by decide) (by decide))
          (by decide) (by decide))
        (by decide) (by decide))
  exact ⟨h, (tag_payload_invariant agent h).1,
    (tag_payload_invariant agent h).2.2 .storageContainer (str "pos") StorageContainer.empty⟩

/-- The distinction of C13 between an angle and a float: the angle of 90
degrees is not read as a float. -/
theorem distinct_types_distinguished_witness :
    LogicalType.degree ≠ LogicalType.float ∧
    (agent.set .degree (str "angle") ⟨(900 : Int)⟩).contains .float (str "angle") = false ∧
    (agent.set .degree (str "angle") ⟨(900 : Int)⟩).get .float (str "angle") (5 : Int)
      = .ok (5 : Int) :=
  ⟨by decide,
    (distinct_types_distinguished agent .degree .float (by decide) (str "angle")
      ⟨(900 : Int)⟩ (5 : Int)).1,
    (distinct_types_distinguished agent .degree .float (by decide) (str "angle")
      ⟨(900 : Int)⟩ (5 : Int)).2⟩

/-- The round trip of C19 for the plane with normal `(0, 1, 0)` and `d = 2.5`. -/
theorem plane_roundtrip_witness :
    tenths.neg32 (tenths.neg32 (25 : Int)) = (25 : Int) ∧
    (agent.set .plane (str "ground") ⟨⟨(0 : Int), (10 : Int), (0 : Int)⟩, (25 : Int)⟩).get .plane
      (str "ground") ⟨⟨(0 : Int), (0 : Int), (0 : Int)⟩, (0 : Int)⟩
      = .ok ⟨⟨(0 : Int), (10 : Int), (0 : Int)⟩, (25 : Int)⟩ :=
  ⟨by decide,
    (plane_roundtrip agent (str "ground") ⟨⟨(0 : Int), (10 : Int), (0 : Int)⟩, (25 : Int)⟩
      ⟨⟨(0 : Int), (0 : Int), (0 : Int)⟩, (0 : Int)⟩ (by decide)).2⟩

/-- The reads of C20: the container of the scenario and a list of three
elements, each followed by three more bytes. -/
theorem decode_consumes_exactly_witness :
    agent.WellFormed ∧ (Variant.storageList threeElements).WellFormed ∧
    operatorRshift (operatorLshift agent ++ [1, 2, 3]) StorageContainer.empty
      = (agent, .ok [1, 2, 3]) ∧
    TypeHandler.storageList.deserialize
        (TypeHandler.storageList.serialize threeElements ++ [1, 2, 3])
      = .ok (threeElements, [1, 2, 3]) := by
  have h : agent.WellFormed := by
    simp [agent, StorageContainer.set, rawSet, assign, StorageContainer.empty,
      StorageContainer.WellFormed, WellFormedEntries, Variant.WellFormed, Variant.ofStored,
      str, IdToType, TypeInfo.Id, TypeInfo.StoredType, Variant.kind]
    decide
  have hl : (Variant.storageList threeElements).WellFormed := by
    simp [threeElements, element, StorageContainer.set, rawSet, assign, StorageContainer.empty,
      StorageContainer.WellFormed, WellFormedEntries, WellFormedElements, Variant.WellFormed,
      Variant.ofStored, str, IdToType, TypeInfo.Id, TypeInfo.StoredType, Variant.kind]
  exact ⟨h, hl, (decode_consumes_exactly agent h threeElements hl [1, 2, 3] _).1,
    (decode_consumes_exactly agent h threeElements hl [1, 2, 3] StorageContainer.empty).2⟩

/-! ## What a read takes from the stream -/

theorem integral_consumes (width : Nat) (s : Stream) (n : Nat) (r : Stream)
    (h : IntegralTypeHandler.deserialize width s = .ok (n, r)) : r.length + width = s.length := by
  simp only [IntegralTypeHandler.deserialize] at h
  split at h
  · next hw =>
    simp only [Except.ok.injEq, Prod.mk.injEq] at h
    rw [← h.2, List.length_drop]
    omega
  · simp at h

theorem signed_consumes (width : Nat) (s : Stream) (n : Int) (r : Stream)
    (h : IntegralTypeHandler.deserializeSigned width s = .ok (n, r)) :
    r.length + width = s.length := by
  simp only [IntegralTypeHandler.deserializeSigned] at h
  split at h
  · next m r1 hm =>
    simp only [Except.ok.injEq, Prod.mk.injEq] at h
    rw [← h.2]
    exact integral_consumes width s m r1 hm
  · simp at h

theorem bool_consumes (s : Stream) (b : Bool) (r : Stream)
    (h : TypeHandler.bool.deserialize s = .ok (b, r)) : r.length + 1 = s.length := by
  simp only [TypeHandler.bool.deserialize] at h
  split at h
  · next m r1 hm =>
    simp only [Except.ok.injEq, Prod.mk.injEq] at h
    rw [← h.2]
    exact integral_consumes 1 s m r1 hm
  · simp at h

theorem char_consumes (s : Stream) (v : Int) (r : Stream)
    (h : TypeHandler.char.deserialize s = .ok (v, r)) : r.length + 1 = s.length := by
  cases s with
  | nil => simp [TypeHandler.char.deserialize] at h
  | cons b s1 =>
    simp only [TypeHandler.char.deserialize, Except.ok.injEq, Prod.mk.injEq] at h
    rw [← h.2]
    rfl

theorem string_consumes (s : Stream) (x : Str) (r : Stream)
    (h : TypeHandler.string.deserialize s = .ok (x, r)) : r.length + 8 ≤ s.length := by
  simp only [TypeHandler.string.deserialize] at h
  split at h
  · simp at h
  · next size s1 hs =>
    have h8 := integral_consumes 8 s size s1 hs
    split at h
    · simp only [Except.ok.injEq, Prod.mk.injEq] at h
      rw [← h.2, List.length_drop]
      omega
    · simp at h

theorem float_consumes (s : Stream) (v : ex.F32) (r : Stream)
    (h : TypeHandler.float.deserialize ex s = .ok (v, r)) : r.length + 8 ≤ s.length := by
  simp only [TypeHandler.float.deserialize] at h
  split at h
  · simp at h
  · next x r1 hs =>
    split at h
    · simp only [Except.ok.injEq, Prod.mk.injEq] at h
      rw [← h.2]
      exact string_consumes s x r1 hs
    · simp at h

theorem double_consumes (s : Stream) (v : ex.F64) (r : Stream)
    (h : TypeHandler.double.deserialize ex s = .ok (v, r)) : r.length + 8 ≤ s.length := by
  simp only [TypeHandler.double.deserialize] at h
  split at h
  · simp at h
  · next x r1 hs =>
    split at h
    · simp only [Except.ok.injEq, Prod.mk.injEq] at h
      rw [← h.2]
      exact string_consumes s x r1 hs
    · simp at h

theorem readEntries_consumes
    (deser : TypeId → Stream → Except Failure (Variant ex × Stream))
    (hcons : ∀ typeId s v r, deser typeId s = .ok (v, r) → r.length ≤ s.length)
    (count : Nat) (s : Stream) (m : Content ex) (r : Stream)
    (h : (readEntries deser count s m).2 = .ok r) : r.length + 10 * count ≤ s.length := by
  induction count generalizing s m with
  | zero =>
    simp only [readEntries, Except.ok.injEq] at h
    rw [h]
    omega
  | succ n ih =>
    simp only [readEntries] at h
    split at h
    · simp at h
    · next key s1 hkey =>
      split at h
      · simp at h
      · next typeId s2 hid =>
        split at h
        · simp at h
        · next value s3 hv =>
          have h1 := string_consumes s key s1 hkey
          have h2 := integral_consumes 2 s1 typeId s2 hid
          have h3 := hcons typeId s2 value s3 hv
          have h4 := ih s3 _ h
          omega

theorem operatorRshiftWith_consumes
    (deser : TypeId → Stream → Except Failure (Variant ex × Stream))
    (hcons : ∀ typeId s v r, deser typeId s = .ok (v, r) → r.length ≤ s.length)
    (s : Stream) (t : StorageContainer ex) (r : Stream)
    (h : (operatorRshiftWith deser s t).2 = .ok r) : r.length + 8 ≤ s.length := by
  simp only [operatorRshiftWith] at h
  split at h
  · simp at h
  · next size s1 hs =>
    have h1 := integral_consumes 8 s size s1 hs
    have h2 := readEntries_consumes deser hcons size s1 [] r h
    omega

theorem container_deserialize_consumes
    (deser : TypeId → Stream → Except Failure (Variant ex × Stream))
    (hcons : ∀ typeId s v r, deser typeId s = .ok (v, r) → r.length ≤ s.length)
    (s : Stream) (c : StorageContainer ex) (r : Stream)
    (h : TypeHandler.storageContainer.deserializeWith deser s = .ok (c, r)) :
    r.length + 8 ≤ s.length := by
  unfold TypeHandler.storageContainer.deserializeWith at h
  split at h
  · next value r1 heq =>
    simp only [Except.ok.injEq, Prod.mk.injEq] at h
    rw [← h.2]
    exact operatorRshiftWith_consumes deser hcons s StorageContainer.empty r1 (by rw [heq])
  · simp at h

theorem readElements_consumes
    (deser : TypeId → Stream → Except Failure (Variant ex × Stream))
    (hcons : ∀ typeId s v r, deser typeId s = .ok (v, r) → r.length ≤ s.length)
    (count : Nat) (s : Stream) (acc l : StorageList ex) (r : Stream)
    (h : readElements deser count s acc = .ok (l, r)) : r.length + 8 * count ≤ s.length := by
  induction count generalizing s acc with
  | zero =>
    simp only [readElements, Except.ok.injEq, Prod.mk.injEq] at h
    rw [← h.2]
    omega
  | succ n ih =>
    simp only [readElements] at h
    split at h
    · simp at h
    · next element s1 he =>
      have h1 := container_deserialize_consumes deser hcons s element s1 he
      have h2 := ih s1 _ h
      omega

theorem list_deserialize_consumes
    (deser : TypeId → Stream → Except Failure (Variant ex × Stream))
    (hcons : ∀ typeId s v r, deser typeId s = .ok (v, r) → r.length ≤ s.length)
    (s : Stream) (l : StorageList ex) (r : Stream)
    (h : TypeHandler.storageList.deserializeWith deser s = .ok (l, r)) :
    r.length + 8 ≤ s.length := by
  unfold TypeHandler.storageList.deserializeWith at h
  split at h
  · simp at h
  · next size s1 hs =>
    have h1 := integral_consumes 8 s size s1 hs
    have h2 := readElements_consumes deser hcons size s1 [] l r h
    omega

theorem deserializeWith_consumes
    (deser : TypeId → Stream → Except Failure (Variant ex × Stream))
    (hcons : ∀ typeId s v r, deser typeId s = .ok (v, r) → r.length ≤ s.length)
    (k : Kind) (s : Stream) (v : Variant ex) (r : Stream)
    (h : TypeHandler.deserializeWith deser k s = .ok (v, r)) : r.length + 1 ≤ s.length := by
  cases k <;> obtain ⟨a, ha, _⟩ := wrap_eq_ok _ _ _ _ h
  case bool => have := bool_consumes s a r ha; omega
  case char => have := char_consumes s a r ha; omega
  case int8 => have := signed_consumes 1 s a r ha; omega
  case int16 => have := signed_consumes 2 s a r ha; omega
  case int32 => have := signed_consumes 4 s a r ha; omega
  case int64 => have := signed_consumes 8 s a r ha; omega
  case uint8 => have := integral_consumes 1 s a r ha; omega
  case uint16 => have := integral_consumes 2 s a r ha; omega
  case uint32 => have := integral_consumes 4 s a r ha; omega
  case uint64 => have := integral_consumes 8 s a r ha; omega
  case float => have := float_consumes s a r ha; omega
  case double => have := double_consumes s a r ha; omega
  case string => have := string_consumes s a r ha; omega
  case storageContainer => have := container_deserialize_consumes deser hcons s a r ha; omega
  case storageList => have := list_deserialize_consumes deser hcons s a r ha; omega

theorem deserialize_consumes (fuel : Nat) (typeId : TypeId) (s : Stream) (v : Variant ex)
    (r : Stream) (h : deserialize fuel typeId s = .ok (v, r)) : r.length + 1 ≤ s.length := by
  induction fuel generalizing typeId s v r with
  | zero => simp [deserialize] at h
  | succ f ih =>
    rw [deserialize_succ] at h
    split at h
    · simp at h
    · exact deserializeWith_consumes (deserialize f)
        (fun typeId s v r h1 => by have := ih typeId s v r h1; omega) _ s v r h

/-! ## The bound on the nesting is never reached -/

theorem wrap_eq_error {α : Type} (f : α → Variant ex) (x : Except Failure (α × Stream))
    (e : Failure) (h : wrap f x = .error e) : x = .error e := by
  cases x with
  | error e1 =>
    simp only [wrap, Except.error.injEq] at h
    rw [h]
  | ok p =>
    obtain ⟨a, r1⟩ := p
    simp [wrap] at h

theorem integral_error (width : Nat) (s : Stream) (e : Failure)
    (h : IntegralTypeHandler.deserialize width s = .error e) : e = .streamFail := by
  simp only [IntegralTypeHandler.deserialize] at h
  split at h
  · simp at h
  · simpa using h.symm

theorem signed_error (width : Nat) (s : Stream) (e : Failure)
    (h : IntegralTypeHandler.deserializeSigned width s = .error e) : e = .streamFail := by
  simp only [IntegralTypeHandler.deserializeSigned] at h
  split at h
  · simp at h
  · next e1 he =>
    simp only [Except.error.injEq] at h
    rw [← h]
    exact integral_error width s e1 he

theorem bool_error (s : Stream) (e : Failure)
    (h : TypeHandler.bool.deserialize s = .error e) : e = .streamFail := by
  simp only [TypeHandler.bool.deserialize] at h
  split at h
  · simp at h
  · next e1 he =>
    simp only [Except.error.injEq] at h
    rw [← h]
    exact integral_error 1 s e1 he

theorem char_error (s : Stream) (e : Failure)
    (h : TypeHandler.char.deserialize s = .error e) : e = .streamFail := by
  cases s with
  | nil => simpa [TypeHandler.char.deserialize] using h.symm
  | cons b s1 => simp [TypeHandler.char.deserialize] at h

theorem string_error (s : Stream) (e : Failure)
    (h : TypeHandler.string.deserialize s = .error e) : e = .streamFail := by
  simp only [TypeHandler.string.deserialize] at h
  split at h
  · next e1 he =>
    simp only [Except.error.injEq] at h
    rw [← h]
    exact integral_error 8 s e1 he
  · split at h
    · simp at h
    · simpa using h.symm

theorem float_error (s : Stream) (e : Failure)
    (h : TypeHandler.float.deserialize ex s = .error e) :
    e = .streamFail ∨ e = .badLexicalCast := by
  simp only [TypeHandler.float.deserialize] at h
  split at h
  · next e1 he =>
    simp only [Except.error.injEq] at h
    rw [← h]
    exact Or.inl (string_error s e1 he)
  · split at h
    · simp at h
    · exact Or.inr (by simpa using h.symm)

theorem double_error (s : Stream) (e : Failure)
    (h : TypeHandler.double.deserialize ex s = .error e) :
    e = .streamFail ∨ e = .badLexicalCast := by
  simp only [TypeHandler.double.deserialize] at h
  split at h
  · next e1 he =>
    simp only [Except.error.injEq] at h
    rw [← h]
    exact Or.inl (string_error s e1 he)
  · split at h
    · simp at h
    · exact Or.inr (by simpa using h.symm)

theorem readEntries_within_fuel
    (deser : TypeId → Stream → Except Failure (Variant ex × Stream)) (bound : Nat)
    (hcons : ∀ typeId s v r, deser typeId s = .ok (v, r) → r.length ≤ s.length)
    (hno : ∀ typeId s, s.length < bound → deser typeId s ≠ .error .outOfFuel)
    (count : Nat) (s : Stream) (m : Content ex) (hs : s.length < bound + 10) :
    (readEntries deser count s m).2 ≠ .error .outOfFuel := by
  induction count generalizing s m with
  | zero => simp [readEntries]
  | succ n ih =>
    simp only [readEntries]
    split
    · next e he =>
      have := string_error s e he
      simp [this]
    · next key s1 hkey =>
      have h1 := string_consumes s key s1 hkey
      split
      · next e he =>
        have := integral_error 2 s1 e he
        simp [this]
      · next typeId s2 hid =>
        have h2 := integral_consumes 2 s1 typeId s2 hid
        split
        · next e he =>
          intro hcontra
          simp only [Except.error.injEq] at hcontra
          rw [hcontra] at he
          exact hno typeId s2 (by omega) he
        · next value s3 hv =>
          have h3 := hcons typeId s2 value s3 hv
          exact ih s3 _ (by omega)

theorem operatorRshiftWith_within_fuel
    (deser : TypeId → Stream → Except Failure (Variant ex × Stream)) (bound : Nat)
    (hcons : ∀ typeId s v r, deser typeId s = .ok (v, r) → r.length ≤ s.length)
    (hno : ∀ typeId s, s.length < bound → deser typeId s ≠ .error .outOfFuel)
    (s : Stream) (t : StorageContainer ex) (hs : s.length < bound + 18) :
    (operatorRshiftWith deser s t).2 ≠ .error .outOfFuel := by
  simp only [operatorRshiftWith]
  split
  · next e he =>
    have := integral_error 8 s e he
    simp [this]
  · next size s1 hsize =>
    have h1 := integral_consumes 8 s size s1 hsize
    exact readEntries_within_fuel deser bound hcons hno size s1 [] (by omega)

theorem container_deserialize_within_fuel
    (deser : TypeId → Stream → Except Failure (Variant ex × Stream)) (bound : Nat)
    (hcons : ∀ typeId s v r, deser typeId s = .ok (v, r) → r.length ≤ s.length)
    (hno : ∀ typeId s, s.length < bound → deser typeId s ≠ .error .outOfFuel)
    (s : Stream) (hs : s.length < bound + 18) :
    TypeHandler.storageContainer.deserializeWith deser s ≠ .error .outOfFuel := by
  have h := operatorRshiftWith_within_fuel deser bound hcons hno s StorageContainer.empty hs
  unfold TypeHandler.storageContainer.deserializeWith
  split
  · simp
  · next e heq =>
    rw [heq] at h
    intro hcontra
    simp only [Except.error.injEq] at hcontra
    rw [hcontra] at h
    exact h rfl

theorem readElements_within_fuel
    (deser : TypeId → Stream → Except Failure (Variant ex × Stream)) (bound : Nat)
    (hcons : ∀ typeId s v r, deser typeId s = .ok (v, r) → r.length ≤ s.length)
    (hno : ∀ typeId s, s.length < bound → deser typeId s ≠ .error .outOfFuel)
    (count : Nat) (s : Stream) (acc : StorageList ex) (hs : s.length < bound + 18) :
    readElements deser count s acc ≠ .error .outOfFuel := by
  induction count generalizing s acc with
  | zero => simp [readElements]
  | succ n ih =>
    simp only [readElements]
    split
    · next e he =>
      intro hcontra
      simp only [Except.error.injEq] at hcontra
      rw [hcontra] at he
      exact container_deserialize_within_fuel deser bound hcons hno s hs he
    · next element s1 he =>
      have h1 := container_deserialize_consumes deser hcons s element s1 he
      exact ih s1 _ (by omega)

theorem list_deserialize_within_fuel
    (deser : TypeId → Stream → Except Failure (Variant ex × Stream)) (bound : Nat)
    (hcons : ∀ typeId s v r, deser typeId s = .ok (v, r) → r.length ≤ s.length)
    (hno : ∀ typeId s, s.length < bound → deser typeId s ≠ .error .outOfFuel)
    (s : Stream) (hs : s.length < bound + 18) :
    TypeHandler.storageList.deserializeWith deser s ≠ .error .outOfFuel := by
  unfold TypeHandler.storageList.deserializeWith
  split
  · next e he =>
    have := integral_error 8 s e he
    simp [this]
  · next size s1 hsize =>
    have h1 := integral_consumes 8 s size s1 hsize
    exact readElements_within_fuel deser bound hcons hno size s1 [] (by omega)

theorem deserializeWith_within_fuel
    (deser : TypeId → Stream → Except Failure (Variant ex × Stream)) (bound : Nat)
    (hcons : ∀ typeId s v r, deser typeId s = .ok (v, r) → r.length ≤ s.length)
    (hno : ∀ typeId s, s.length < bound → deser typeId s ≠ .error .outOfFuel)
    (k : Kind) (s : Stream) (hs : s.length < bound + 18) :
    TypeHandler.deserializeWith deser k s ≠ .error .outOfFuel := by
  intro h
  cases k <;> have ha := wrap_eq_error _ _ _ h
  case bool => have := bool_error s _ ha; simp at this
  case char => have := char_error s _ ha; simp at this
  case int8 => have := signed_error 1 s _ ha; simp at this
  case int16 => have := signed_error 2 s _ ha; simp at this
  case int32 => have := signed_error 4 s _ ha; simp at this
  case int64 => have := signed_error 8 s _ ha; simp at this
  case uint8 => have := integral_error 1 s _ ha; simp at this
  case uint16 => have := integral_error 2 s _ ha; simp at this
  case uint32 => have := integral_error 4 s _ ha; simp at this
  case uint64 => have := integral_error 8 s _ ha; simp at this
  case float => have := float_error s _ ha; simp at this
  case double => have := double_error s _ ha; simp at this
  case string => have := string_error s _ ha; simp at this
  case storageContainer =>
    exact container_deserialize_within_fuel deser bound hcons hno s hs ha
  case storageList => exact list_deserialize_within_fuel deser bound hcons hno s hs ha

theorem deserialize_cons_le (fuel : Nat) (typeId : TypeId) (s : Stream) (v : Variant ex)
    (r : Stream) (h : deserialize fuel typeId s = .ok (v, r)) : r.length ≤ s.length := by
  have := deserialize_consumes fuel typeId s v r h
  omega

theorem deserialize_within_fuel (fuel : Nat) (typeId : TypeId) (s : Stream)
    (hs : s.length < fuel) :
    (deserialize fuel typeId s : Except Failure (Variant ex × Stream)) ≠ .error .outOfFuel := by
  induction fuel generalizing typeId s with
  | zero => omega
  | succ f ih =>
    rw [deserialize_succ]
    split
    · simp
    · exact deserializeWith_within_fuel (deserialize f) f (deserialize_cons_le f)
        (fun typeId s hs1 => ih typeId s hs1) _ s (by omega)

/-! ## More fuel does not change the result -/

theorem readEntries_congr
    (d1 d2 : TypeId → Stream → Except Failure (Variant ex × Stream)) (bound : Nat)
    (hcons : ∀ typeId s v r, d1 typeId s = .ok (v, r) → r.length ≤ s.length)
    (hagree : ∀ typeId s, s.length < bound → d1 typeId s = d2 typeId s)
    (count : Nat) (s : Stream) (m : Content ex) (hs : s.length < bound + 10) :
    readEntries d1 count s m = readEntries d2 count s m := by
  induction count generalizing s m with
  | zero => rfl
  | succ n ih =>
    cases hkey : TypeHandler.string.deserialize s with
    | error e => simp only [readEntries, hkey]
    | ok p =>
      obtain ⟨key, s1⟩ := p
      have h1 := string_consumes s key s1 hkey
      cases hid : IntegralTypeHandler.deserialize 2 s1 with
      | error e => simp only [readEntries, hkey, hid]
      | ok q =>
        obtain ⟨typeId, s2⟩ := q
        have h2 := integral_consumes 2 s1 typeId s2 hid
        have hag := hagree typeId s2 (by omega)
        cases hv : d1 typeId s2 with
        | error e =>
          have hv2 : d2 typeId s2 = .error e := by rw [← hag, hv]
          simp only [readEntries, hkey, hid, hv, hv2]
        | ok w =>
          obtain ⟨value, s3⟩ := w
          have hv2 : d2 typeId s2 = .ok (value, s3) := by rw [← hag, hv]
          have h3 := hcons typeId s2 value s3 hv
          simp only [readEntries, hkey, hid, hv, hv2]
          exact ih s3 _ (by omega)

theorem operatorRshiftWith_congr
    (d1 d2 : TypeId → Stream → Except Failure (Variant ex × Stream)) (bound : Nat)
    (hcons : ∀ typeId s v r, d1 typeId s = .ok (v, r) → r.length ≤ s.length)
    (hagree : ∀ typeId s, s.length < bound → d1 typeId s = d2 typeId s)
    (s : Stream) (t : StorageContainer ex) (hs : s.length < bound + 18) :
    operatorRshiftWith d1 s t = operatorRshiftWith d2 s t := by
  cases hsize : IntegralTypeHandler.deserialize 8 s with
  | error e => simp only [operatorRshiftWith, hsize]
  | ok p =>
    obtain ⟨size, s1⟩ := p
    have h1 := integral_consumes 8 s size s1 hsize
    simp only [operatorRshiftWith, hsize,
      readEntries_congr d1 d2 bound hcons hagree size s1 [] (by omega)]

theorem container_deserialize_congr
    (d1 d2 : TypeId → Stream → Except Failure (Variant ex × Stream)) (bound : Nat)
    (hcons : ∀ typeId s v r, d1 typeId s = .ok (v, r) → r.length ≤ s.length)
    (hagree : ∀ typeId s, s.length < bound → d1 typeId s = d2 typeId s)
    (s : Stream) (hs : s.length < bound + 18) :
    TypeHandler.storageContainer.deserializeWith d1 s
      = TypeHandler.storageContainer.deserializeWith d2 s := by
  unfold TypeHandler.storageContainer.deserializeWith
  rw [operatorRshiftWith_congr d1 d2 bound hcons hagree s StorageContainer.empty hs]

theorem readElements_congr
    (d1 d2 : TypeId → Stream → Except Failure (Variant ex × Stream)) (bound : Nat)
    (hcons : ∀ typeId s v r, d1 typeId s = .ok (v, r) → r.length ≤ s.length)
    (hagree : ∀ typeId s, s.length < bound → d1 typeId s = d2 typeId s)
    (count : Nat) (s : Stream) (acc : StorageList ex) (hs : s.length < bound + 18) :
    readElements d1 count s acc = readElements d2 count s acc := by
  induction count generalizing s acc with
  | zero => rfl
  | succ n ih =>
    have hag := container_deserialize_congr d1 d2 bound hcons hagree s hs
    cases he : TypeHandler.storageContainer.deserializeWith d1 s with
    | error e =>
      have he2 : TypeHandler.storageContainer.deserializeWith d2 s = .error e := by
        rw [← hag, he]
      simp only [readElements, he, he2]
    | ok p =>
      obtain ⟨element, s1⟩ := p
      have he2 : TypeHandler.storageContainer.deserializeWith d2 s = .ok (element, s1) := by
        rw [← hag, he]
      have h1 := container_deserialize_consumes d1 hcons s element s1 he
      simp only [readElements, he, he2]
      exact ih s1 _ (by omega)

theorem list_deserialize_congr
    (d1 d2 : TypeId → Stream → Except Failure (Variant ex × Stream)) (bound : Nat)
    (hcons : ∀ typeId s v r, d1 typeId s = .ok (v, r) → r.length ≤ s.length)
    (hagree : ∀ typeId s, s.length < bound → d1 typeId s = d2 typeId s)
    (s : Stream) (hs : s.length < bound + 18) :
    TypeHandler.storageList.deserializeWith d1 s
      = TypeHandler.storageList.deserializeWith d2 s := by
  cases hsize : IntegralTypeHandler.deserialize 8 s with
  | error e => simp only [TypeHandler.storageList.deserializeWith, hsize]
  | ok p =>
    obtain ⟨size, s1⟩ := p
    have h1 := integral_consumes 8 s size s1 hsize
    simp only [TypeHandler.storageList.deserializeWith, hsize]
    exact readElements_congr d1 d2 bound hcons hagree size s1 [] (by omega)

theorem deserializeWith_congr
    (d1 d2 : TypeId → Stream → Except Failure (Variant ex × Stream)) (bound : Nat)
    (hcons : ∀ typeId s v r, d1 typeId s = .ok (v, r) → r.length ≤ s.length)
    (hagree : ∀ typeId s, s.length < bound → d1 typeId s = d2 typeId s)
    (k : Kind) (s : Stream) (hs : s.length < bound + 18) :
    TypeHandler.deserializeWith d1 k s = TypeHandler.deserializeWith d2 k s := by
  cases k
  case storageContainer =>
    simp only [TypeHandler.deserializeWith,
      container_deserialize_congr d1 d2 bound hcons hagree s hs]
  case storageList =>
    simp only [TypeHandler.deserializeWith,
      list_deserialize_congr d1 d2 bound hcons hagree s hs]
  all_goals rfl

theorem deserialize_more_fuel (fuel more : Nat) (hmore : fuel ≤ more) (typeId : TypeId)
    (s : Stream) (hs : s.length < fuel) :
    (deserialize fuel typeId s : Except Failure (Variant ex × Stream))
      = deserialize more typeId s := by
  induction fuel generalizing more typeId s with
  | zero => omega
  | succ f ih =>
    obtain ⟨m, rfl⟩ : ∃ m, more = m + 1 := ⟨more - 1, by omega⟩
    rw [deserialize_succ, deserialize_succ]
    cases hT : IdToType typeId with
    | none => rfl
    | some T =>
      simp only
      exact deserializeWith_congr (deserialize f) (deserialize m) f (deserialize_cons_le f)
        (fun typeId s hs1 => ih m (by omega) typeId s hs1) _ s (by omega)

theorem operatorRshiftFuel_more_fuel (fuel : Nat) (s : Stream) (t : StorageContainer ex)
    (hfuel : s.length ≤ fuel) : operatorRshiftFuel fuel s t = operatorRshift s t := by
  simp only [operatorRshift, operatorRshiftFuel]
  exact (operatorRshiftWith_congr (deserialize s.length) (deserialize fuel) s.length
    (deserialize_cons_le s.length)
    (fun typeId s1 hs1 => deserialize_more_fuel s.length fuel hfuel typeId s1 hs1)
    s t (by omega)).symm

/-! ## Termination -/

/-- C21: for every stream, `operator>>` ends with a container or with a
failure of the code: the bound on the nesting is never reached, and a larger
bound gives the same result.  Every read takes bytes from the stream: a
returned stream is at least the eight bytes of the count shorter, an entry of
a container takes at least the ten bytes of its key length and `TypeId`, an
element of a list at least eight, and a payload at least one; so a count, as
large as it is, cannot run the loop longer than the stream lasts. -/
theorem deserialization_terminates (s : Stream) (t : StorageContainer ex) :
    (operatorRshift s t).2 ≠ .error .outOfFuel ∧
    (∀ fuel : Nat, s.length ≤ fuel → operatorRshiftFuel fuel s t = operatorRshift s t) ∧
    (∀ r : Stream, (operatorRshift s t).2 = .ok r → r.length + 8 ≤ s.length) ∧
    (∀ (fuel count : Nat) (s1 r : Stream) (m : Content ex),
      (readEntries (deserialize fuel) count s1 m).2 = .ok r → r.length + 10 * count ≤ s1.length) ∧
    (∀ (fuel count : Nat) (s1 r : Stream) (acc l : StorageList ex),
      readElements (deserialize fuel) count s1 acc = .ok (l, r) →
      r.length + 8 * count ≤ s1.length) ∧
    (∀ (fuel : Nat) (typeId : TypeId) (s1 r : Stream) (v : Variant ex),
      deserialize fuel typeId s1 = .ok (v, r) → r.length + 1 ≤ s1.length) := by
  refine ⟨?_, fun fuel hfuel => operatorRshiftFuel_more_fuel fuel s t hfuel, ?_, ?_, ?_, ?_⟩
  · exact operatorRshiftWith_within_fuel (deserialize s.length) s.length
      (deserialize_cons_le s.length)
      (fun typeId s1 hs1 => deserialize_within_fuel s.length typeId s1 hs1) s t (by omega)
  · intro r h
    exact operatorRshiftWith_consumes (deserialize s.length) (deserialize_cons_le s.length)
      s t r h
  · intro fuel count s1 r m h
    exact readEntries_consumes (deserialize fuel) (deserialize_cons_le fuel) count s1 m r h
  · intro fuel count s1 r acc l h
    exact readElements_consumes (deserialize fuel) (deserialize_cons_le fuel) count s1 acc l r h
  · intro fuel typeId s1 r v h
    exact deserialize_consumes fuel typeId s1 v r h

/-- A count of `2 ^ 64 - 1` entries with nothing after it: the first read of
the loop finds the stream exhausted. -/
theorem largest_count_stops :
    operatorRshift (IntegralTypeHandler.serialize 8 (2 ^ 64 - 1))
        (StorageContainer.empty : StorageContainer tenths)
      = (StorageContainer.empty, .error .streamFail) := by
  have h := integral_roundtrip_of_lt 8 (2 ^ 64 - 1) (by norm_num) []
  simp only [List.append_nil] at h
  simp only [operatorRshift, operatorRshiftFuel, operatorRshiftWith, h]
  rw [show (2 ^ 64 - 1 : Nat) = (2 ^ 64 - 2) + 1 from by norm_num]
  rfl

/-! ## A setter and the other keys -/

theorem contains_of_find_eq (c1 c2 : StorageContainer ex) (U : LogicalType) (key : Str)
    (h : find c1.m_content key = find c2.m_content key) :
    c1.contains U key = c2.contains U key := by
  simp only [StorageContainer.contains, rawContains, h]

theorem rawGet_of_find_eq (c1 c2 : StorageContainer ex) (U : LogicalType) (key : Str)
    (d : (TypeInfo.StoredType U).type ex)
    (h : find c1.m_content key = find c2.m_content key) :
    rawGet U c1 key d = rawGet U c2 key d := by
  simp only [rawGet, h]

theorem get_of_find_eq (c1 c2 : StorageContainer ex) (U : LogicalType) (key : Str)
    (d : U.type ex) (h : find c1.m_content key = find c2.m_content key) :
    c1.get U key d = c2.get U key d := by
  cases U <;> simp only [StorageContainer.get] <;> first
    | exact rawGet_of_find_eq _ _ _ _ _ h
    | simp only [getDegree, getPlane, getVector3, getQuaternion, getColourValue,
        contains_of_find_eq c1 c2 _ key h, rawGet_of_find_eq c1 c2 _ key _ h]

theorem find_set_other (c : StorageContainer ex) (T : LogicalType) (key other : Str)
    (v : T.type ex) (h : other ≠ key) :
    find (c.set T key v).m_content other = find c.m_content other := by
  obtain ⟨value, hset⟩ := set_eq_assign c T key v
  rw [hset, m_content_mk]
  exact find_assign_other c.m_content key other _ h

/-- C22: `set<T>(k, v)`, native or compound, leaves the other keys alone: for a
key `k'` other than `k`, the entry found under `k'`, `contains<U>(k')` and
`get<U>(k', d)` are the same after the call as before it. -/
theorem set_touches_only_its_key (c : StorageContainer ex) (T U : LogicalType)
    (key other : Str) (h : other ≠ key) (v : T.type ex) (d : U.type ex) :
    find (c.set T key v).m_content other = find c.m_content other ∧
    (c.set T key v).contains U other = c.contains U other ∧
    (c.set T key v).get U other d = c.get U other d := by
  have hfind := find_set_other c T key other v h
  exact ⟨hfind, contains_of_find_eq _ _ U other hfind, get_of_find_eq _ _ U other d hfind⟩

/-- The frame of C22 on the container of the scenario: storing a vector under
`v` leaves `hp` as it was. -/
theorem set_touches_only_its_key_witness :
    str "hp" ≠ str "v" ∧
    (agent.set .vector3 (str "v") ⟨(10 : Int), (20 : Int), (30 : Int)⟩).get .int32 (str "hp")
      (0 : Int) = agent.get .int32 (str "hp") (0 : Int) ∧
    agent.get .int32 (str "hp") (0 : Int) = .ok (42 : Int) :=
  ⟨by decide,
    (set_touches_only_its_key agent .vector3 .int32 (str "v") (str "hp") (by decide)
      ⟨(10 : Int), (20 : Int), (30 : Int)⟩ (0 : Int)).2.2,
    rfl⟩

end Thrive
